import Mathlib
set_option maxRecDepth 10000

/-!
Verification of the hex connection-game engine: board model, reference
breadth-first win check, incremental union-find connectivity tracker,
position evaluator, opening book, bounded negamax search, and the two
Monte-Carlo tree-search variants.

Modelling conventions.
JavaScript numbers are IEEE doubles; every quantity the claims depend on is
an integer or a small exact fraction, so numbers are modelled by the exact
fraction type Q below (an integer numerator and a positive natural
denominator, not normalised).  Board cell values are 0 (empty), 1 (red,
connects top to bottom) and 2 (blue, connects left to right).  Cell
coordinates are modelled as Int, matching the source which compares them
against 0 (negative coordinates arise in neighbour and bridge offsets).
Mutation is modelled by state passing; JavaScript while-loops are modelled
by structural recursion on an explicit fuel argument chosen large enough,
with the adequacy of the fuel proved where a claim depends on it.
-/

/-- Exact fraction: numerator and positive denominator, not normalised.
Used in place of IEEE doubles; all arithmetic the claims depend on is exact
at this granularity (no square roots or exponentials are modelled). -/
structure Q where
  num : Int
  den : Nat
deriving DecidableEq, Repr

def Q.ofInt (n : Int) : Q := ⟨n, 1⟩

def Q.add (a b : Q) : Q := ⟨a.num * b.den + b.num * a.den, a.den * b.den⟩

def Q.neg (a : Q) : Q := ⟨-a.num, a.den⟩

def Q.sub (a b : Q) : Q := a.add b.neg

def Q.mul (a b : Q) : Q := ⟨a.num * b.num, a.den * b.den⟩

/-- Division.  Division by zero is given the value 0 here; the JavaScript
source produces Infinity or NaN in that case, which only happens in the
centre-control evaluator on boards of size at most 3, and no theorem below
depends on an evaluator value at such a size. -/
def Q.div (a b : Q) : Q :=
  if b.num = 0 then ⟨0, 1⟩
  else if 0 < b.num then ⟨a.num * b.den, a.den * b.num.toNat⟩
  else ⟨-(a.num * b.den), a.den * (-b.num).toNat⟩

def Q.blt (a b : Q) : Bool := a.num * b.den < b.num * a.den

def Q.ble (a b : Q) : Bool := a.num * b.den ≤ b.num * a.den

def Q.max (a b : Q) : Q := if Q.blt a b then b else a

def Q.min (a b : Q) : Q := if Q.blt b a then b else a

/-- Two fractions denote the same rational number. -/
def Q.eqv (a b : Q) : Prop := a.num * b.den = b.num * a.den

instance (a b : Q) : Decidable (Q.eqv a b) := by unfold Q.eqv; infer_instance

/-- 2-dimensional board read, `board[r][c]`; all call sites in the source are
bounds-guarded, out-of-range reads default to 0. -/
def get2D (b : List (List Nat)) (r c : Nat) : Nat := (b.getD r []).getD c 0

/-- 2-dimensional board write, `board[r][c] = v`. -/
def set2D (b : List (List Nat)) (r c : Nat) (v : Nat) : List (List Nat) :=
  b.set r ((b.getD r []).set c v)

/-- Board state (class HexGame of the game module). -/
structure HexGame where
  size : Nat
  board : List (List Nat)
  currentPlayer : Nat
  moveCount : Nat
  gameOver : Bool
  winner : Option Nat
  swapAvailable : Bool
  history : List (Int × Int × Nat)
deriving DecidableEq, Repr

/-- Board dimensions are size x size (the constructor establishes this). -/
def HexGame.WFdims (g : HexGame) : Prop :=
  g.board.length = g.size ∧ ∀ row ∈ g.board, row.length = g.size

instance (g : HexGame) : Decidable g.WFdims := by unfold HexGame.WFdims; infer_instance

def HexGame.cell (g : HexGame) (r c : Int) : Nat := get2D g.board r.toNat c.toNat

/-- HexGame.isValidMove: in bounds, empty, and not the banned centre first
move on the 7x7 board. -/
def HexGame.isValidMove (g : HexGame) (row col : Int) : Bool :=
  if row < 0 || (g.size : Int) ≤ row || col < 0 || (g.size : Int) ≤ col then false
  else if g.cell row col ≠ 0 then false
  else if g.size = 7 ∧ g.moveCount = 0 then
    let center : Int := ((g.size / 2 : Nat) : Int)
    ¬(row = center ∧ col = center)
  else true

/-- HexGame.getNeighbors: the 6-neighbour hex topology, filtered to the board. -/
def HexGame.getNeighbors (g : HexGame) (row col : Int) : List (Int × Int) :=
  [(row - 1, col), (row - 1, col + 1), (row, col - 1),
   (row, col + 1), (row + 1, col - 1), (row + 1, col)].filter
    fun p => 0 ≤ p.1 && p.1 < (g.size : Int) && 0 ≤ p.2 && p.2 < (g.size : Int)

/-- HexGame.getValidMoves: all empty cells in row-major order (the banned
centre first move is not filtered here, exactly as in the source). -/
def HexGame.getValidMoves (g : HexGame) : List (Int × Int) :=
  (List.range g.size).foldl (fun acc r =>
    (List.range g.size).foldl (fun acc c =>
      if get2D g.board r c = 0 then acc ++ [((r : Int), (c : Int))] else acc) acc) []

/-- One step of the breadth-first loop: pop the head of the queue, succeed if
it reaches the target edge, otherwise enqueue and mark unvisited same-side
neighbours.  `fuel` bounds the number of iterations of the source's
while-loop; `2*size*size + 1` is proved sufficient below. -/
def HexGame.bfsLoop (g : HexGame) (player : Nat) (target : Int × Int → Bool) :
    Nat → (Int → Int → Bool) → List (Int × Int) → Bool
  | 0, _, _ => false
  | _ + 1, _, [] => false
  | fuel + 1, visited, (r, c) :: rest =>
    if target (r, c) then true
    else
      let st := (g.getNeighbors r c).foldl
        (fun (st : (Int → Int → Bool) × List (Int × Int)) n =>
          if !(st.1 n.1 n.2) && g.cell n.1 n.2 = player then
            ((fun a b => (a = n.1 ∧ b = n.2 : Bool) || st.1 a b), st.2 ++ [n])
          else st) (visited, rest)
      g.bfsLoop player target fuel st.1 st.2

/-- HexGame.checkWin: reference breadth-first win check.  Red searches from
the top row for the bottom row, blue from the left column for the right
column. -/
def HexGame.checkWin (g : HexGame) (player : Nat) : Bool :=
  if player = 1 then
    let seeds := ((List.range g.size).map fun c : Nat =>
      ((0 : Int), (c : Int))).filter fun p => g.cell p.1 p.2 = 1
    g.bfsLoop 1 (fun p => p.1 = (g.size : Int) - 1) (2 * g.size * g.size + 1)
      (fun a b => decide ((a, b) ∈ seeds)) seeds
  else
    let seeds := ((List.range g.size).map fun r : Nat =>
      ((r : Int), (0 : Int))).filter fun p => g.cell p.1 p.2 = player
    g.bfsLoop player (fun p => p.2 = (g.size : Int) - 1) (2 * g.size * g.size + 1)
      (fun a b => decide ((a, b) ∈ seeds)) seeds

/-- HexGame.makeMove: place the side-to-move's stone if the move is legal and
the game is not over; returns the success flag and the new state. -/
def HexGame.makeMove (g : HexGame) (row col : Int) : Bool × HexGame :=
  if !(g.isValidMove row col) || g.gameOver then (false, g)
  else
    let g1 : HexGame :=
      { g with board := set2D g.board row.toNat col.toNat g.currentPlayer,
               history := g.history ++ [(row, col, g.currentPlayer)],
               moveCount := g.moveCount + 1 }
    let g2 : HexGame := if g1.moveCount = 1 then { g1 with swapAvailable := true } else g1
    if g2.checkWin g2.currentPlayer then
      (true, { g2 with gameOver := true, winner := some g2.currentPlayer })
    else
      (true, { g2 with currentPlayer := if g2.currentPlayer = 1 then 2 else 1,
                       swapAvailable := false })

def swapVal (v : Nat) : Nat := if v = 1 then 2 else if v = 2 then 1 else v

/-- The double loop of HexGame.swapSides: recolour red stones blue and blue
stones red over the size x size grid. -/
def swapBoard (size : Nat) (b : List (List Nat)) : List (List Nat) :=
  (List.range size).foldl (fun b r =>
    (List.range size).foldl (fun b c =>
      let v := get2D b r c
      if v = 1 then set2D b r c 2
      else if v = 2 then set2D b r c 1
      else b) b) b

/-- HexGame.swapSides: one-time whole-board recolour after the first move. -/
def HexGame.swapSides (g : HexGame) : Bool × HexGame :=
  if g.moveCount ≠ 1 || !g.swapAvailable then (false, g)
  else
    (true, { g with board := swapBoard g.size g.board,
                    swapAvailable := false, currentPlayer := 1 })

/-- Dimension bookkeeping for the board states considered below. -/
def Dims (size : Nat) (b : List (List Nat)) : Prop :=
  b.length = size ∧ ∀ r < size, (b.getD r []).length = size

/-- C2 witness: on an empty 3x3 board, the move (5,0) is out of bounds and
is rejected without changing the state. -/
def c2Demo : HexGame :=
  { size := 3, board := [[0, 0, 0], [0, 0, 0], [0, 0, 0]], currentPlayer := 1,
    moveCount := 0, gameOver := false, winner := none, swapAvailable := false,
    history := [] }

/-- C3 witness: a 2x2 board with one red stone after the first move; the
swap succeeds and recolours the stone. -/
def c3Demo : HexGame :=
  { size := 2, board := [[1, 0], [0, 0]], currentPlayer := 2,
    moveCount := 1, gameOver := false, winner := none, swapAvailable := true,
    history := [(0, 0, 1)] }

/-- HexEvaluator.isVirtuallyConnected: bridge-pattern test between two
cells.  The `player` argument is unused in the source body and is kept for
signature fidelity.  Offsets whose coordinate distance is not 2 fall through
to false; the four branches for offsets of distance 3 are unreachable. -/
def HexEvaluator.isVirtuallyConnected (g : HexGame) (pos1 pos2 : Int × Int)
    (player : Nat) : Bool :=
  let r1 := pos1.1
  let c1 := pos1.2
  let dr := pos2.1 - r1
  let dc := pos2.2 - c1
  if dr.natAbs + dc.natAbs = 2 then
    let intermediates : List (Int × Int) :=
      if dr = 2 ∧ dc = 0 then [(r1 + 1, c1 - 1), (r1 + 1, c1)]
      else if dr = -2 ∧ dc = 0 then [(r1 - 1, c1), (r1 - 1, c1 + 1)]
      else if dr = 0 ∧ dc = 2 then [(r1 - 1, c1 + 1), (r1, c1 + 1)]
      else if dr = 0 ∧ dc = -2 then [(r1, c1 - 1), (r1 + 1, c1 - 1)]
      else if dr = 1 ∧ dc = 1 then [(r1, c1 + 1), (r1 + 1, c1)]
      else if dr = -1 ∧ dc = -1 then [(r1 - 1, c1), (r1, c1 - 1)]
      else if dr = 1 ∧ dc = -2 then [(r1, c1 - 1), (r1 + 1, c1 - 1)]
      else if dr = -1 ∧ dc = 2 then [(r1 - 1, c1 + 1), (r1, c1 + 1)]
      else if dr = 2 ∧ dc = -1 then [(r1 + 1, c1 - 1), (r1 + 1, c1)]
      else if dr = -2 ∧ dc = 1 then [(r1 - 1, c1), (r1 - 1, c1 + 1)]
      else []
    decide (intermediates.length = 2) && intermediates.all fun p =>
      !(p.1 < 0 || (g.size : Int) ≤ p.1 || p.2 < 0 || (g.size : Int) ≤ p.2 ||
        g.cell p.1 p.2 ≠ 0)
  else false

/-- Matrix update for the resistance relaxation. -/
def mupd (m : Nat → Nat → Int) (r c : Nat) (v : Int) : Nat → Nat → Int :=
  fun a b => if a = r ∧ b = c then v else m a b

/-- HexEvaluator.calculateResistance: iterative relaxation of a unit
resistance per empty cell, zero per own stone, opponent stones impassable.
All matrix entries are integers, so the matrix is modelled over Int.  The
source runs exactly size*size relaxation passes with an early exit when a
pass changes nothing, which the fuelled iteration reproduces exactly. -/
def resistPass (g : HexGame) (player : Nat) (m : Nat → Nat → Int) :
    (Nat → Nat → Int) × Bool :=
  (List.range g.size).foldl (fun st r =>
    (List.range g.size).foldl (fun (st : (Nat → Nat → Int) × Bool) c =>
      let opponent := if player = 1 then 2 else 1
      if get2D g.board r c = opponent then st
      else
        let cellResistance : Int := if get2D g.board r c = player then 0 else 1
        (g.getNeighbors r c).foldl (fun (st : (Nat → Nat → Int) × Bool) n =>
          let newResistance := st.1 n.1.toNat n.2.toNat + cellResistance
          if newResistance < st.1 r c then (mupd st.1 r c newResistance, true)
          else st) st) st) (m, false)

def resistIter (g : HexGame) (player : Nat) : Nat → (Nat → Nat → Int) → Nat → Nat → Int
  | 0, m => m
  | fuel + 1, m =>
    let st := resistPass g player m
    if st.2 then resistIter g player fuel st.1 else st.1

def HexEvaluator.calculateResistance (g : HexGame) (player : Nat) : Int :=
  let size := g.size
  let INF : Int := 1000000
  let res0 : Nat → Nat → Int :=
    if player = 1 then
      (List.range size).foldl (fun m col =>
        if get2D g.board 0 col = 0 ∨ get2D g.board 0 col = player then
          mupd m 0 col (if get2D g.board 0 col = player then 0 else 1) else m)
        (fun _ _ => INF)
    else
      (List.range size).foldl (fun m row =>
        if get2D g.board row 0 = 0 ∨ get2D g.board row 0 = player then
          mupd m row 0 (if get2D g.board row 0 = player then 0 else 1) else m)
        (fun _ _ => INF)
  let m := resistIter g player (size * size) res0
  if player = 1 then
    (List.range size).foldl (fun acc col => min acc (m (size - 1) col)) INF
  else
    (List.range size).foldl (fun acc row => min acc (m row (size - 1))) INF

/-- Inclusive integer range with `n` entries starting at `lo`. -/
def intRange (lo : Int) (n : Nat) : List Int := (List.range n).map fun i => lo + i

/-- Inclusive natural range from `lo` to `hi`. -/
def natRangeIncl (lo hi : Nat) : List Nat := (List.range (hi + 1 - lo)).map fun i => lo + i

/-- HexEvaluator.evaluateCenterControl.  On boards of size at most 3 the
radius is 0 and the source divides by zero (giving Infinity or NaN); see
the note on Q.div. -/
def HexEvaluator.evaluateCenterControl (g : HexGame) (player : Nat) : Q :=
  let center : Int := ((g.size / 2 : Nat) : Int)
  let radius : Nat := g.size / 4
  let control := (intRange (center - radius) (2 * radius + 1)).foldl (fun control r =>
    (intRange (center - radius) (2 * radius + 1)).foldl (fun (control : Q) c =>
      if 0 ≤ r ∧ r < (g.size : Int) ∧ 0 ≤ c ∧ c < (g.size : Int) then
        if g.cell r c = player then control.add (Q.ofInt 1)
        else if g.cell r c ≠ 0 then control.sub ⟨1, 2⟩
        else control
      else control) control) (Q.ofInt 0)
  control.div (Q.ofInt (radius * radius * 4))

/-- HexEvaluator.evaluateEdgeConnection. -/
def HexEvaluator.evaluateEdgeConnection (g : HexGame) (player : Nat) : Q :=
  let connections :=
    if player = 1 then
      (List.range g.size).foldl (fun (n : Nat) col =>
        let n := if get2D g.board 0 col = player then n + 1 else n
        if get2D g.board (g.size - 1) col = player then n + 1 else n) 0
    else
      (List.range g.size).foldl (fun (n : Nat) row =>
        let n := if get2D g.board row 0 = player then n + 1 else n
        if get2D g.board row (g.size - 1) = player then n + 1 else n) 0
  (Q.ofInt connections).div (Q.ofInt (g.size * 2))

/-- HexEvaluator.countVirtualConnections: number of ordered same-side stone
pairs within the 5x5 window that form a bridge, divided by the cell count. -/
def HexEvaluator.countVirtualConnections (g : HexGame) (player : Nat) : Q :=
  let vcCount := (List.range g.size).foldl (fun n r1 =>
    (List.range g.size).foldl (fun (n : Nat) c1 =>
      if get2D g.board r1 c1 ≠ player then n
      else
        (natRangeIncl (r1 - 2) (Nat.min (g.size - 1) (r1 + 2))).foldl (fun n r2 =>
          (natRangeIncl (c1 - 2) (Nat.min (g.size - 1) (c1 + 2))).foldl (fun (n : Nat) c2 =>
            if r1 = r2 ∧ c1 = c2 then n
            else if get2D g.board r2 c2 ≠ player then n
            else if HexEvaluator.isVirtuallyConnected g ((r1 : Int), (c1 : Int))
                ((r2 : Int), (c2 : Int)) player then n + 1
            else n) n) n) n) 0
  (Q.ofInt vcCount).div (Q.ofInt (g.size * g.size))

/-- HexEvaluator.evaluatePosition: weighted combination; the literals 0.5,
0.2, 0.1 are modelled by the exact fractions they denote. -/
def HexEvaluator.evaluatePosition (g : HexGame) (player : Nat) : Q :=
  let resistance := HexEvaluator.calculateResistance g player
  let centerControl := HexEvaluator.evaluateCenterControl g player
  let edgeConnection := HexEvaluator.evaluateEdgeConnection g player
  let virtualConnections := HexEvaluator.countVirtualConnections g player
  ((((Q.ofInt 1).div (Q.ofInt (1 + resistance))).mul ⟨1, 2⟩).add
    (centerControl.mul ⟨1, 5⟩)).add
    ((edgeConnection.mul ⟨1, 5⟩).add (virtualConnections.mul ⟨1, 10⟩))

/-- Extended number line for the alpha-beta window (JavaScript Infinity). -/
inductive ExtQ where
  | negInf : ExtQ
  | fin : Q → ExtQ
  | posInf : ExtQ
deriving DecidableEq, Repr

def ExtQ.neg : ExtQ → ExtQ
  | negInf => posInf
  | fin q => fin q.neg
  | posInf => negInf

def ExtQ.blt : ExtQ → ExtQ → Bool
  | negInf, negInf => false
  | negInf, fin _ => true
  | negInf, posInf => true
  | fin _, negInf => false
  | fin a, fin b => Q.blt a b
  | fin _, posInf => true
  | posInf, _ => false

def ExtQ.ble (a b : ExtQ) : Bool := !(ExtQ.blt b a)

def ExtQ.max (a b : ExtQ) : ExtQ := if ExtQ.blt a b then b else a

/-- Stable insertion keeping descending score order: an element is placed
after every earlier element whose score is at least its own.  This computes
the same list as the source's stable sort with comparator
(a,b) => b.score - a.score. -/
def insertDesc (x : (Int × Int) × Q) : List ((Int × Int) × Q) → List ((Int × Int) × Q)
  | [] => [x]
  | y :: ys => if Q.blt y.2 x.2 then x :: y :: ys else y :: insertDesc x ys

def sortByScoreDesc (l : List ((Int × Int) × Q)) : List ((Int × Int) × Q) :=
  l.foldl (fun acc x => insertDesc x acc) []

/-- HexHeuristicSearch.orderMoves: score each candidate by hypothetically
placing the stone (a direct board write, not makeMove) and evaluating, sort
descending, truncate to the beam width. -/
def HexHeuristicSearch.orderMoves (g : HexGame) (beamWidth : Nat) : List (Int × Int) :=
  let moves := g.getValidMoves
  let scoredMoves := moves.map fun move =>
    let tempGame : HexGame :=
      { g with board := set2D g.board move.1.toNat move.2.toNat g.currentPlayer }
    (move, HexEvaluator.evaluatePosition tempGame g.currentPlayer)
  ((sortByScoreDesc scoredMoves).take (Nat.max beamWidth 1)).map fun item => item.1

/-- HexHeuristicSearch.evaluate: +-1000 for a decided game from the fixed
`player` argument's perspective, otherwise the evaluator differential
scaled by 100. -/
def HexHeuristicSearch.evaluate (g : HexGame) (player : Nat) : Q :=
  if g.gameOver then
    if g.winner = some player then Q.ofInt 1000
    else if g.winner = some (if player = 1 then 2 else 1) then Q.ofInt (-1000)
    else Q.ofInt 0
  else
    ((HexEvaluator.evaluatePosition g player).sub
      (HexEvaluator.evaluatePosition g (if player = 1 then 2 else 1))).mul (Q.ofInt 100)

/-- Cache key of the bounded search: board contents, side to move, searching
side, and requested depth.  The source uses the string
boardKey|currentPlayer|player|depth, which determines exactly these four
components for a fixed board size; it is modelled by the tuple itself. -/
def HexHeuristicSearch.getCacheKey (g : HexGame) (depth : Nat) (player : Nat) :
    List (List Nat) × Nat × Nat × Nat :=
  (g.board, g.currentPlayer, player, depth)

/-- Memo table; Map.set is modelled by consing (lookup returns the newest
binding for a key, which agrees with overwrite for lookup purposes). -/
abbrev NegamaxCache : Type :=
  List ((List (List Nat) × Nat × Nat × Nat) × (Nat × (ExtQ × Option (Int × Int))))

def NegamaxCache.lookup (cache : NegamaxCache)
    (key : List (List Nat) × Nat × Nat × Nat) :
    Option (Nat × (ExtQ × Option (Int × Int))) :=
  (cache.find? fun e => decide (e.1 = key)).map fun e => e.2

/-- HexHeuristicSearch.negamax: depth-limited alpha-beta with the memo
table.  The per-move loop with its alpha-beta break is modelled by a fold
carrying a stopped flag; the result is the (score, move) pair and the
updated cache.  Note the recursive call passes the unchanged `player` down,
so a leaf is always evaluated from the searching side's perspective. -/
def HexHeuristicSearch.negamax : Nat → HexGame → ExtQ → ExtQ → Nat → Nat →
    NegamaxCache → (ExtQ × Option (Int × Int)) × NegamaxCache
  | depth, g, alpha, beta, player, beamWidth, cache =>
    let cacheKey := HexHeuristicSearch.getCacheKey g depth player
    let cachedResult : Option (ExtQ × Option (Int × Int)) :=
      match NegamaxCache.lookup cache cacheKey with
      | some cached => if depth ≤ cached.1 then some cached.2 else none
      | none => none
    match cachedResult with
    | some result => (result, cache)
    | none =>
      match depth with
      | 0 =>
        let result := (ExtQ.fin (HexHeuristicSearch.evaluate g player), none)
        (result, (cacheKey, 0, result) :: cache)
      | d + 1 =>
        if g.gameOver then
          let result := (ExtQ.fin (HexHeuristicSearch.evaluate g player), none)
          (result, (cacheKey, d + 1, result) :: cache)
        else
          let orderedMoves := HexHeuristicSearch.orderMoves g beamWidth
          match orderedMoves with
          | [] =>
            let result := (ExtQ.fin (HexHeuristicSearch.evaluate g player), none)
            (result, (cacheKey, d + 1, result) :: cache)
          | _ :: _ =>
            let st := orderedMoves.foldl
              (fun (st : ExtQ × Option (Int × Int) × ExtQ × NegamaxCache × Bool) move =>
                let (bestScore, bestMove, alpha2, cache2, stopped) := st
                if stopped then st
                else
                  let child := (g.makeMove move.1 move.2).2
                  let r := HexHeuristicSearch.negamax d child beta.neg alpha2.neg
                    player beamWidth cache2
                  let score := (r.1.1).neg
                  let cache3 := r.2
                  let best2 :=
                    if ExtQ.blt bestScore score then (score, some move)
                    else (bestScore, bestMove)
                  let alpha3 := ExtQ.max alpha2 score
                  if ExtQ.ble beta alpha3 then (best2.1, best2.2, alpha3, cache3, true)
                  else (best2.1, best2.2, alpha3, cache3, false))
              (ExtQ.negInf, none, alpha, cache, false)
            let result := (st.1, st.2.1)
            (result, (cacheKey, d + 1, result) :: st.2.2.2.1)

/-- C7 counterexample board: red stones at (0,1), (2,1) and (1,2) on a 3x3
board.  From (0,1) to (2,1) the checked intermediates are (1,0) and (1,1),
both empty; from (2,1) to (0,1) they are (1,1) and (1,2), and (1,2) is
occupied. -/
def c7Demo : HexGame :=
  { size := 3, board := [[0, 1, 0], [0, 0, 1], [0, 1, 0]], currentPlayer := 2,
    moveCount := 3, gameOver := false, winner := none, swapAvailable := false,
    history := [] }

/-- Game-theoretic value of a position for a side, stated from the claim:
a decided game is worth +1000 to the winner and -1000 to the loser, and
otherwise each side to move picks the legal move optimising its own value.
Defined by recursion on a fuel that exceeds the number of remaining legal
moves at every use below (fuel exhaustion yields 0 and is never reached
there). -/
def minimaxValue : Nat → HexGame → Nat → Int
  | 0, _, _ => 0
  | fuel + 1, g, player =>
    if g.gameOver then (if g.winner = some player then 1000 else -1000)
    else
      let moves := g.getValidMoves.filter fun m => g.isValidMove m.1 m.2
      match moves with
      | [] => 0
      | m :: ms =>
        let vals := (m :: ms).map fun mv => minimaxValue fuel (g.makeMove mv.1 mv.2).2 player
        if g.currentPlayer = player then vals.foldl Max.max (vals.headD 0)
        else vals.foldl Min.min (vals.headD 0)

/-- The empty 1x1 board, red to move: red wins by playing the only cell. -/
def c4Demo : HexGame :=
  { size := 1, board := [[0]], currentPlayer := 1, moveCount := 0,
    gameOver := false, winner := none, swapAvailable := false, history := [] }

/-- The decided 1x1 game: red has just won, so the game is over, the winner
is red, and (since makeMove does not flip the mover on a win) the side to
move is red. -/
def c5Demo : HexGame := (c4Demo.makeMove 0 0).2

/-- Number of stones on a board (used to state the data-model invariant
that moveCount equals the number of occupied cells). -/
def countStones (b : List (List Nat)) : Nat :=
  (b.map fun row => (row.filter fun v => v ≠ 0).length).sum

/-- Pick an element of a table at a random index: Math.floor(Math.random()
times length) is an arbitrary in-range index, modelled by `choice` modulo
the length; an empty table yields none (the source indexes into undefined
and returns null via the or-else). -/
def pickFrom (choice : Nat) (l : List (Int × Int)) : Option (Int × Int) :=
  match l with
  | [] => none
  | _ :: _ => l.get? (choice % l.length)

/-- HexOpeningBook.getOpening7x7.  The boardStr argument is passed but
unused in the source body. -/
def HexOpeningBook.getOpening7x7 (g : HexGame) (moveCount : Nat)
    (_boardStr : List (List Nat)) (choice : Nat) : Option (Int × Int) :=
  let center : Int := 3
  if moveCount = 0 then
    let strongOpenings : List (Int × Int) :=
      [(2, 3), (3, 2), (3, 4), (4, 3), (2, 3), (3, 2), (3, 4), (4, 3)]
    let goodOpenings : List (Int × Int) := [(2, 2), (2, 4), (4, 2), (4, 4)]
    pickFrom choice (strongOpenings ++ goodOpenings)
  else if moveCount = 1 ∧ g.currentPlayer = 2 then
    match g.history with
    | [] => none
    | lastMove :: _ =>
      let row := lastMove.1
      let col := lastMove.2.1
      let fromNeighbors := (g.getNeighbors row col).foldl (fun acc n =>
        if g.isValidMove n.1 n.2 then acc ++ [n] else acc) []
      let strongResponses := (intRange (-2) 5).foldl (fun acc dr =>
        (intRange (-2) 5).foldl (fun acc dc =>
          let nr := row + dr
          let nc := col + dc
          let distToCenter := (nr - center).natAbs + (nc - center).natAbs
          if g.isValidMove nr nc ∧ distToCenter ≤ 2 then acc ++ [(nr, nc)]
          else acc) acc) fromNeighbors
      pickFrom choice strongResponses
  else none

/-- HexOpeningBook.getOpening11x11. -/
def HexOpeningBook.getOpening11x11 (g : HexGame) (moveCount : Nat)
    (_boardStr : List (List Nat)) (choice : Nat) : Option (Int × Int) :=
  if moveCount = 0 then
    pickFrom choice
      [(4, 5), (5, 4), (5, 6), (6, 5), (4, 4), (4, 6), (6, 4), (6, 6),
       (3, 5), (5, 3), (5, 7), (7, 5)]
  else none

/-- HexOpeningBook.getOpening13x13. -/
def HexOpeningBook.getOpening13x13 (g : HexGame) (moveCount : Nat)
    (_boardStr : List (List Nat)) (choice : Nat) : Option (Int × Int) :=
  if moveCount = 0 then
    pickFrom choice
      [(5, 6), (6, 5), (6, 7), (7, 6), (5, 5), (5, 7), (7, 5), (7, 7)]
  else none

/-- HexOpeningBook.getDefaultOpening: legal cells near the centre (the
source's Math.floor(size/6) falls back to 1 when it is 0). -/
def HexOpeningBook.getDefaultOpening (g : HexGame) (choice : Nat) : Option (Int × Int) :=
  let center : Int := ((g.size / 2 : Nat) : Int)
  let offset : Nat := if g.size / 6 = 0 then 1 else g.size / 6
  let candidates := (intRange (-(offset : Int)) (2 * offset + 1)).foldl (fun acc dr =>
    (intRange (-(offset : Int)) (2 * offset + 1)).foldl (fun acc dc =>
      if dr = 0 ∧ dc = 0 then acc
      else
        let r := center + dr
        let c := center + dc
        if g.isValidMove r c then acc ++ [(r, c)] else acc) acc) []
  pickFrom choice candidates

/-- HexOpeningBook.getOpeningMove: consulted only for the first few plies;
dispatches on the board size. -/
def HexOpeningBook.getOpeningMove (g : HexGame) (choice : Nat) : Option (Int × Int) :=
  let moveCount := g.moveCount
  if 4 < moveCount then none
  else
    let boardStr := g.board
    if g.size = 7 then HexOpeningBook.getOpening7x7 g moveCount boardStr choice
    else if g.size = 11 then HexOpeningBook.getOpening11x11 g moveCount boardStr choice
    else if g.size = 13 then HexOpeningBook.getOpening13x13 g moveCount boardStr choice
    else HexOpeningBook.getDefaultOpening g choice

/-- Fresh empty 7x7 game for the opening-book witness. -/
def c8Demo : HexGame :=
  { size := 7, board := List.replicate 7 (List.replicate 7 0), currentPlayer := 1,
    moveCount := 0, gameOver := false, winner := none, swapAvailable := false,
    history := [] }

/-- Inclusive integer range from lo to hi. -/
def intRangeIncl (lo hi : Int) : List Int := intRange lo (hi + 1 - lo).toNat

/-- MCTSNode.completesVirtualConnection: the hypothetical move joins at
least two virtual connections around an adjacent friendly stone. -/
def MCTSNode.completesVirtualConnection (g : HexGame) (row col : Int) : Bool :=
  let player := g.currentPlayer
  let vcCount := (g.getNeighbors row col).foldl (fun n nb =>
    if g.cell nb.1 nb.2 = player then
      (intRangeIncl (max 0 (row - 2)) (min ((g.size : Int) - 1) (row + 2))).foldl (fun n r =>
        (intRangeIncl (max 0 (col - 2)) (min ((g.size : Int) - 1) (col + 2))).foldl
          (fun (n : Nat) c =>
            if g.cell r c = player ∧ (r ≠ nb.1 ∨ c ≠ nb.2) then
              if HexEvaluator.isVirtuallyConnected g (row, col) (r, c) player then n + 1
              else n
            else n) n) n
    else n) 0
  2 ≤ vcCount

/-- MCTSNode.isEdgeTemplate. -/
def MCTSNode.isEdgeTemplate (g : HexGame) (row col : Int) (player : Nat) : Bool :=
  if player = 1 then
    if row ≤ 1 then 0 < col ∧ col < (g.size : Int) - 1
    else if (g.size : Int) - 2 ≤ row then 0 < col ∧ col < (g.size : Int) - 1
    else false
  else
    if col ≤ 1 then 0 < row ∧ row < (g.size : Int) - 1
    else if (g.size : Int) - 2 ≤ col then 0 < row ∧ row < (g.size : Int) - 1
    else false

/-- MCTSNode.prioritizeMoves: order candidate moves by the tactical score of
the source (immediate win 10000, block 5000, evaluator times 15, neighbour
and template bonuses, opening centre bias), stably sorted descending. -/
def MCTSNode.prioritizeMoves (g : HexGame) (moves : List (Int × Int)) : List (Int × Int) :=
  let scoredMoves := moves.map fun move =>
    let row := move.1
    let col := move.2
    let tempGame : HexGame :=
      { g with board := set2D g.board row.toNat col.toNat g.currentPlayer }
    if tempGame.checkWin g.currentPlayer then (move, Q.ofInt 10000)
    else
      let opponent := if g.currentPlayer = 1 then 2 else 1
      let blockGame : HexGame :=
        { g with board := set2D g.board row.toNat col.toNat opponent }
      let score0 : Q := if blockGame.checkWin opponent then Q.ofInt 5000 else Q.ofInt 0
      let positionScore := HexEvaluator.evaluatePosition tempGame g.currentPlayer
      let score1 := score0.add (positionScore.mul (Q.ofInt 15))
      let fe := (g.getNeighbors row col).foldl (fun (fe : Nat × Q) nb =>
        if g.cell nb.1 nb.2 = g.currentPlayer then (fe.1 + 1, fe.2.add (Q.ofInt 4))
        else if g.cell nb.1 nb.2 ≠ 0 then (fe.1, fe.2.add ⟨5, 2⟩)
        else fe) (0, score1)
      let score2 := if 2 ≤ fe.1 then fe.2.add (Q.ofInt 10) else fe.2
      let score3 :=
        if MCTSNode.completesVirtualConnection g row col then score2.add (Q.ofInt 12)
        else score2
      let score4 :=
        if MCTSNode.isEdgeTemplate g row col g.currentPlayer then score3.add (Q.ofInt 8)
        else score3
      let score5 :=
        if g.moveCount < 6 then
          let center : Int := ((g.size / 2 : Nat) : Int)
          let distance : Int := (row - center).natAbs + (col - center).natAbs
          score4.add ((Q.ofInt ((g.size : Int) - distance)).mul ⟨7, 10⟩)
        else score4
      (move, score5)
  (sortByScoreDesc scoredMoves).map fun item => item.1

/-- Search-tree node of the standard MCTS, held in an arena (list) with
parent and child links as indices, mirroring the parent/child object graph. -/
structure MCTSNode where
  game : HexGame
  aiPlayer : Nat
  move : Option (Int × Int)
  parent : Option Nat
  children : List Nat
  wins : Nat
  visits : Nat
  raveWins : Nat
  raveVisits : Nat
  untriedMoves : List (Int × Int)
deriving DecidableEq, Repr

abbrev MCTSPool : Type := List MCTSNode

def MCTSNode.dummy : MCTSNode :=
  { game := { size := 0, board := [], currentPlayer := 0, moveCount := 0,
              gameOver := true, winner := none, swapAvailable := false, history := [] },
    aiPlayer := 0, move := none, parent := none, children := [], wins := 0,
    visits := 0, raveWins := 0, raveVisits := 0, untriedMoves := [] }

/-- MCTSNode constructor: untried moves are the valid moves pre-sorted by
prioritizeMoves. -/
def MCTSNode.mk0 (game : HexGame) (aiPlayer : Nat) (move : Option (Int × Int))
    (parent : Option Nat) : MCTSNode :=
  { game := game, aiPlayer := aiPlayer, move := move, parent := parent,
    children := [], wins := 0, visits := 0, raveWins := 0, raveVisits := 0,
    untriedMoves := MCTSNode.prioritizeMoves game game.getValidMoves }

/-- MCTSNode.findSimulationCriticalMove: first immediate winning move for
the side to move (by a direct board write), else first immediate winning
move of the opponent (a forced block). -/
def MCTSNode.findSimulationCriticalMove (game : HexGame) : Option (Int × Int) :=
  let moves := game.getValidMoves
  match moves.find? (fun m =>
    HexGame.checkWin
      { game with board := set2D game.board m.1.toNat m.2.toNat game.currentPlayer }
      game.currentPlayer) with
  | some m => some m
  | none =>
    let opponent := if game.currentPlayer = 1 then 2 else 1
    moves.find? fun m =>
      HexGame.checkWin
        { game with board := set2D game.board m.1.toNat m.2.toNat opponent } opponent

/-- One simulated playout and its move record.  Each playedMoves entry
records the move together with simGame.currentPlayer read after makeMove,
exactly as the source does: for a non-winning move this is the opponent of
the mover, and for the game-winning move it is the mover (makeMove does not
flip the side on a win). -/
structure SimResult where
  winner : Option Nat
  playedMoves : List ((Int × Int) × Nat)
deriving DecidableEq, Repr

/-- MCTSNode.simulate.  The heuristic softmax sampling of the source uses
Math.exp and Math.random and cannot be modelled exactly; it always selects
some element of the current valid-move list, and is abstracted by the
`pick` parameter, which is never consulted in the concrete runs proved
below (every simulated ply there has a critical move).  The fuel exceeds
one per remaining move at every call site. -/
def MCTSNode.simulate (pick : HexGame → List (Int × Int) → (Int × Int)) :
    Nat → HexGame → List ((Int × Int) × Nat) → SimResult
  | 0, simGame, acc => { winner := simGame.winner, playedMoves := acc }
  | fuel + 1, simGame, acc =>
    if simGame.gameOver then { winner := simGame.winner, playedMoves := acc }
    else
      match simGame.getValidMoves with
      | [] => { winner := simGame.winner, playedMoves := acc }
      | mv :: rest =>
        let selectedMove :=
          match MCTSNode.findSimulationCriticalMove simGame with
          | some criticalMove => criticalMove
          | none => pick simGame (mv :: rest)
        let simGame2 := (simGame.makeMove selectedMove.1 selectedMove.2).2
        MCTSNode.simulate pick fuel simGame2
          (acc ++ [(selectedMove, simGame2.currentPlayer)])

/-- MCTSNode.backpropagate, walking the parent chain: increment the visit
count, increment the win count when the winner is the AI side, and for each
child of the parent whose move occurs in playedMoves with recorded player
equal to the *current node's* side to move, increment its RAVE visit count
(and its RAVE win count when the winner is the AI side). -/
def MCTSNode.backpropagate (result : SimResult) :
    Nat → MCTSPool → Nat → MCTSPool
  | 0, pool, _ => pool
  | fuel + 1, pool, idx =>
    let n := pool.getD idx MCTSNode.dummy
    let pool := pool.set idx
      { n with visits := n.visits + 1,
               wins := if result.winner = some n.aiPlayer then n.wins + 1 else n.wins }
    match n.parent with
    | none => pool
    | some pidx =>
      let parent := pool.getD pidx MCTSNode.dummy
      let pool := parent.children.foldl (fun pool cidx =>
        let child := pool.getD cidx MCTSNode.dummy
        match child.move with
        | none => pool
        | some childMove =>
          if result.playedMoves.any (fun pm =>
              pm.1 = childMove ∧ pm.2 = n.game.currentPlayer) then
            pool.set cidx
              { child with raveVisits := child.raveVisits + 1,
                           raveWins := if result.winner = some child.aiPlayer then
                             child.raveWins + 1 else child.raveWins }
          else pool) pool
      MCTSNode.backpropagate result fuel pool pidx

/-- MCTSNode.expand: pop the most promising untried move and append the new
child to the arena (the empty case cannot be reached: callers guard on a
nonempty untried list). -/
def MCTSNode.expand (pool : MCTSPool) (idx : Nat) : MCTSPool × Nat :=
  let n := pool.getD idx MCTSNode.dummy
  match n.untriedMoves with
  | [] => (pool, idx)
  | move :: rest =>
    let newGame := (n.game.makeMove move.1 move.2).2
    let newIdx := pool.length
    let child := MCTSNode.mk0 newGame n.aiPlayer (some move) (some idx)
    ((pool.set idx { n with untriedMoves := rest, children := n.children ++ [newIdx] })
      ++ [child], newIdx)

/-- Tree-descent phase of one MCTS iteration.  The ucb1+rave child score of
the source uses Math.log and Math.sqrt, which cannot be modelled exactly;
whichever child the score comparison selects, it is always one of the
children, so the choice is abstracted by `selector` (taken modulo the child
count).  The descent is not entered in the concrete runs proved below.  The
source throws on a fully expanded childless non-terminal node (reduce of an
empty array). -/
def mctsSelect (pool : MCTSPool) (selector : MCTSPool → Nat → Nat) :
    Nat → Nat → Except String Nat
  | 0, idx => .ok idx
  | fuel + 1, idx =>
    let n := pool.getD idx MCTSNode.dummy
    if n.untriedMoves = [] ∧ !n.game.gameOver then
      match h : n.children with
      | [] => .error "TypeError: reduce of empty array with no initial value"
      | c :: cs =>
        mctsSelect pool selector fuel ((c :: cs).getD (selector pool idx % (c :: cs).length) 0)
    else .ok idx

/-- One iteration of the MCTS loop of getBestMove: selection, expansion
(with the progressive-widening gate), simulation and backpropagation.  Also
returns the simulation result so that statements below can refer to the
episode. -/
def mctsIteration (selector : MCTSPool → Nat → Nat)
    (pick : HexGame → List (Int × Int) → (Int × Int))
    (progressiveWidening : Bool) (iterationsPerExpansion : Nat) (i : Nat)
    (pool : MCTSPool) : Except String (MCTSPool × SimResult) :=
  match mctsSelect pool selector (pool.length + 1) 0 with
  | .error e => .error e
  | .ok nodeIdx =>
    let n0 := pool.getD nodeIdx MCTSNode.dummy
    let expanded :=
      if !n0.game.gameOver ∧ n0.untriedMoves ≠ [] then
        if !progressiveWidening ∨ i % iterationsPerExpansion = 0 then
          MCTSNode.expand pool nodeIdx
        else (pool, nodeIdx)
      else (pool, nodeIdx)
    let pool := expanded.1
    let nodeIdx := expanded.2
    let n := pool.getD nodeIdx MCTSNode.dummy
    let result := MCTSNode.simulate pick (n.game.getValidMoves.length + 1) n.game []
    .ok (MCTSNode.backpropagate result (pool.length + 1) pool nodeIdx, result)

/-- The iteration loop of getBestMove. -/
def mctsRunAux (selector : MCTSPool → Nat → Nat)
    (pick : HexGame → List (Int × Int) → (Int × Int))
    (progressiveWidening : Bool) (iterationsPerExpansion : Nat) :
    Nat → Nat → MCTSPool → Except String MCTSPool
  | _, 0, pool => .ok pool
  | i, k + 1, pool =>
    match mctsIteration selector pick progressiveWidening iterationsPerExpansion i pool with
    | .error e => .error e
    | .ok (pool2, _) =>
      mctsRunAux selector pick progressiveWidening iterationsPerExpansion (i + 1) k pool2

/-- Difficulty labels of the MCTS AI presets. -/
inductive Difficulty where
  | easy : Difficulty
  | medium : Difficulty
  | hard : Difficulty
deriving DecidableEq, Repr

/-- MCTSAI.shouldUseHeuristicSearch. -/
def MCTSAI.shouldUseHeuristicSearch (g : HexGame) (label : Difficulty) : Bool :=
  let smallBoard := g.size ≤ 7
  let mediumBoard := g.size ≤ 11
  let remaining := g.getValidMoves.length
  let hardMode := label = Difficulty.hard
  let mediumMode := label = Difficulty.medium
  if remaining ≤ 15 then true
  else if smallBoard ∧ remaining ≤ 25 then true
  else if mediumBoard ∧ (mediumMode ∨ hardMode) ∧ remaining ≤ 35 then true
  else if hardMode ∧ remaining ≤ 40 then true
  else false

/-- MCTSAI.getHeuristicConfig: (maxDepth, beamWidth). -/
def MCTSAI.getHeuristicConfig (g : HexGame) (label : Difficulty) : Nat × Nat :=
  let remaining := g.getValidMoves.length
  let hardMode := label = Difficulty.hard
  if g.size ≤ 7 then
    if 30 < remaining then (if hardMode then 5 else 4, 12)
    else if 20 < remaining then (if hardMode then 6 else 5, 10)
    else if 10 < remaining then (if hardMode then 8 else 6, 8)
    else (if hardMode then 10 else 8, 6)
  else if g.size ≤ 11 then
    if remaining ≤ 15 then (if hardMode then 7 else 5, 7)
    else if remaining ≤ 25 then (if hardMode then 5 else 4, 8)
    else (4, 10)
  else
    if remaining ≤ 12 then (if hardMode then 6 else 5, 6)
    else (4, 8)

/-- MCTSAI.findTwoMoveWin: first move after which the player has two
distinct immediate winning follow-ups (direct board writes). -/
def MCTSAI.findTwoMoveWin (g : HexGame) (player : Nat) : Option (Int × Int) :=
  g.getValidMoves.find? fun move1 =>
    let t1 : HexGame := { g with board := set2D g.board move1.1.toNat move1.2.toNat player }
    2 ≤ t1.getValidMoves.countP fun move2 =>
      HexGame.checkWin
        { t1 with board := set2D t1.board move2.1.toNat move2.2.toNat player } player

/-- MCTSAI.findVirtualConnectionThreat: first empty cell that intrudes on at
least two opponent bridge patterns. -/
def MCTSAI.findVirtualConnectionThreat (g : HexGame) : Option (Int × Int) :=
  let opponent := if g.currentPlayer = 1 then 2 else 1
  let bridgePatterns : List ((Int × Int) × (Int × Int) × (Int × Int) × (Int × Int)) :=
    [((-1, -1), (1, 1), (0, -1), (1, 0)),
     ((-1, 0), (1, -1), (0, -1), (-1, -1)),
     ((-1, 1), (0, -1), (-1, 0), (0, 0)),
     ((0, 1), (1, -1), (1, 0), (0, 0)),
     ((1, 0), (-1, 1), (0, 1), (0, 0)),
     ((0, -1), (-1, 1), (-1, 0), (0, 0))]
  g.getValidMoves.find? fun move =>
    let row := move.1
    let col := move.2
    let inb : Int → Int → Bool := fun r c =>
      0 ≤ r && r < (g.size : Int) && 0 ≤ c && c < (g.size : Int)
    let bridgeThreats := bridgePatterns.countP fun pat =>
      let s1r := row + pat.1.1
      let s1c := col + pat.1.2
      let s2r := row + pat.2.1.1
      let s2c := col + pat.2.1.2
      let b1r := row + pat.2.2.1.1
      let b1c := col + pat.2.2.1.2
      let b2r := row + pat.2.2.2.1
      let b2c := col + pat.2.2.2.2
      inb s1r s1c && inb s2r s2c && inb b1r b1c && inb b2r b2c &&
        decide (g.cell s1r s1c = opponent) && decide (g.cell s2r s2c = opponent) &&
        decide (g.cell b1r b1c = 0) && decide (g.cell b2r b2c = 0)
    2 ≤ bridgeThreats

/-- MCTSAI.findCriticalMove: immediate win, else first immediate block,
else two-move win and block when at most 20 moves remain, else a double
bridge-intrusion threat. -/
def MCTSAI.findCriticalMove (g : HexGame) : Option (Int × Int) :=
  let opponent := if g.currentPlayer = 1 then 2 else 1
  let moves := g.getValidMoves
  match moves.find? (fun m =>
    let t := (g.makeMove m.1 m.2).2
    t.gameOver ∧ t.winner = some g.currentPlayer) with
  | some m => some m
  | none =>
    let immediateThreats := moves.filter fun m =>
      HexGame.checkWin
        { g with board := set2D g.board m.1.toNat m.2.toNat opponent } opponent
    match immediateThreats with
    | t :: _ => some t
    | [] =>
      match (if moves.length ≤ 20 then MCTSAI.findTwoMoveWin g g.currentPlayer else none) with
      | some m => some m
      | none =>
        match (if moves.length ≤ 20 then MCTSAI.findTwoMoveWin g opponent else none) with
        | some m => some m
        | none => MCTSAI.findVirtualConnectionThreat g

/-- MCTSAI.getBestMove: opening book, critical-move check, the deterministic
heuristic search gate, then the MCTS loop and the robust final child
selection.  JavaScript TypeErrors (selectChild reducing an empty children
array; reading root.children[0] of an empty list) are modelled as
Except.error. -/
def MCTSAI.getBestMove (simulations : Nat) (aiPlayer : Nat) (label : Difficulty)
    (g : HexGame) (choice : Nat) (selector : MCTSPool → Nat → Nat)
    (pick : HexGame → List (Int × Int) → (Int × Int)) :
    Except String (Option (Int × Int)) :=
  match HexOpeningBook.getOpeningMove g choice with
  | some bookMove => .ok (some bookMove)
  | none =>
    match MCTSAI.findCriticalMove g with
    | some criticalMove => .ok (some criticalMove)
    | none =>
      let heuristicMove : Option (Int × Int) :=
        if MCTSAI.shouldUseHeuristicSearch g label then
          let cfg := MCTSAI.getHeuristicConfig g label
          (HexHeuristicSearch.negamax cfg.1 g ExtQ.negInf ExtQ.posInf aiPlayer cfg.2 []).1.2
        else none
      match heuristicMove with
      | some m => .ok (some m)
      | none =>
        let pool0 : MCTSPool := [MCTSNode.mk0 g aiPlayer none none]
        let progressiveWidening := 11 < g.size
        let iterationsPerExpansion := if progressiveWidening then 50 else 1
        match mctsRunAux selector pick progressiveWidening iterationsPerExpansion
            0 simulations pool0 with
        | .error e => .error e
        | .ok pool =>
          let rootN := pool.getD 0 MCTSNode.dummy
          match rootN.children with
          | [] => .error "TypeError: cannot read visits of undefined"
          | c0 :: _ =>
            let first := pool.getD c0 MCTSNode.dummy
            let st := rootN.children.foldl (fun (st : MCTSNode × Nat × Q) cidx =>
              let bestChild := st.1
              let maxVisits := st.2.1
              let bestWinRate := st.2.2
              let child := pool.getD cidx MCTSNode.dummy
              let childWinRate := (Q.ofInt child.wins).div (Q.ofInt (Nat.max child.visits 1))
              if Q.blt (Q.mul (Q.ofInt maxVisits) ⟨23, 20⟩) (Q.ofInt child.visits) then
                (child, child.visits, childWinRate)
              else if Q.ble (Q.mul (Q.ofInt maxVisits) ⟨17, 20⟩) (Q.ofInt child.visits) then
                if maxVisits < child.visits ∨
                    (Q.ble (Q.mul (Q.ofInt maxVisits) ⟨19, 20⟩) (Q.ofInt child.visits) ∧
                      Q.blt bestWinRate childWinRate) then
                  (child, child.visits, childWinRate)
                else st
              else st)
              (first, first.visits, (Q.ofInt first.wins).div (Q.ofInt (Nat.max first.visits 1)))
            .ok st.1.move

/-- RandomAI.getMove: null when no valid move exists; in smart mode first an
immediate win, then a random blocking move, then (for a first move on 7x7)
a random non-centre move, then a uniformly random valid move. -/
def RandomAI.getMove (smartMode : Bool) (g : HexGame) (choice : Nat) :
    Option (Int × Int) :=
  match g.getValidMoves with
  | [] => none
  | mv :: rest =>
    let validMoves := mv :: rest
    if smartMode then
      match validMoves.find? (fun m =>
        let t := (g.makeMove m.1 m.2).2
        t.gameOver ∧ t.winner = some g.currentPlayer) with
      | some m => some m
      | none =>
        let opponent := if g.currentPlayer = 1 then 2 else 1
        let blockingMoves := validMoves.filter fun m =>
          HexGame.checkWin
            { g with board := set2D g.board m.1.toNat m.2.toNat opponent } opponent
        match blockingMoves with
        | b :: bs => pickFrom choice (b :: bs)
        | [] =>
          if g.size = 7 ∧ g.moveCount = 0 then
            let center : Int := ((g.size / 2 : Nat) : Int)
            let filteredMoves := validMoves.filter fun m =>
              !(m.1 = center ∧ m.2 = center : Bool)
            match filteredMoves with
            | f :: fs => pickFrom choice (f :: fs)
            | [] => pickFrom choice validMoves
          else pickFrom choice validMoves
    else pickFrom choice validMoves

/-- C6 scenario board (4x4): red stones at (0,0), (2,0), (2,1), (2,2),
(3,1), (3,2); blue stones at (0,1), (0,2), (1,0), (1,1), (1,2), (2,3);
empty cells (0,3), (1,3), (3,0), (3,3); red to move.  Neither side has won;
red has no immediate winning move; blue has exactly the two immediate
winning moves (0,3) and (1,3). -/
def c6Game : HexGame :=
  { size := 4,
    board := [[1, 2, 2, 0], [2, 2, 2, 0], [1, 1, 1, 2], [0, 1, 1, 0]],
    currentPlayer := 1, moveCount := 12, gameOver := false, winner := none,
    swapAvailable := false, history := [] }

/-- Softmax-sampling stand-in for the C6 runs; never consulted there
because every simulated ply has a critical move. -/
def c6Pick : HexGame → List (Int × Int) → (Int × Int) := fun _ ms => ms.headD (0, 0)

/-- Child-selection stand-in for the C6 runs; never consulted there because
the root is never fully expanded. -/
def c6Selector : MCTSPool → Nat → Nat := fun _ _ => 0

def c6Pool0 : MCTSPool := [MCTSNode.mk0 c6Game 1 none none]

def c6Step1 : Except String (MCTSPool × SimResult) :=
  mctsIteration c6Selector c6Pick false 1 0 c6Pool0

def c6Pool1 : MCTSPool := match c6Step1 with | .ok (p, _) => p | .error _ => []

def c6Step2 : Except String (MCTSPool × SimResult) :=
  mctsIteration c6Selector c6Pick false 1 1 c6Pool1

def c6Pool2 : MCTSPool := match c6Step2 with | .ok (p, _) => p | .error _ => []

def c6Result2 : SimResult := match c6Step2 with | .ok (_, r) => r | .error _ => ⟨none, []⟩

/-- Pointwise update of a flat array modelled as a function. -/
def updF (f : Nat → Nat) (i v : Nat) : Nat → Nat := fun j => if j = i then v else f j

/-- First loop of UnionFind.find: chase parents to the root.  The fuel is
the number of cells, which exceeds every chain length of a valid forest
(proved below). -/
def UnionFind.findRoot (parent : Nat → Nat) : Nat → Nat → Nat
  | 0, root => root
  | fuel + 1, root =>
    if parent root = root then root else UnionFind.findRoot parent fuel (parent root)

/-- Second loop of UnionFind.find: path compression (each node on the chain
is repointed at the root; the successor is read before the write). -/
def UnionFind.compress (root : Nat) : Nat → (Nat → Nat) → Nat → (Nat → Nat)
  | 0, parent, _ => parent
  | fuel + 1, parent, curr =>
    if curr = root then parent
    else
      let next := parent curr
      UnionFind.compress root fuel (updF parent curr root) next

/-- UnionFind.find with path compression: the root and the updated parent
array. -/
def UnionFind.find (parent : Nat → Nat) (fuel i : Nat) : Nat × (Nat → Nat) :=
  let root := UnionFind.findRoot parent fuel i
  (root, UnionFind.compress root fuel parent i)

/-- Flat array-backed game of the optimized variant, with the union-find
connectivity tracker and the construction-time snapshots used by reset. -/
structure FastHexGame where
  size : Nat
  board : Nat → Nat
  emptyCells : List Nat
  movesHistory : List (Nat × Nat)
  currentPlayer : Nat
  parent : Nat → Nat
  groupStatus : Nat → Nat
  filledCount : Nat
  initialBoard : Nat → Nat
  initialPlayer : Nat
  initialEmpty : List Nat
  initialGroupStatus : Nat → Nat
  initialUF : Nat → Nat
  initialFilledCount : Nat

/-- In-bounds hex neighbours of a flat index, in the dr/dc table order of
the source's getNeighborsIdx. -/
def neighborsIdx (size idx : Nat) : List Nat :=
  let r : Int := ((idx / size : Nat) : Int)
  let c : Int := ((idx % size : Nat) : Int)
  [((-1 : Int), (0 : Int)), (-1, 1), (0, -1), (0, 1), (1, -1), (1, 0)].foldl
    (fun ns d =>
      let nr := r + d.1
      let nc := c + d.2
      if 0 ≤ nr ∧ nr < (size : Int) ∧ 0 ≤ nc ∧ nc < (size : Int) then
        ns ++ [nr.toNat * size + nc.toNat]
      else ns) []

/-- FastHexGame.getNeighborsIdx. -/
def FastHexGame.getNeighborsIdx (s : FastHexGame) (idx : Nat) : List Nat :=
  neighborsIdx s.size idx

/-- FastHexGame.initCell: boundary-status bits for a newly considered stone,
ORed into its group root (red cells get the top/bottom bits 1/2, others the
left/right bits 4/8). -/
def FastHexGame.initCell (s : FastHexGame) (idx player : Nat) : FastHexGame :=
  let r := idx / s.size
  let c := idx % s.size
  let status : Nat :=
    if player = 1 then
      (if r = 0 then 1 else 0) ||| (if r = s.size - 1 then 2 else 0)
    else
      (if c = 0 then 4 else 0) ||| (if c = s.size - 1 then 8 else 0)
  let fr := UnionFind.find s.parent (s.size * s.size) idx
  { s with parent := fr.2,
           groupStatus := updF s.groupStatus fr.1 (s.groupStatus fr.1 ||| status) }

/-- FastHexGame.unionGroups: merge two cells' groups, ORing the boundary
masks onto the new root (the source re-finds the two roots inside uf.union
and once more afterwards; the extra finds are no-ops kept for fidelity). -/
def FastHexGame.unionGroups (s : FastHexGame) (i j : Nat) : FastHexGame :=
  let n := s.size * s.size
  let f1 := UnionFind.find s.parent n i
  let rootI := f1.1
  let f2 := UnionFind.find f1.2 n j
  let rootJ := f2.1
  if rootI ≠ rootJ then
    let status := s.groupStatus rootI ||| s.groupStatus rootJ
    let f3 := UnionFind.find f2.2 n rootI
    let f4 := UnionFind.find f3.2 n rootJ
    let parent2 := if f3.1 ≠ f4.1 then updF f4.2 f3.1 f4.1 else f4.2
    let f5 := UnionFind.find parent2 n rootI
    { s with parent := f5.2, groupStatus := updF s.groupStatus f5.1 status }
  else { s with parent := f2.2 }

/-- FastHexGame.isValidFirstMove: only the centre of an empty 7x7 board is
excluded. -/
def FastHexGame.isValidFirstMove (s : FastHexGame) (idx : Nat) : Bool :=
  if s.size ≠ 7 then true
  else if s.filledCount ≠ 0 then true
  else
    let center := s.size / 2
    !(idx / s.size = center ∧ idx % s.size = center : Bool)

/-- FastHexGame.getValidMoves. -/
def FastHexGame.getValidMoves (s : FastHexGame) : List (Nat × Nat) :=
  (List.range (s.size * s.size)).foldl (fun moves i =>
    if s.board i = 0 then
      if s.isValidFirstMove i then moves ++ [(i / s.size, i % s.size)] else moves
    else moves) []

/-- Swap-with-last removal from the empty-cell list (indexOf, overwrite
with the last element, pop). -/
def swapPop (cells : List Nat) (idx : Nat) : List Nat :=
  match cells.findIdx? (fun x => x = idx) with
  | none => cells
  | some k => (cells.set k (cells.getD (cells.length - 1) 0)).dropLast

/-- FastHexGame.makeMove: unconditional stone placement with incremental
union-find update (callers only pass empty in-bounds cells). -/
def FastHexGame.makeMove (s : FastHexGame) (r c : Nat) : FastHexGame :=
  let idx := r * s.size + c
  let s := { s with board := updF s.board idx s.currentPlayer,
                    filledCount := s.filledCount + 1,
                    movesHistory := s.movesHistory ++ [(idx, s.currentPlayer)] }
  let s := { s with emptyCells := swapPop s.emptyCells idx }
  let s := s.initCell idx s.currentPlayer
  let s := (s.getNeighborsIdx idx).foldl (fun s n =>
    if s.board n = s.currentPlayer then s.unionGroups idx n else s) s
  { s with currentPlayer := if s.currentPlayer = 1 then 2 else 1 }

/-- Loop of FastHexGame.checkWin over all cells, threading the parent array
through the path-compressing finds. -/
def FastHexGame.checkWinLoop (player winningMask : Nat) :
    FastHexGame → List Nat → Bool × FastHexGame
  | s, [] => (false, s)
  | s, i :: rest =>
    if s.board i = player then
      let fr := UnionFind.find s.parent (s.size * s.size) i
      let s2 := { s with parent := fr.2 }
      if s2.groupStatus fr.1 &&& winningMask = winningMask then (true, s2)
      else FastHexGame.checkWinLoop player winningMask s2 rest
    else FastHexGame.checkWinLoop player winningMask s rest

/-- FastHexGame.checkWin: some group of the side has both of its boundary
bits set (mask 3 for red, 12 for blue). -/
def FastHexGame.checkWin (s : FastHexGame) (player : Nat) : Bool × FastHexGame :=
  let winningMask := if player = 1 then 3 else 12
  FastHexGame.checkWinLoop player winningMask s (List.range (s.size * s.size))

/-- FastHexGame.getCommonEmptyNeighbor. -/
def FastHexGame.getCommonEmptyNeighbor (s : FastHexGame) (n1 n2 exclude : Nat) :
    Option Nat :=
  (s.getNeighborsIdx n1).find? fun n =>
    n ≠ exclude && decide (s.board n = 0) && decide (n ∈ s.getNeighborsIdx n2)

/-- Bridge-saving scan of playoutSmart: first pair of own neighbours of the
opponent's last stone sharing another empty common neighbour. -/
def FastHexGame.findBridgeSave (s : FastHexGame) (oppIdx : Nat) :
    List Nat → Option Nat
  | [] => none
  | n1 :: rest =>
    match rest.findSome? (fun n2 => s.getCommonEmptyNeighbor n1 n2 oppIdx) with
    | some commonIdx => some commonIdx
    | none => FastHexGame.findBridgeSave s oppIdx rest

/-- The centre-retry loop of playoutSmart for the first move on an empty
7x7 board.  Each Math.random draw is consumed from the rng stream; when the
stream runs out the current (centre) pick is kept, which corresponds to the
randomness having been exhausted (the source would keep sampling; no
theorem below depends on that corner). -/
def centerRetry (cells : List Nat) (centerIdx : Nat) :
    List Nat → Nat → Nat × List Nat
  | rng, current =>
    if current ≠ centerIdx then (current, rng)
    else
      match rng with
      | [] => (current, [])
      | r :: rs => centerRetry cells centerIdx rs (cells.getD (r % cells.length) 0)

/-- FastHexGame.playoutSmart: play to completion, saving intruded bridges
first and otherwise picking a uniformly random empty cell (the rng stream
models the Math.random draws).  The fuel bounds the while-loop; note the
source does not increment filledCount during a playout.  Returns the
winner (0 for the unreachable draw) and the final state. -/
def FastHexGame.playoutSmart : List Nat → Nat → FastHexGame → Nat × FastHexGame
  | _, 0, s => (0, s)
  | rng, fuel + 1, s =>
    let c1 := s.checkWin 1
    if c1.1 then (1, c1.2)
    else
      let c2 := c1.2.checkWin 2
      if c2.1 then (2, c2.2)
      else
        let s := c2.2
        match s.emptyCells with
        | [] => (0, s)
        | e :: es =>
          let bridgeMove : Option Nat :=
            match s.movesHistory.getLast? with
            | none => none
            | some lastMove =>
              let myPlayer := s.currentPlayer
              let myNeighbors := (s.getNeighborsIdx lastMove.1).filter
                (fun n => s.board n = myPlayer)
              s.findBridgeSave lastMove.1 myNeighbors
          let picked : Nat × List Nat :=
            match bridgeMove with
            | some b => (b, rng)
            | none =>
              let cells := e :: es
              let first := cells.getD (rng.headD 0 % cells.length) 0
              let rng1 := rng.tail
              if s.size = 7 ∧ s.filledCount = 0 then
                let centerIdx := (s.size / 2) * s.size + s.size / 2
                centerRetry cells centerIdx rng1 first
              else (first, rng1)
          let idx := picked.1
          let s := { s with board := updF s.board idx s.currentPlayer,
                            movesHistory := s.movesHistory ++ [(idx, s.currentPlayer)] }
          let s := { s with emptyCells := swapPop s.emptyCells idx }
          let s := s.initCell idx s.currentPlayer
          let s := (s.getNeighborsIdx idx).foldl (fun s n =>
            if s.board n = s.currentPlayer then s.unionGroups idx n else s) s
          let s := { s with currentPlayer := if s.currentPlayer = 1 then 2 else 1 }
          FastHexGame.playoutSmart picked.2 fuel s

/-- FastHexGame constructor: flatten the source board, seed each stone's
boundary bits, union all same-side adjacencies, then snapshot every field
for reset. -/
def FastHexGame.init (sourceGame : HexGame) : FastHexGame :=
  let size := sourceGame.size
  let n := size * size
  let boardF : Nat → Nat :=
    fun i => if i < n then get2D sourceGame.board (i / size) (i % size) else 0
  let s0 : FastHexGame :=
    { size := size, board := boardF,
      emptyCells := (List.range n).filter (fun i => boardF i = 0),
      movesHistory := [], currentPlayer := sourceGame.currentPlayer,
      parent := fun i => i, groupStatus := fun _ => 0, filledCount := 0,
      initialBoard := fun _ => 0, initialPlayer := 0, initialEmpty := [],
      initialGroupStatus := fun _ => 0, initialUF := fun i => i,
      initialFilledCount := 0 }
  let s1 := (List.range n).foldl
    (fun s i => if s.board i ≠ 0 then s.initCell i (s.board i) else s) s0
  let s2 := (List.range n).foldl (fun s i =>
    if s.board i ≠ 0 then
      (s.getNeighborsIdx i).foldl (fun s nb =>
        if s.board nb = s.board i then s.unionGroups i nb else s) s
    else s) s1
  { s2 with initialBoard := s2.board, initialPlayer := s2.currentPlayer,
            initialEmpty := s2.emptyCells, initialGroupStatus := s2.groupStatus,
            initialUF := s2.parent,
            filledCount := n - s2.emptyCells.length,
            initialFilledCount := n - s2.emptyCells.length }

/-- FastHexGame.reset: restore every construction-time snapshot and clear
the move history. -/
def FastHexGame.reset (s : FastHexGame) : FastHexGame :=
  { s with board := s.initialBoard, currentPlayer := s.initialPlayer,
           emptyCells := s.initialEmpty, movesHistory := [],
           groupStatus := s.initialGroupStatus, parent := s.initialUF,
           filledCount := s.initialFilledCount }

/-- Operations a caller can interleave on a FastHexGame: makeMove, or a
smart playout with a given stream of random draws. -/
inductive FastOp where
  | move : Nat → Nat → FastOp
  | playout : List Nat → FastOp

def FastHexGame.applyOp (s : FastHexGame) : FastOp → FastHexGame
  | FastOp.move r c => s.makeMove r c
  | FastOp.playout rng => (FastHexGame.playoutSmart rng (s.emptyCells.length + 1) s).2

def FastHexGame.applyOps (s : FastHexGame) (ops : List FastOp) : FastHexGame :=
  ops.foldl FastHexGame.applyOp s

/-- The six construction-time snapshot fields, bundled for the preservation
argument. -/
def FastHexGame.snapshots (s : FastHexGame) :
    (Nat → Nat) × Nat × List Nat × (Nat → Nat) × (Nat → Nat) × Nat :=
  (s.initialBoard, s.initialPlayer, s.initialEmpty, s.initialGroupStatus,
    s.initialUF, s.initialFilledCount)

/-- The canonical union-find root of a cell: the source's root-chasing loop
run with fuel n (the cell count), which exceeds every chain length of a
valid parent forest. -/
def rootF (n : Nat) (p : Nat → Nat) (i : Nat) : Nat := UnionFind.findRoot p n i

/-- A parent node is its own parent exactly at a root. -/
def IsRoot (p : Nat → Nat) (i : Nat) : Prop := p i = i

/-- Iterated parent. -/
def iterP (p : Nat → Nat) : Nat → Nat → Nat
  | 0, i => i
  | k + 1, i => iterP p k (p i)

/-- The parent-chain from i reaches the root r. -/
def Reaches (p : Nat → Nat) (i r : Nat) : Prop :=
  ∃ k, iterP p k i = r ∧ IsRoot p r

/-- Two cells lie in the same union-find tree. -/
def SameRoot (p : Nat → Nat) (a b : Nat) : Prop :=
  ∃ r, Reaches p a r ∧ Reaches p b r

/-- Validity of a parent array over n cells: bounded, and every chain
reaches a root. -/
def UFInv (n : Nat) (p : Nat → Nat) : Prop :=
  ∀ i < n, p i < n ∧ ∃ r, Reaches p i r

/-- Same-value adjacency between occupied flat cells: the link relation of
the connectivity graph the tracker maintains. -/
def cellLink (n : Nat) (board : Nat → Nat) (a b : Nat) : Prop :=
  a < n * n ∧ b < n * n ∧ b ∈ neighborsIdx n a ∧ board a ≠ 0 ∧ board a = board b

/-- Connectivity: reflexive-transitive closure of same-value adjacency. -/
def cellConn (n : Nat) (board : Nat → Nat) : Nat → Nat → Prop :=
  Relation.ReflTransGen (cellLink n board)

/-- Boundary bits a cell contributes to its group, as assigned by
FastHexGame.initCell: red stones get bits 1/2 for the top/bottom rows,
other stones bits 4/8 for the left/right columns, empty cells nothing. -/
def cellBits (n : Nat) (board : Nat → Nat) (i : Nat) : Nat :=
  if board i = 0 then 0
  else if board i = 1 then
    (if i / n = 0 then 1 else 0) ||| (if i / n = n - 1 then 2 else 0)
  else
    (if i % n = 0 then 4 else 0) ||| (if i % n = n - 1 then 8 else 0)

/-- A side's starting edge, on flat indices. -/
def startEdge (n player i : Nat) : Prop :=
  if player = 1 then i / n = 0 else i % n = 0

/-- A side's target edge, on flat indices. -/
def endEdge (n player i : Nat) : Prop :=
  if player = 1 then i / n = n - 1 else i % n = n - 1

/-- The winning condition both win checks are proved equivalent to: a chain
of the side's stones joining its two edges. -/
def winSpec (n : Nat) (board : Nat → Nat) (player : Nat) : Prop :=
  ∃ a b, a < n * n ∧ b < n * n ∧ board a = player ∧ board b = player ∧
    startEdge n player a ∧ endEdge n player b ∧ cellConn n board a b

/-- Sequential validity of a replayed move list: each move is in bounds and
lands on a then-empty cell. -/
def FastHexGame.replayValid : FastHexGame → List (Nat × Nat) → Bool
  | _, [] => true
  | s, (r, c) :: rest =>
    if r < s.size ∧ c < s.size ∧ s.board (r * s.size + c) = 0 then
      FastHexGame.replayValid (s.makeMove r c) rest
    else false

def FastHexGame.replay (s : FastHexGame) (moves : List (Nat × Nat)) : FastHexGame :=
  moves.foldl (fun s m => s.makeMove m.1 m.2) s

/-- Rebuild a 2-dimensional HexGame holding the tracker's current grid (the
reference win check reads only the size and the board). -/
def HexGame.ofFast (s : FastHexGame) : HexGame :=
  { size := s.size,
    board := (List.range s.size).map fun r =>
      (List.range s.size).map fun c => s.board (r * s.size + c),
    currentPlayer := s.currentPlayer, moveCount := s.filledCount,
    gameOver := false, winner := none, swapAvailable := false, history := [] }

/-- The union-find partition is a faithful picture of the link relation L:
trees coincide with the connected components of L on the first N cells. -/
def GoodUF (N : Nat) (p : Nat → Nat) (L : Nat → Nat → Prop) : Prop :=
  UFInv N p ∧ ∀ a, a < N → ∀ b, b < N →
    (SameRoot p a b ↔ Relation.ReflTransGen L a b)

/-- Each tree root's status word is the OR of its members' boundary bits,
bit by bit. -/
def GoodStatus (N : Nat) (p g bits : Nat → Nat) : Prop :=
  ∀ r, r < N → IsRoot p r → ∀ t, ((g r).testBit t = true ↔
    ∃ b, b < N ∧ Reaches p b r ∧ (bits b).testBit t = true)

/-- Links of the current board restricted away from the cell x (the picture
right after a stone lands on x, before its adjacencies are unioned in). -/
def cellLinkAway (n : Nat) (B : Nat → Nat) (x a b : Nat) : Prop :=
  cellLink n B a b ∧ a ≠ x ∧ b ≠ x

/-- A base link relation enlarged by the board links joining x to the cells
already processed by a union fold. -/
def addLinks (n : Nat) (B : Nat → Nat) (x : Nat) (L0 : Nat → Nat → Prop)
    (done : List Nat) (a b : Nat) : Prop :=
  L0 a b ∨ (a = x ∧ b ∈ done ∧ cellLink n B x b) ∨
    (b = x ∧ a ∈ done ∧ cellLink n B a x)

/-- Board links with at least one endpoint among the first k cells (the
prefix the constructor's union pass has handled). -/
def cellLinkBelow (n : Nat) (B : Nat → Nat) (k a b : Nat) : Prop :=
  cellLink n B a b ∧ (a < k ∨ b < k)

/-- The boundary-status word FastHexGame.initCell assigns a stone of the
given side on the given cell. -/
def statusBits (n idx player : Nat) : Nat :=
  if player = 1 then
    (if idx / n = 0 then 1 else 0) ||| (if idx / n = n - 1 then 2 else 0)
  else
    (if idx % n = 0 then 4 else 0) ||| (if idx % n = n - 1 then 8 else 0)

/-- The k-cell prefix of the constructor's second pass: union every stone
among the first k cells with its same-side neighbours (named so the pass can
be reasoned about one cell at a time; the constructor runs it for all
size*size cells). -/
def initUnionPass (s : FastHexGame) (k : Nat) : FastHexGame :=
  (List.range k).foldl (fun t i =>
    if t.board i ≠ 0 then
      (t.getNeighborsIdx i).foldl (fun t2 nb =>
        if t2.board nb = t2.board i then t2.unionGroups i nb else t2) t
    else t) s

/-- The full tracker invariant: the union-find partition matches board
connectivity and every root's status word collects its tree's boundary
bits. -/
def TrackOK (s : FastHexGame) : Prop :=
  GoodUF (s.size * s.size) s.parent (cellLink s.size s.board) ∧
  GoodStatus (s.size * s.size) s.parent s.groupStatus (cellBits s.size s.board)

/-- A cell joined by a same-side chain to the side's starting edge. -/
def seedConn (n : Nat) (B : Nat → Nat) (player i : Nat) : Prop :=
  ∃ a, a < n * n ∧ B a = player ∧ startEdge n player a ∧ cellConn n B a i

/-- Flat index of an in-board Int coordinate pair. -/
def toIdx (n : Nat) (r c : Int) : Nat := r.toNat * n + c.toNat

/-- Soundness invariant of the breadth-first search's visited set: every
visited coordinate is an in-board cell of the searched side joined to the
side's starting edge by a same-side chain. -/
def BfsVisOK (g : HexGame) (player : Nat) (V : Int → Int → Bool) : Prop :=
  ∀ r c : Int, V r c = true →
    0 ≤ r ∧ r < (g.size : Int) ∧ 0 ≤ c ∧ c < (g.size : Int) ∧
    get2D g.board r.toNat c.toNat = player ∧
    seedConn g.size (fun i => get2D g.board (i / g.size) (i % g.size)) player
      (r.toNat * g.size + c.toNat)

/-- Every start-edge cell of the side is already visited. -/
def BfsSeeded (g : HexGame) (player : Nat) (V : Int → Int → Bool) : Prop :=
  ∀ a, a < g.size * g.size →
    get2D g.board (a / g.size) (a % g.size) = player →
    startEdge g.size player a →
    V ((a / g.size : Nat) : Int) ((a % g.size : Nat) : Int) = true

/-- The queue holds distinct, already-visited coordinates. -/
def BfsQueueOK (V : Int → Int → Bool) (Q : List (Int × Int)) : Prop :=
  Q.Nodup ∧ ∀ q, q ∈ Q → V q.1 q.2 = true

/-- Every visited coordinate no longer in the queue has been fully
processed: it missed the target edge and all its same-side neighbours are
visited. -/
def BfsClosed (g : HexGame) (player : Nat) (target : Int × Int → Bool)
    (V : Int → Int → Bool) (Q : List (Int × Int)) : Prop :=
  ∀ r c : Int, V r c = true → (r, c) ∉ Q →
    target (r, c) = false ∧
    ∀ y, y ∈ g.getNeighbors r c → g.cell y.1 y.2 = player → V y.1 y.2 = true

/-- Count of the player's board cells the breadth-first search has not
visited yet: the decreasing part of the loop measure. -/
def unvisCount (g : HexGame) (player : Nat) (V : Int → Int → Bool) : Nat :=
  ((Finset.range g.size ×ˢ Finset.range g.size).filter
    (fun q => get2D g.board q.1 q.2 = player ∧ V (q.1 : Int) (q.2 : Int) = false)).card

/-- A 2x2 demonstration game: empty board, red to move. -/
def c1DemoG : HexGame :=
  { size := 2, board := [[0, 0], [0, 0]], currentPlayer := 1, moveCount := 0,
    gameOver := false, winner := none, swapAvailable := false, history := [] }

/-- Red takes (0,0) and (1,0), joining top to bottom; blue takes (0,1). -/
def c1DemoMoves : List (Nat × Nat) := [(0, 0), (0, 1), (1, 0)]

-- ===================== THEOREMS =====================

theorem updF_self (f : Nat → Nat) (i v : Nat) : updF f i v i = v := by
  simp [updF]

theorem updF_ne (f : Nat → Nat) (i v j : Nat) (h : j ≠ i) : updF f i v j = f j := by
  simp [updF, h]

theorem iterP_add (p : Nat → Nat) (m : Nat) :
    ∀ k i, iterP p (k + m) i = iterP p m (iterP p k i) := by
  intro k
  induction k with
  | zero => intro i; simp [iterP]
  | succ k ih =>
    intro i
    have h1 : k + 1 + m = (k + m) + 1 := by omega
    rw [h1, show iterP p ((k + m) + 1) i = iterP p (k + m) (p i) from rfl,
        show iterP p (k + 1) i = iterP p k (p i) from rfl]
    exact ih (p i)

theorem iterP_root (p : Nat → Nat) {r : Nat} (h : IsRoot p r) : ∀ k, iterP p k r = r := by
  have h' : p r = r := h
  intro k
  induction k with
  | zero => rfl
  | succ k ih =>
    show iterP p k (p r) = r
    rw [h']
    exact ih

theorem reaches_self {p : Nat → Nat} {r : Nat} (h : IsRoot p r) : Reaches p r r :=
  ⟨0, rfl, h⟩

theorem reaches_isRoot {p : Nat → Nat} {i r : Nat} (h : Reaches p i r) : IsRoot p r :=
  h.choose_spec.2

theorem reaches_step {p : Nat → Nat} {i r : Nat} (h : Reaches p (p i) r) :
    Reaches p i r := by
  obtain ⟨k, hk, hr⟩ := h
  exact ⟨k + 1, by rw [show iterP p (k + 1) i = iterP p k (p i) from rfl, hk], hr⟩

theorem reaches_unique {p : Nat → Nat} {i r r' : Nat}
    (h1 : Reaches p i r) (h2 : Reaches p i r') : r = r' := by
  obtain ⟨k, hk, hr⟩ := h1
  obtain ⟨m, hm, hr'⟩ := h2
  rcases Nat.le_total k m with h | h
  · have e : k + (m - k) = m := by omega
    have hmr : iterP p m i = r := by
      rw [← e, iterP_add p (m - k) k i, hk]
      exact iterP_root p hr (m - k)
    rw [← hm, hmr]
  · have e : m + (k - m) = k := by omega
    have hkr : iterP p k i = r' := by
      rw [← e, iterP_add p (k - m) m i, hm]
      exact iterP_root p hr' (k - m)
    rw [← hk, hkr]

theorem iterP_lt {n : Nat} {p : Nat → Nat} (hb : ∀ i, i < n → p i < n) :
    ∀ k i, i < n → iterP p k i < n := by
  intro k
  induction k with
  | zero => intro i hi; exact hi
  | succ k ih => intro i hi; exact ih (p i) (hb i hi)

theorem reaches_lt {n : Nat} {p : Nat → Nat} (hb : ∀ i, i < n → p i < n)
    {i r : Nat} (hi : i < n) (h : Reaches p i r) : r < n := by
  obtain ⟨k, hk, -⟩ := h
  rw [← hk]
  exact iterP_lt hb k i hi

theorem ufInv_bounded {n : Nat} {p : Nat → Nat} (hinv : UFInv n p) :
    ∀ i, i < n → p i < n := fun i hi => (hinv i hi).1

theorem exists_short_chain {n : Nat} {p : Nat → Nat} (hb : ∀ i, i < n → p i < n) :
    ∀ k i r, i < n → iterP p k i = r → ∃ m, m ≤ n ∧ iterP p m i = r := by
  intro k
  induction k using Nat.strong_induction_on with
  | _ k ih =>
    intro i r hi hk
    rcases Nat.le_total k n with h | h
    · exact ⟨k, h, hk⟩
    · have hmap : ∀ j ∈ Finset.range (n + 1), iterP p j i ∈ Finset.range n := by
        intro j _
        exact Finset.mem_range.mpr (iterP_lt hb j i hi)
      have hcard : (Finset.range n).card < (Finset.range (n + 1)).card := by simp
      obtain ⟨x, hx, y, hy, hxy, hfeq⟩ :=
        Finset.exists_ne_map_eq_of_card_lt_of_maps_to hcard hmap
      have key : ∀ a c, a < c → c ≤ n → iterP p a i = iterP p c i →
          ∃ m, m ≤ n ∧ iterP p m i = r := by
        intro a c hac hcn heq
        have hck : c ≤ k := le_trans hcn h
        have e1 : c + (k - c) = k := by omega
        have e2 : iterP p (a + (k - c)) i = r := by
          rw [iterP_add p (k - c) a i, heq, ← iterP_add p (k - c) c i, e1]
          exact hk
        exact ih (a + (k - c)) (by omega) i r hi e2
      rcases Nat.lt_or_ge x y with hlt | hge
      · exact key x y hlt (Nat.lt_succ_iff.mp (Finset.mem_range.mp hy)) hfeq
      · have hylt : y < x := by omega
        exact key y x hylt (Nat.lt_succ_iff.mp (Finset.mem_range.mp hx)) hfeq.symm

theorem findRoot_eq {p : Nat → Nat} :
    ∀ fuel k i r, k ≤ fuel → iterP p k i = r → IsRoot p r →
      UnionFind.findRoot p fuel i = r := by
  intro fuel
  induction fuel with
  | zero =>
    intro k i r hk hit _
    have hk0 : k = 0 := Nat.le_zero.mp hk
    rw [hk0] at hit
    exact hit
  | succ fuel ih =>
    intro k i r hk hit hr
    show (if p i = i then i else UnionFind.findRoot p fuel (p i)) = r
    by_cases hpi : p i = i
    · rw [if_pos hpi]
      have hii : iterP p k i = i := iterP_root p hpi k
      rw [hii] at hit
      exact hit
    · rw [if_neg hpi]
      cases k with
      | zero =>
        have hir : i = r := hit
        rw [← hir] at hr
        exact absurd (hr : p i = i) hpi
      | succ k =>
        exact ih k (p i) r (Nat.succ_le_succ_iff.mp hk) hit hr

theorem rootF_eq {n : Nat} {p : Nat → Nat} (hinv : UFInv n p) {i r : Nat}
    (hi : i < n) (h : Reaches p i r) : rootF n p i = r := by
  obtain ⟨k, hk, hr⟩ := h
  obtain ⟨m, hm, hit⟩ := exists_short_chain (ufInv_bounded hinv) k i r hi hk
  show UnionFind.findRoot p n i = r
  exact findRoot_eq n m i r hm hit hr

theorem rootF_reaches {n : Nat} {p : Nat → Nat} (hinv : UFInv n p) {i : Nat}
    (hi : i < n) : Reaches p i (rootF n p i) := by
  obtain ⟨-, r, hr⟩ := hinv i hi
  rw [rootF_eq hinv hi hr]
  exact hr

theorem sameRoot_symm {p : Nat → Nat} {a b : Nat} (h : SameRoot p a b) :
    SameRoot p b a := by
  obtain ⟨r, h1, h2⟩ := h
  exact ⟨r, h2, h1⟩

theorem sameRoot_trans {p : Nat → Nat} {a b c : Nat} (h1 : SameRoot p a b)
    (h2 : SameRoot p b c) : SameRoot p a c := by
  obtain ⟨r, ha, hb⟩ := h1
  obtain ⟨r', hb', hc⟩ := h2
  rw [reaches_unique hb hb'] at ha
  exact ⟨r', ha, hc⟩

theorem sameRoot_iff_rootF {n : Nat} {p : Nat → Nat} (hinv : UFInv n p)
    {a b : Nat} (ha : a < n) (hb : b < n) :
    SameRoot p a b ↔ rootF n p a = rootF n p b := by
  constructor
  · rintro ⟨r, h1, h2⟩
    rw [rootF_eq hinv ha h1, rootF_eq hinv hb h2]
  · intro h
    exact ⟨rootF n p b, h ▸ rootF_reaches hinv ha, rootF_reaches hinv hb⟩

theorem isRoot_updF {p : Nat → Nat} {x r0 r : Nat} (hx : Reaches p x r0)
    (hr : IsRoot p r) : IsRoot (updF p x r0) r := by
  show updF p x r0 r = r
  by_cases hrx : r = x
  · rw [hrx, updF_self]
    exact reaches_unique hx ⟨0, rfl, hrx ▸ hr⟩
  · rw [updF_ne p x r0 r hrx]
    exact hr

theorem reaches_updRoot_fwd {p : Nat → Nat} {x r0 : Nat} (hx : Reaches p x r0) :
    ∀ k i r, iterP p k i = r → IsRoot p r → Reaches (updF p x r0) i r := by
  intro k
  induction k with
  | zero =>
    intro i r hit hr
    exact ⟨0, hit, isRoot_updF hx hr⟩
  | succ k ih =>
    intro i r hit hr
    by_cases hix : i = x
    · have hxr : Reaches p x r := hix ▸ (⟨k + 1, hit, hr⟩ : Reaches p i r)
      have hr0 : r = r0 := reaches_unique hxr hx
      refine ⟨1, ?_, isRoot_updF hx hr⟩
      show iterP (updF p x r0) 0 (updF p x r0 i) = r
      rw [hix, updF_self, hr0]
      rfl
    · have hnext : Reaches (updF p x r0) (p i) r := ih (p i) r hit hr
      obtain ⟨m, hm, hmr⟩ := hnext
      refine ⟨m + 1, ?_, hmr⟩
      show iterP (updF p x r0) m (updF p x r0 i) = r
      rw [updF_ne p x r0 i hix]
      exact hm

theorem reaches_updRoot_bwd {p : Nat → Nat} {x r0 : Nat} (hx : Reaches p x r0) :
    ∀ k i r, iterP (updF p x r0) k i = r → IsRoot (updF p x r0) r →
      Reaches p i r := by
  have hrootb : ∀ r, IsRoot (updF p x r0) r → IsRoot p r := by
    intro r hr
    have hcase : updF p x r0 r = r := hr
    by_cases hrx : r = x
    · rw [hrx, updF_self] at hcase
      rw [hrx, ← hcase]
      exact reaches_isRoot hx
    · rw [updF_ne p x r0 r hrx] at hcase
      exact hcase
  intro k
  induction k with
  | zero =>
    intro i r hit hr
    exact ⟨0, hit, hrootb r hr⟩
  | succ k ih =>
    intro i r hit hr
    have hit' : iterP (updF p x r0) k (updF p x r0 i) = r := hit
    by_cases hix : i = x
    · have h2 : Reaches p (updF p x r0 i) r := ih (updF p x r0 i) r hit' hr
      rw [hix, updF_self] at h2
      have hr0 : r = r0 := reaches_unique h2 (reaches_self (reaches_isRoot hx))
      rw [hix, hr0]
      exact hx
    · have h2 : Reaches p (updF p x r0 i) r := ih (updF p x r0 i) r hit' hr
      rw [updF_ne p x r0 i hix] at h2
      exact reaches_step h2

theorem sameClasses_updRoot {p : Nat → Nat} {x r0 : Nat} (hx : Reaches p x r0) :
    ∀ i r, Reaches (updF p x r0) i r ↔ Reaches p i r := by
  intro i r
  constructor
  · rintro ⟨k, hk, hr⟩
    exact reaches_updRoot_bwd hx k i r hk hr
  · rintro ⟨k, hk, hr⟩
    exact reaches_updRoot_fwd hx k i r hk hr

theorem compress_spec :
    ∀ (fuel : Nat) (p : Nat → Nat) (curr r0 : Nat), Reaches p curr r0 →
      ∀ i r, Reaches (UnionFind.compress r0 fuel p curr) i r ↔ Reaches p i r := by
  intro fuel
  induction fuel with
  | zero => exact fun p curr r0 _ i r => Iff.rfl
  | succ fuel ih =>
    intro p curr r0 hcur i r
    by_cases hc : curr = r0
    · rw [show UnionFind.compress r0 (fuel + 1) p curr = p from by
        show (if curr = r0 then p else _) = p
        rw [if_pos hc]]
    · have hstep := sameClasses_updRoot hcur
      have hnext : Reaches p (p curr) r0 := by
        obtain ⟨k, hk, hr⟩ := hcur
        cases k with
        | zero => exact absurd hk hc
        | succ m => exact ⟨m, hk, hr⟩
      have hnext1 : Reaches (updF p curr r0) (p curr) r0 :=
        (hstep (p curr) r0).mpr hnext
      have hih := ih (updF p curr r0) (p curr) r0 hnext1
      rw [show UnionFind.compress r0 (fuel + 1) p curr
          = UnionFind.compress r0 fuel (updF p curr r0) (p curr) from by
        show (if curr = r0 then p else _) = _
        rw [if_neg hc]]
      exact (hih i r).trans (hstep i r)

theorem compress_bounded {n : Nat} :
    ∀ (fuel : Nat) (p : Nat → Nat) (curr r0 : Nat), (∀ i, i < n → p i < n) →
      r0 < n → ∀ i, i < n → UnionFind.compress r0 fuel p curr i < n := by
  intro fuel
  induction fuel with
  | zero => intro p curr r0 hb _ i hi; exact hb i hi
  | succ fuel ih =>
    intro p curr r0 hb hr0 i hi
    by_cases hc : curr = r0
    · rw [show UnionFind.compress r0 (fuel + 1) p curr = p from by
        show (if curr = r0 then p else _) = p
        rw [if_pos hc]]
      exact hb i hi
    · rw [show UnionFind.compress r0 (fuel + 1) p curr
          = UnionFind.compress r0 fuel (updF p curr r0) (p curr) from by
        show (if curr = r0 then p else _) = _
        rw [if_neg hc]]
      refine ih (updF p curr r0) (p curr) r0 ?_ hr0 i hi
      intro j hj
      by_cases hjc : j = curr
      · rw [hjc, updF_self]
        exact hr0
      · rw [updF_ne p curr r0 j hjc]
        exact hb j hj

theorem ufInv_of_sameClasses {n : Nat} {p q : Nat → Nat} (hinv : UFInv n p)
    (hb : ∀ i, i < n → q i < n)
    (hcl : ∀ i r, Reaches q i r ↔ Reaches p i r) : UFInv n q := by
  intro i hi
  refine ⟨hb i hi, ?_⟩
  obtain ⟨-, r, hr⟩ := hinv i hi
  exact ⟨r, (hcl i r).mpr hr⟩

theorem find_spec {n : Nat} {p : Nat → Nat} (hinv : UFInv n p) {i : Nat}
    (hi : i < n) :
    (UnionFind.find p n i).1 = rootF n p i ∧
    (∀ a r, Reaches (UnionFind.find p n i).2 a r ↔ Reaches p a r) ∧
    UFInv n (UnionFind.find p n i).2 := by
  have hroot := rootF_reaches hinv hi
  have hcl := compress_spec n p i (rootF n p i) hroot
  refine ⟨rfl, hcl, ufInv_of_sameClasses hinv ?_ hcl⟩
  intro j hj
  exact compress_bounded n p i (rootF n p i) (ufInv_bounded hinv)
    (reaches_lt (ufInv_bounded hinv) hi hroot) j hj

theorem rootF_congr {n : Nat} {p q : Nat → Nat} (hp : UFInv n p) (hq : UFInv n q)
    (hcl : ∀ i r, Reaches q i r ↔ Reaches p i r) {i : Nat} (hi : i < n) :
    rootF n q i = rootF n p i :=
  rootF_eq hq hi ((hcl i _).mpr (rootF_reaches hp hi))

theorem sameRoot_congr {p q : Nat → Nat}
    (hcl : ∀ i r, Reaches q i r ↔ Reaches p i r) (a b : Nat) :
    SameRoot q a b ↔ SameRoot p a b := by
  constructor
  · rintro ⟨r, h1, h2⟩
    exact ⟨r, (hcl a r).mp h1, (hcl b r).mp h2⟩
  · rintro ⟨r, h1, h2⟩
    exact ⟨r, (hcl a r).mpr h1, (hcl b r).mpr h2⟩

theorem reaches_merge_fwd {p : Nat → Nat} {x y : Nat} (hx : IsRoot p x)
    (hy : IsRoot p y) (hxy : x ≠ y) :
    ∀ k i r, iterP (updF p x y) k i = r → IsRoot (updF p x y) r →
      (Reaches p i r ∧ r ≠ x) ∨ (Reaches p i x ∧ r = y) := by
  have hrootb : ∀ r, IsRoot (updF p x y) r → IsRoot p r ∧ r ≠ x := by
    intro r hr
    have hcase : updF p x y r = r := hr
    by_cases hrx : r = x
    · rw [hrx, updF_self] at hcase
      exact absurd hcase (Ne.symm hxy)
    · rw [updF_ne p x y r hrx] at hcase
      exact ⟨hcase, hrx⟩
  intro k
  induction k with
  | zero =>
    intro i r hit hr
    obtain ⟨hpr, hrx⟩ := hrootb r hr
    exact Or.inl ⟨⟨0, hit, hpr⟩, hrx⟩
  | succ k ih =>
    intro i r hit hr
    have hit' : iterP (updF p x y) k (updF p x y i) = r := hit
    by_cases hix : i = x
    · have hity : iterP (updF p x y) k y = r := by
        rw [hix, updF_self] at hit'
        exact hit'
      rcases ih y r hity hr with ⟨hyr, hrx⟩ | ⟨hyx, hry⟩
      · have hry : y = r := reaches_unique (reaches_self hy) hyr
        refine Or.inr ⟨?_, hry.symm⟩
        rw [hix]
        exact reaches_self hx
      · exact absurd (reaches_unique (reaches_self hy) hyx).symm hxy
    · have hitp : iterP (updF p x y) k (p i) = r := by
        rw [updF_ne p x y i hix] at hit'
        exact hit'
      rcases ih (p i) r hitp hr with ⟨hpr, hrx⟩ | ⟨hpx, hry⟩
      · exact Or.inl ⟨reaches_step hpr, hrx⟩
      · exact Or.inr ⟨reaches_step hpx, hry⟩

theorem reaches_merge_bwd1 {p : Nat → Nat} {x y : Nat} (hx : IsRoot p x) :
    ∀ k i r, iterP p k i = r → IsRoot p r → r ≠ x → Reaches (updF p x y) i r := by
  intro k
  induction k with
  | zero =>
    intro i r hit hr hrx
    refine ⟨0, hit, ?_⟩
    show updF p x y r = r
    rw [updF_ne p x y r hrx]
    exact hr
  | succ k ih =>
    intro i r hit hr hrx
    by_cases hix : i = x
    · have hreq : r = x := by
        rw [hix] at hit
        rw [← hit]
        exact iterP_root p hx (k + 1)
      exact absurd hreq hrx
    · have h2 := ih (p i) r hit hr hrx
      obtain ⟨m, hm, hmr⟩ := h2
      refine ⟨m + 1, ?_, hmr⟩
      show iterP (updF p x y) m (updF p x y i) = r
      rw [updF_ne p x y i hix]
      exact hm

theorem reaches_merge_bwd2 {p : Nat → Nat} {x y : Nat} (hy : IsRoot p y)
    (hxy : x ≠ y) :
    ∀ k i, iterP p k i = x → Reaches (updF p x y) i y := by
  have hrooty : IsRoot (updF p x y) y := by
    show updF p x y y = y
    rw [updF_ne p x y y (Ne.symm hxy)]
    exact hy
  intro k
  induction k with
  | zero =>
    intro i hit
    have hix : i = x := hit
    refine ⟨1, ?_, hrooty⟩
    show iterP (updF p x y) 0 (updF p x y i) = y
    rw [hix, updF_self]
    rfl
  | succ k ih =>
    intro i hit
    by_cases hix : i = x
    · refine ⟨1, ?_, hrooty⟩
      show iterP (updF p x y) 0 (updF p x y i) = y
      rw [hix, updF_self]
      rfl
    · have h2 := ih (p i) hit
      obtain ⟨m, hm, hmr⟩ := h2
      refine ⟨m + 1, ?_, hmr⟩
      show iterP (updF p x y) m (updF p x y i) = y
      rw [updF_ne p x y i hix]
      exact hm

theorem reaches_merge {p : Nat → Nat} {x y : Nat} (hx : IsRoot p x)
    (hy : IsRoot p y) (hxy : x ≠ y) (i r : Nat) :
    Reaches (updF p x y) i r ↔
      ((Reaches p i r ∧ r ≠ x) ∨ (Reaches p i x ∧ r = y)) := by
  constructor
  · rintro ⟨k, hk, hr⟩
    exact reaches_merge_fwd hx hy hxy k i r hk hr
  · rintro (⟨⟨k, hk, hr⟩, hrx⟩ | ⟨⟨k, hk, -⟩, hry⟩)
    · exact reaches_merge_bwd1 hx k i r hk hr hrx
    · rw [hry]
      exact reaches_merge_bwd2 hy hxy k i hk

theorem ufInv_merge {n : Nat} {p : Nat → Nat} (hinv : UFInv n p) {x y : Nat}
    (hx : IsRoot p x) (hy : IsRoot p y) (hxy : x ≠ y) (hxn : x < n)
    (hyn : y < n) : UFInv n (updF p x y) := by
  intro a ha
  constructor
  · by_cases hax : a = x
    · rw [hax, updF_self]
      exact hyn
    · rw [updF_ne p x y a hax]
      exact (hinv a ha).1
  · obtain ⟨-, r, hr⟩ := hinv a ha
    by_cases hrx : r = x
    · refine ⟨y, (reaches_merge hx hy hxy a y).mpr (Or.inr ⟨?_, rfl⟩)⟩
      rw [← hrx]
      exact hr
    · exact ⟨r, (reaches_merge hx hy hxy a r).mpr (Or.inl ⟨hr, hrx⟩)⟩

theorem unionGroups_eq (s : FastHexGame) (i j : Nat) :
    s.unionGroups i j =
      (let n := s.size * s.size
       let f1 := UnionFind.find s.parent n i
       let f2 := UnionFind.find f1.2 n j
       if f1.1 ≠ f2.1 then
         let status := s.groupStatus f1.1 ||| s.groupStatus f2.1
         let f3 := UnionFind.find f2.2 n f1.1
         let f4 := UnionFind.find f3.2 n f2.1
         let parent2 := if f3.1 ≠ f4.1 then updF f4.2 f3.1 f4.1 else f4.2
         let f5 := UnionFind.find parent2 n f1.1
         { s with parent := f5.2, groupStatus := updF s.groupStatus f5.1 status }
       else { s with parent := f2.2 }) := rfl

theorem unionGroups_spec (s : FastHexGame) (i j : Nat)
    (hinv : UFInv (s.size * s.size) s.parent)
    (hi : i < s.size * s.size) (hj : j < s.size * s.size) :
    (s.unionGroups i j).size = s.size ∧
    (s.unionGroups i j).board = s.board ∧
    (s.unionGroups i j).currentPlayer = s.currentPlayer ∧
    UFInv (s.size * s.size) (s.unionGroups i j).parent ∧
    ((rootF (s.size * s.size) s.parent i = rootF (s.size * s.size) s.parent j ∧
      (∀ a r, Reaches (s.unionGroups i j).parent a r ↔ Reaches s.parent a r) ∧
      (s.unionGroups i j).groupStatus = s.groupStatus) ∨
     (rootF (s.size * s.size) s.parent i ≠ rootF (s.size * s.size) s.parent j ∧
      (∀ a r, Reaches (s.unionGroups i j).parent a r ↔
        ((Reaches s.parent a r ∧ r ≠ rootF (s.size * s.size) s.parent i) ∨
         (Reaches s.parent a (rootF (s.size * s.size) s.parent i) ∧
          r = rootF (s.size * s.size) s.parent j))) ∧
      (s.unionGroups i j).groupStatus =
        updF s.groupStatus (rootF (s.size * s.size) s.parent j)
          (s.groupStatus (rootF (s.size * s.size) s.parent i) |||
           s.groupStatus (rootF (s.size * s.size) s.parent j)))) := by
  rw [unionGroups_eq s i j]
  dsimp only
  set n := s.size * s.size with hn
  set p0 := s.parent with hp0
  set rI := rootF n p0 i with hrIdef
  set rJ := rootF n p0 j with hrJdef
  have hrootI : IsRoot p0 rI := reaches_isRoot (rootF_reaches hinv hi)
  have hrootJ : IsRoot p0 rJ := reaches_isRoot (rootF_reaches hinv hj)
  have hrIlt : rI < n := reaches_lt (ufInv_bounded hinv) hi (rootF_reaches hinv hi)
  have hrJlt : rJ < n := reaches_lt (ufInv_bounded hinv) hj (rootF_reaches hinv hj)
  have S1 := find_spec hinv hi
  set p1 := (UnionFind.find p0 n i).2 with hp1
  have hinv1 : UFInv n p1 := S1.2.2
  have hcl1 := S1.2.1
  have hf1 : (UnionFind.find p0 n i).1 = rI := S1.1
  have S2 := find_spec hinv1 hj
  set p2 := (UnionFind.find p1 n j).2 with hp2
  have hinv2 : UFInv n p2 := S2.2.2
  have hcl2 := S2.2.1
  have hf2 : (UnionFind.find p1 n j).1 = rJ := by
    rw [S2.1]
    exact rootF_congr hinv hinv1 hcl1 hj
  rw [hf1, hf2]
  by_cases hroots : rI = rJ
  · rw [if_neg (not_not_intro hroots)]
    refine ⟨rfl, rfl, rfl, hinv2, Or.inl ⟨hroots, ?_, rfl⟩⟩
    intro a r
    exact (hcl2 a r).trans (hcl1 a r)
  · rw [if_pos hroots]
    have S3 := find_spec hinv2 hrIlt
    set p3 := (UnionFind.find p2 n rI).2 with hp3
    have hinv3 : UFInv n p3 := S3.2.2
    have hcl3 := S3.2.1
    have hf3 : (UnionFind.find p2 n rI).1 = rI := by
      rw [S3.1, rootF_congr hinv1 hinv2 hcl2 hrIlt,
          rootF_congr hinv hinv1 hcl1 hrIlt]
      exact rootF_eq hinv hrIlt (reaches_self hrootI)
    have S4 := find_spec hinv3 hrJlt
    set p4 := (UnionFind.find p3 n rJ).2 with hp4
    have hinv4 : UFInv n p4 := S4.2.2
    have hcl4 := S4.2.1
    have hf4 : (UnionFind.find p3 n rJ).1 = rJ := by
      rw [S4.1, rootF_congr hinv2 hinv3 hcl3 hrJlt,
          rootF_congr hinv1 hinv2 hcl2 hrJlt,
          rootF_congr hinv hinv1 hcl1 hrJlt]
      exact rootF_eq hinv hrJlt (reaches_self hrootJ)
    rw [hf3, hf4, if_pos hroots]
    have hcl14 : ∀ a r, Reaches p4 a r ↔ Reaches p0 a r := fun a r =>
      (hcl4 a r).trans ((hcl3 a r).trans ((hcl2 a r).trans (hcl1 a r)))
    have hrootI4 : IsRoot p4 rI :=
      reaches_isRoot ((hcl14 rI rI).mpr (reaches_self hrootI))
    have hrootJ4 : IsRoot p4 rJ :=
      reaches_isRoot ((hcl14 rJ rJ).mpr (reaches_self hrootJ))
    have hclM : ∀ a r, Reaches (updF p4 rI rJ) a r ↔
        ((Reaches p0 a r ∧ r ≠ rI) ∨ (Reaches p0 a rI ∧ r = rJ)) := by
      intro a r
      refine (reaches_merge hrootI4 hrootJ4 hroots a r).trans ?_
      exact or_congr (and_congr_left' (hcl14 a r)) (and_congr_left' (hcl14 a rI))
    have hinvM : UFInv n (updF p4 rI rJ) :=
      ufInv_merge hinv4 hrootI4 hrootJ4 hroots hrIlt hrJlt
    have S5 := find_spec hinvM hrIlt
    have hf5 : (UnionFind.find (updF p4 rI rJ) n rI).1 = rJ := by
      rw [S5.1]
      refine rootF_eq hinvM hrIlt ?_
      exact (reaches_merge hrootI4 hrootJ4 hroots rI rJ).mpr
        (Or.inr ⟨reaches_self hrootI4, rfl⟩)
    rw [hf5]
    refine ⟨rfl, rfl, rfl, S5.2.2, Or.inr ⟨hroots, ?_, rfl⟩⟩
    intro a r
    exact (S5.2.1 a r).trans (hclM a r)

theorem find_of_root {p : Nat → Nat} {i : Nat} (h : p i = i) :
    ∀ fuel, 1 ≤ fuel → UnionFind.find p fuel i = (i, p) := by
  intro fuel hf
  obtain ⟨m, rfl⟩ : ∃ m, fuel = m + 1 := ⟨fuel - 1, by omega⟩
  have hr : UnionFind.findRoot p (m + 1) i = i := by
    show (if p i = i then i else _) = i
    rw [if_pos h]
  show (UnionFind.findRoot p (m + 1) i,
        UnionFind.compress (UnionFind.findRoot p (m + 1) i) (m + 1) p i) = (i, p)
  rw [hr]
  show (i, if i = i then p else _) = (i, p)
  rw [if_pos rfl]

theorem initCell_spec (s : FastHexGame) (idx player : Nat)
    (hroot : s.parent idx = idx) (hN : 1 ≤ s.size * s.size) :
    s.initCell idx player =
      { s with groupStatus :=
          (updF s.groupStatus idx (s.groupStatus idx ||| statusBits s.size idx player)) } := by
  unfold FastHexGame.initCell statusBits
  dsimp only
  rw [find_of_root hroot (s.size * s.size) hN]

theorem cellBits_of_stone {n : Nat} {B : Nat → Nat} {idx player : Nat}
    (hB : B idx = player) (hp : player ≠ 0) :
    cellBits n B idx = statusBits n idx player := by
  unfold cellBits statusBits
  rw [hB, if_neg hp]

theorem mem_foldl_ifAppend {α β : Type} (P : α → Prop) [DecidablePred P] (f : α → β) :
    ∀ (ds : List α) (acc : List β) (b : β),
      b ∈ ds.foldl (fun ns d => if P d then ns ++ [f d] else ns) acc ↔
        b ∈ acc ∨ ∃ d, d ∈ ds ∧ P d ∧ b = f d := by
  intro ds
  induction ds with
  | nil => intro acc b; simp
  | cons d ds ih =>
    intro acc b
    show b ∈ List.foldl _ (if P d then acc ++ [f d] else acc) ds ↔ _
    rw [ih]
    by_cases hd : P d
    · rw [if_pos hd]
      simp only [List.mem_append, List.mem_singleton, List.mem_cons,
        List.not_mem_nil, or_false]
      constructor
      · rintro ((h | h) | ⟨d', hd', hPd', hb⟩)
        · exact Or.inl h
        · exact Or.inr ⟨d, Or.inl rfl, hd, h⟩
        · exact Or.inr ⟨d', Or.inr hd', hPd', hb⟩
      · rintro (h | ⟨d', (rfl | hd'), hPd', hb⟩)
        · exact Or.inl (Or.inl h)
        · exact Or.inl (Or.inr hb)
        · exact Or.inr ⟨d', hd', hPd', hb⟩
    · rw [if_neg hd]
      constructor
      · rintro (h | ⟨d', hd', hPd', hb⟩)
        · exact Or.inl h
        · exact Or.inr ⟨d', List.mem_cons_of_mem d hd', hPd', hb⟩
      · rintro (h | ⟨d', hd', hPd', hb⟩)
        · exact Or.inl h
        · rcases List.mem_cons.mp hd' with rfl | hmem
          · exact absurd hPd' hd
          · exact Or.inr ⟨d', hmem, hPd', hb⟩

theorem mem_neighborsIdx (n idx m : Nat) :
    m ∈ neighborsIdx n idx ↔
      ∃ d, d ∈ [((-1 : Int), (0 : Int)), (-1, 1), (0, -1), (0, 1), (1, -1), (1, 0)] ∧
        (0 ≤ ((idx / n : Nat) : Int) + d.1 ∧ ((idx / n : Nat) : Int) + d.1 < (n : Int) ∧
         0 ≤ ((idx % n : Nat) : Int) + d.2 ∧ ((idx % n : Nat) : Int) + d.2 < (n : Int)) ∧
        m = (((idx / n : Nat) : Int) + d.1).toNat * n + (((idx % n : Nat) : Int) + d.2).toNat := by
  have h := mem_foldl_ifAppend
    (fun d : Int × Int =>
      0 ≤ ((idx / n : Nat) : Int) + d.1 ∧ ((idx / n : Nat) : Int) + d.1 < (n : Int) ∧
      0 ≤ ((idx % n : Nat) : Int) + d.2 ∧ ((idx % n : Nat) : Int) + d.2 < (n : Int))
    (fun d : Int × Int =>
      (((idx / n : Nat) : Int) + d.1).toNat * n + (((idx % n : Nat) : Int) + d.2).toNat)
    [((-1 : Int), (0 : Int)), (-1, 1), (0, -1), (0, 1), (1, -1), (1, 0)] [] m
  unfold neighborsIdx
  exact h.trans (by simp)

theorem div_mod_of_flat {n y : Nat} (x : Nat) (hy : y < n) :
    (x * n + y) / n = x ∧ (x * n + y) % n = y := by
  have hn : 0 < n := by omega
  rw [Nat.mul_comm x n]
  constructor
  · rw [Nat.mul_add_div hn, Nat.div_eq_of_lt hy, Nat.add_zero]
  · rw [Nat.mul_add_mod, Nat.mod_eq_of_lt hy]

theorem neighborsIdx_lt {n a b : Nat} (hb : b ∈ neighborsIdx n a) : b < n * n := by
  rw [mem_neighborsIdx] at hb
  obtain ⟨d, hd, ⟨h1, h2, h3, h4⟩, rfl⟩ := hb
  have hx : (((a / n : Nat) : Int) + d.1).toNat < n := by omega
  have hy : (((a % n : Nat) : Int) + d.2).toNat < n := by omega
  calc (((a / n : Nat) : Int) + d.1).toNat * n + (((a % n : Nat) : Int) + d.2).toNat
      < (((a / n : Nat) : Int) + d.1).toNat * n + n := by omega
    _ = ((((a / n : Nat) : Int) + d.1).toNat + 1) * n := by ring
    _ ≤ n * n := Nat.mul_le_mul_right n (Nat.succ_le_of_lt hx)

theorem neighborsIdx_symm_core {n a b : Nat} (ha : a < n * n) (d1 d2 : Int)
    (hmem2 : (-d1, -d2) ∈ [((-1 : Int), (0 : Int)), (-1, 1), (0, -1), (0, 1), (1, -1), (1, 0)])
    (h1 : 0 ≤ ((a / n : Nat) : Int) + d1) (h2 : ((a / n : Nat) : Int) + d1 < (n : Int))
    (h3 : 0 ≤ ((a % n : Nat) : Int) + d2) (h4 : ((a % n : Nat) : Int) + d2 < (n : Int))
    (hbe : b = (((a / n : Nat) : Int) + d1).toNat * n + (((a % n : Nat) : Int) + d2).toNat) :
    a ∈ neighborsIdx n b := by
  have hn : 0 < n := by omega
  obtain ⟨u, hu⟩ : ∃ u, a / n = u := ⟨_, rfl⟩
  obtain ⟨v, hv⟩ : ∃ v, a % n = v := ⟨_, rfl⟩
  rw [hu] at h1 h2 hbe
  rw [hv] at h3 h4 hbe
  have hult : u < n := by
    rw [← hu, Nat.div_lt_iff_lt_mul hn]
    omega
  have hvlt : v < n := by rw [← hv]; exact Nat.mod_lt a hn
  obtain ⟨X, hX⟩ : ∃ X, X = ((u : Int) + d1).toNat := ⟨_, rfl⟩
  obtain ⟨Y, hY⟩ : ∃ Y, Y = ((v : Int) + d2).toNat := ⟨_, rfl⟩
  have hYlt : Y < n := by omega
  have hdm := div_mod_of_flat (n := n) X hYlt
  have hbe2 : b = X * n + Y := by rw [hX, hY]; exact hbe
  have hbdiv : b / n = X := by rw [hbe2]; exact hdm.1
  have hbmod : b % n = Y := by rw [hbe2]; exact hdm.2
  rw [mem_neighborsIdx]
  refine ⟨(-d1, -d2), hmem2, ?_, ?_⟩
  · rw [hbdiv, hbmod]
    show 0 ≤ (X : Int) + -d1 ∧ (X : Int) + -d1 < (n : Int) ∧
      0 ≤ (Y : Int) + -d2 ∧ (Y : Int) + -d2 < (n : Int)
    refine ⟨by omega, by omega, by omega, by omega⟩
  · rw [hbdiv, hbmod]
    show a = ((X : Int) + -d1).toNat * n + ((Y : Int) + -d2).toNat
    have e1 : ((X : Int) + -d1).toNat = u := by omega
    have e2 : ((Y : Int) + -d2).toNat = v := by omega
    rw [e1, e2, ← hu, ← hv, Nat.mul_comm]
    exact (Nat.div_add_mod a n).symm

theorem neighborsIdx_symm {n a b : Nat} (ha : a < n * n)
    (hb : b ∈ neighborsIdx n a) : a ∈ neighborsIdx n b := by
  rw [mem_neighborsIdx] at hb
  obtain ⟨d, hd, ⟨h1, h2, h3, h4⟩, hbe⟩ := hb
  simp only [List.mem_cons, List.not_mem_nil, or_false] at hd
  rcases hd with h | h | h | h | h | h <;>
    (rw [h] at h1 h2 h3 h4 hbe
     dsimp only at h1 h2 h3 h4 hbe
     exact neighborsIdx_symm_core ha _ _ (by decide) h1 h2 h3 h4 hbe)

theorem rtg_congr {α : Type} {R R2 : α → α → Prop} (h : ∀ a b, R a b ↔ R2 a b)
    {i j : α} : Relation.ReflTransGen R i j ↔ Relation.ReflTransGen R2 i j := by
  constructor <;> intro hr
  · exact Relation.ReflTransGen.mono (fun a b hab => (h a b).mp hab) hr
  · exact Relation.ReflTransGen.mono (fun a b hab => (h a b).mpr hab) hr

theorem rtg_symm {α : Type} {R : α → α → Prop} (hsym : ∀ a b, R a b → R b a)
    {i j : α} (h : Relation.ReflTransGen R i j) : Relation.ReflTransGen R j i := by
  induction h with
  | refl => exact Relation.ReflTransGen.refl
  | tail h1 h2 ih =>
    exact Relation.ReflTransGen.trans
      (Relation.ReflTransGen.single (hsym _ _ h2)) ih

theorem rtg_addEdge {α : Type} {R : α → α → Prop} (x y : α) :
    ∀ i j,
      Relation.ReflTransGen
        (fun a b => R a b ∨ (a = x ∧ b = y) ∨ (a = y ∧ b = x)) i j ↔
      (Relation.ReflTransGen R i j ∨
       (Relation.ReflTransGen R i x ∧ Relation.ReflTransGen R y j) ∨
       (Relation.ReflTransGen R i y ∧ Relation.ReflTransGen R x j)) := by
  intro i j
  constructor
  · intro h
    induction h with
    | refl => exact Or.inl Relation.ReflTransGen.refl
    | tail h1 h2 ih =>
      rcases h2 with hR | ⟨hbx, hcy⟩ | ⟨hby, hcx⟩
      · rcases ih with hL | ⟨hix, hyb⟩ | ⟨hiy, hxb⟩
        · exact Or.inl (Relation.ReflTransGen.tail hL hR)
        · exact Or.inr (Or.inl ⟨hix, Relation.ReflTransGen.tail hyb hR⟩)
        · exact Or.inr (Or.inr ⟨hiy, Relation.ReflTransGen.tail hxb hR⟩)
      · rcases ih with hL | ⟨hix, hyb⟩ | ⟨hiy, hxb⟩
        · rw [hbx] at hL
          rw [hcy]
          exact Or.inr (Or.inl ⟨hL, Relation.ReflTransGen.refl⟩)
        · rw [hcy]
          exact Or.inr (Or.inl ⟨hix, Relation.ReflTransGen.refl⟩)
        · rw [hcy]
          exact Or.inl hiy
      · rcases ih with hL | ⟨hix, hyb⟩ | ⟨hiy, hxb⟩
        · rw [hby] at hL
          rw [hcx]
          exact Or.inr (Or.inr ⟨hL, Relation.ReflTransGen.refl⟩)
        · rw [hcx]
          exact Or.inl hix
        · rw [hcx]
          exact Or.inr (Or.inr ⟨hiy, Relation.ReflTransGen.refl⟩)
  · have hmono : ∀ a b, Relation.ReflTransGen R a b →
        Relation.ReflTransGen
          (fun a b => R a b ∨ (a = x ∧ b = y) ∨ (a = y ∧ b = x)) a b := by
      intro a b h
      exact Relation.ReflTransGen.mono (fun a b hab => Or.inl hab) h
    rintro (hL | ⟨hix, hyj⟩ | ⟨hiy, hxj⟩)
    · exact hmono i j hL
    · refine Relation.ReflTransGen.trans (hmono i x hix)
        (Relation.ReflTransGen.trans
          (Relation.ReflTransGen.single (Or.inr (Or.inl ⟨rfl, rfl⟩)))
          (hmono y j hyj))
    · refine Relation.ReflTransGen.trans (hmono i y hiy)
        (Relation.ReflTransGen.trans
          (Relation.ReflTransGen.single (Or.inr (Or.inr ⟨rfl, rfl⟩)))
          (hmono x j hxj))

theorem rtg_addEdge_collapse {α : Type} {R : α → α → Prop}
    (hsym : ∀ a b, R a b → R b a) (x y : α)
    (hconn : Relation.ReflTransGen R x y) :
    ∀ i j,
      Relation.ReflTransGen
        (fun a b => R a b ∨ (a = x ∧ b = y) ∨ (a = y ∧ b = x)) i j ↔
      Relation.ReflTransGen R i j := by
  intro i j
  rw [rtg_addEdge x y i j]
  constructor
  · rintro (h | ⟨h1, h2⟩ | ⟨h1, h2⟩)
    · exact h
    · exact Relation.ReflTransGen.trans h1
        (Relation.ReflTransGen.trans hconn h2)
    · exact Relation.ReflTransGen.trans h1
        (Relation.ReflTransGen.trans (rtg_symm hsym hconn) h2)
  · exact fun h => Or.inl h

theorem sameRoot_root_elim {p : Nat → Nat} {a r : Nat} (hr : IsRoot p r)
    (h : SameRoot p a r) : Reaches p a r := by
  obtain ⟨r2, ha, hrr⟩ := h
  rw [reaches_unique hrr (reaches_self hr)] at ha
  exact ha

theorem sameRoot_merge {p q : Nat → Nat} {rI rJ : Nat}
    (hch : ∀ a r, Reaches q a r ↔
      ((Reaches p a r ∧ r ≠ rI) ∨ (Reaches p a rI ∧ r = rJ)))
    (hrI : IsRoot p rI) (hrJ : IsRoot p rJ) (hne : rI ≠ rJ) (a b : Nat) :
    SameRoot q a b ↔
      (SameRoot p a b ∨ (SameRoot p a rI ∧ SameRoot p rJ b) ∨
       (SameRoot p a rJ ∧ SameRoot p rI b)) := by
  constructor
  · rintro ⟨r, ha, hb⟩
    rcases (hch a r).mp ha with ⟨hpa, hra⟩ | ⟨hpa, hreq⟩ <;>
      rcases (hch b r).mp hb with ⟨hpb, hrb⟩ | ⟨hpb, hreq2⟩
    · exact Or.inl ⟨r, hpa, hpb⟩
    · refine Or.inr (Or.inr ⟨⟨rJ, ?_, reaches_self hrJ⟩, ⟨rI, reaches_self hrI, hpb⟩⟩)
      rw [← hreq2]
      exact hpa
    · refine Or.inr (Or.inl ⟨⟨rI, hpa, reaches_self hrI⟩, ⟨rJ, reaches_self hrJ, ?_⟩⟩)
      rw [← hreq]
      exact hpb
    · exact Or.inl ⟨rI, hpa, hpb⟩
  · rintro (⟨r, ha, hb⟩ | ⟨h1, h2⟩ | ⟨h1, h2⟩)
    · by_cases hr : r = rI
      · rw [hr] at ha hb
        exact ⟨rJ, (hch a rJ).mpr (Or.inr ⟨ha, rfl⟩),
          (hch b rJ).mpr (Or.inr ⟨hb, rfl⟩)⟩
      · exact ⟨r, (hch a r).mpr (Or.inl ⟨ha, hr⟩),
          (hch b r).mpr (Or.inl ⟨hb, hr⟩)⟩
    · have ha : Reaches p a rI := sameRoot_root_elim hrI h1
      have hb : Reaches p b rJ := sameRoot_root_elim hrJ (sameRoot_symm h2)
      exact ⟨rJ, (hch a rJ).mpr (Or.inr ⟨ha, rfl⟩),
        (hch b rJ).mpr (Or.inl ⟨hb, Ne.symm hne⟩)⟩
    · have ha : Reaches p a rJ := sameRoot_root_elim hrJ h1
      have hb : Reaches p b rI := sameRoot_root_elim hrI (sameRoot_symm h2)
      exact ⟨rJ, (hch a rJ).mpr (Or.inl ⟨ha, Ne.symm hne⟩),
        (hch b rJ).mpr (Or.inr ⟨hb, rfl⟩)⟩

theorem isRoot_of_sameClasses {p q : Nat → Nat}
    (hcl : ∀ i r, Reaches q i r ↔ Reaches p i r) {r : Nat} (h : IsRoot q r) :
    IsRoot p r :=
  reaches_isRoot ((hcl r r).mp (reaches_self h))

theorem goodStatus_congr {N : Nat} {p q g bits : Nat → Nat}
    (hcl : ∀ i r, Reaches q i r ↔ Reaches p i r)
    (h : GoodStatus N p g bits) : GoodStatus N q g bits := by
  intro r hrN hroot t
  rw [h r hrN (isRoot_of_sameClasses hcl hroot) t]
  constructor
  · rintro ⟨b, hbN, hb, hbit⟩
    exact ⟨b, hbN, (hcl b r).mpr hb, hbit⟩
  · rintro ⟨b, hbN, hb, hbit⟩
    exact ⟨b, hbN, (hcl b r).mp hb, hbit⟩

theorem goodStatus_merge {N : Nat} {p q : Nat → Nat} {g bits : Nat → Nat}
    {rI rJ : Nat}
    (hch : ∀ a r, Reaches q a r ↔
      ((Reaches p a r ∧ r ≠ rI) ∨ (Reaches p a rI ∧ r = rJ)))
    (hrI : IsRoot p rI) (hrJ : IsRoot p rJ) (hne : rI ≠ rJ)
    (hrIN : rI < N) (hrJN : rJ < N)
    (hGS : GoodStatus N p g bits) :
    GoodStatus N q (updF g rJ (g rI ||| g rJ)) bits := by
  intro r hrN hroot t
  have hrne : r ≠ rI := by
    intro he
    rw [he] at hroot
    rcases (hch rI rI).mp (reaches_self hroot) with ⟨-, hc⟩ | ⟨-, hc⟩
    · exact hc rfl
    · exact hne hc
  by_cases hrJe : r = rJ
  · rw [hrJe, updF_self]
    have hIold := hGS rI hrIN hrI t
    have hJold := hGS rJ hrJN hrJ t
    constructor
    · intro hbit
      rw [Nat.testBit_or] at hbit
      rcases Bool.or_eq_true_iff.mp hbit with hb | hb
      · obtain ⟨b, hbN, hreach, hbbit⟩ := hIold.mp hb
        exact ⟨b, hbN, (hch b rJ).mpr (Or.inr ⟨hreach, rfl⟩), hbbit⟩
      · obtain ⟨b, hbN, hreach, hbbit⟩ := hJold.mp hb
        exact ⟨b, hbN, (hch b rJ).mpr (Or.inl ⟨hreach, Ne.symm hne⟩), hbbit⟩
    · rintro ⟨b, hbN, hreach, hbbit⟩
      rw [Nat.testBit_or]
      rcases (hch b rJ).mp hreach with ⟨hp, -⟩ | ⟨hp, -⟩
      · exact Bool.or_eq_true_iff.mpr (Or.inr (hJold.mpr ⟨b, hbN, hp, hbbit⟩))
      · exact Bool.or_eq_true_iff.mpr (Or.inl (hIold.mpr ⟨b, hbN, hp, hbbit⟩))
  · rw [updF_ne g rJ _ r hrJe]
    have hrootp : IsRoot p r := by
      rcases (hch r r).mp (reaches_self hroot) with ⟨hp, -⟩ | ⟨-, hc⟩
      · exact reaches_isRoot hp
      · exact absurd hc hrJe
    rw [hGS r hrN hrootp t]
    constructor
    · rintro ⟨b, hbN, hreach, hbit⟩
      exact ⟨b, hbN, (hch b r).mpr (Or.inl ⟨hreach, hrne⟩), hbit⟩
    · rintro ⟨b, hbN, hreach, hbit⟩
      rcases (hch b r).mp hreach with ⟨hp, -⟩ | ⟨-, hc⟩
      · exact ⟨b, hbN, hp, hbit⟩
      · exact absurd hc hrJe

theorem cellBits_of_empty {n : Nat} {B : Nat → Nat} {idx : Nat} (h : B idx = 0) :
    cellBits n B idx = 0 := by
  unfold cellBits
  rw [h, if_pos rfl]

theorem cellBits_congr {n : Nat} {B B2 : Nat → Nat} {b : Nat} (h : B2 b = B b) :
    cellBits n B2 b = cellBits n B b := by
  unfold cellBits
  rw [h]

theorem sameRoot_rootF {n : Nat} {p : Nat → Nat} (hinv : UFInv n p) {x : Nat}
    (hx : x < n) (a : Nat) :
    SameRoot p a (rootF n p x) ↔ SameRoot p a x := by
  have h : SameRoot p x (rootF n p x) :=
    ⟨rootF n p x, rootF_reaches hinv hx,
      reaches_self (reaches_isRoot (rootF_reaches hinv hx))⟩
  constructor
  · intro h2
    exact sameRoot_trans h2 (sameRoot_symm h)
  · intro h2
    exact sameRoot_trans h2 h

theorem unionGroups_good (s : FastHexGame) (x nb : Nat)
    (L Lnew : Nat → Nat → Prop) (bits : Nat → Nat)
    (hsym : ∀ a b, L a b → L b a)
    (hx : x < s.size * s.size) (hnb : nb < s.size * s.size)
    (hLnew : ∀ a b, Lnew a b ↔ (L a b ∨ (a = x ∧ b = nb) ∨ (a = nb ∧ b = x)))
    (hGU : GoodUF (s.size * s.size) s.parent L)
    (hGS : GoodStatus (s.size * s.size) s.parent s.groupStatus bits) :
    (s.unionGroups x nb).size = s.size ∧
    (s.unionGroups x nb).board = s.board ∧
    (s.unionGroups x nb).currentPlayer = s.currentPlayer ∧
    GoodUF (s.size * s.size) (s.unionGroups x nb).parent Lnew ∧
    GoodStatus (s.size * s.size) (s.unionGroups x nb).parent
      (s.unionGroups x nb).groupStatus bits := by
  obtain ⟨hinv, hpart⟩ := hGU
  obtain ⟨hsz, hbd, hcp, hinv2, hbr⟩ := unionGroups_spec s x nb hinv hx hnb
  have hrtgiff : ∀ a b, Relation.ReflTransGen Lnew a b ↔
      Relation.ReflTransGen
        (fun a b => L a b ∨ (a = x ∧ b = nb) ∨ (a = nb ∧ b = x)) a b :=
    fun a b => rtg_congr hLnew
  rcases hbr with ⟨hreq, hcl, hst⟩ | ⟨hrne, hch, hst⟩
  · have hsrxnb : SameRoot s.parent x nb := (sameRoot_iff_rootF hinv hx hnb).mpr hreq
    have hconn : Relation.ReflTransGen L x nb := (hpart x hx nb hnb).mp hsrxnb
    refine ⟨hsz, hbd, hcp, ⟨hinv2, ?_⟩, ?_⟩
    · intro a haN b hbN
      rw [sameRoot_congr hcl a b, hpart a haN b hbN, hrtgiff a b,
        rtg_addEdge_collapse hsym x nb hconn a b]
    · rw [hst]
      exact goodStatus_congr hcl hGS
  · have hrI : IsRoot s.parent (rootF (s.size * s.size) s.parent x) :=
      reaches_isRoot (rootF_reaches hinv hx)
    have hrJ : IsRoot s.parent (rootF (s.size * s.size) s.parent nb) :=
      reaches_isRoot (rootF_reaches hinv hnb)
    have hrIN : rootF (s.size * s.size) s.parent x < s.size * s.size :=
      reaches_lt (ufInv_bounded hinv) hx (rootF_reaches hinv hx)
    have hrJN : rootF (s.size * s.size) s.parent nb < s.size * s.size :=
      reaches_lt (ufInv_bounded hinv) hnb (rootF_reaches hinv hnb)
    refine ⟨hsz, hbd, hcp, ⟨hinv2, ?_⟩, ?_⟩
    · intro a haN b hbN
      rw [sameRoot_merge hch hrI hrJ hrne a b, hrtgiff a b, rtg_addEdge x nb a b]
      constructor
      · rintro (h | ⟨h1, h2⟩ | ⟨h1, h2⟩)
        · exact Or.inl ((hpart a haN b hbN).mp h)
        · refine Or.inr (Or.inl ⟨?_, ?_⟩)
          · exact (hpart a haN x hx).mp ((sameRoot_rootF hinv hx a).mp h1)
          · exact (hpart nb hnb b hbN).mp
              (sameRoot_symm ((sameRoot_rootF hinv hnb b).mp (sameRoot_symm h2)))
        · refine Or.inr (Or.inr ⟨?_, ?_⟩)
          · exact (hpart a haN nb hnb).mp ((sameRoot_rootF hinv hnb a).mp h1)
          · exact (hpart x hx b hbN).mp
              (sameRoot_symm ((sameRoot_rootF hinv hx b).mp (sameRoot_symm h2)))
      · rintro (h | ⟨h1, h2⟩ | ⟨h1, h2⟩)
        · exact Or.inl ((hpart a haN b hbN).mpr h)
        · refine Or.inr (Or.inl ⟨?_, ?_⟩)
          · exact (sameRoot_rootF hinv hx a).mpr ((hpart a haN x hx).mpr h1)
          · exact sameRoot_symm ((sameRoot_rootF hinv hnb b).mpr
              (sameRoot_symm ((hpart nb hnb b hbN).mpr h2)))
        · refine Or.inr (Or.inr ⟨?_, ?_⟩)
          · exact (sameRoot_rootF hinv hnb a).mpr ((hpart a haN nb hnb).mpr h1)
          · exact sameRoot_symm ((sameRoot_rootF hinv hx b).mpr
              (sameRoot_symm ((hpart x hx b hbN).mpr h2)))
    · rw [hst]
      exact goodStatus_merge hch hrI hrJ hrne hrIN hrJN hGS

theorem goodStatus_initCell {N : Nat} {p g bits bits2 : Nat → Nat} {idx : Nat}
    (hidxN : idx < N) (hroot : IsRoot p idx)
    (hsingle : ∀ b, b < N → Reaches p b idx → b = idx)
    (hagree : ∀ b, b ≠ idx → bits2 b = bits b)
    (hold : bits idx = 0)
    (hGS : GoodStatus N p g bits) :
    GoodStatus N p (updF g idx (g idx ||| bits2 idx)) bits2 := by
  have hzero : ∀ t, (g idx).testBit t = false := by
    intro t
    by_contra hne2
    simp only [Bool.not_eq_false] at hne2
    obtain ⟨b, hbN, hreach, hbbit⟩ := (hGS idx hidxN hroot t).mp hne2
    rw [hsingle b hbN hreach, hold, Nat.zero_testBit] at hbbit
    exact Bool.false_ne_true hbbit
  intro r hrN hrootr t
  by_cases hre : r = idx
  · rw [hre, updF_self, Nat.testBit_or, hzero t, Bool.false_or]
    constructor
    · intro hbit
      exact ⟨idx, hidxN, reaches_self hroot, hbit⟩
    · rintro ⟨b, hbN, hreach, hbbit⟩
      rw [← hsingle b hbN hreach]
      exact hbbit
  · rw [updF_ne g idx _ r hre, hGS r hrN hrootr t]
    constructor
    · rintro ⟨b, hbN, hreach, hbit⟩
      have hbne : b ≠ idx := by
        intro he
        rw [he] at hreach
        exact hre (reaches_unique hreach (reaches_self hroot))
      rw [← hagree b hbne] at hbit
      exact ⟨b, hbN, hreach, hbit⟩
    · rintro ⟨b, hbN, hreach, hbit⟩
      have hbne : b ≠ idx := by
        intro he
        rw [he] at hreach
        exact hre (reaches_unique hreach (reaches_self hroot))
      rw [hagree b hbne] at hbit
      exact ⟨b, hbN, hreach, hbit⟩

theorem cellLink_symm {n : Nat} {B : Nat → Nat} {a b : Nat}
    (h : cellLink n B a b) : cellLink n B b a := by
  obtain ⟨ha, hb, hmem, hB, heq⟩ := h
  refine ⟨hb, ha, neighborsIdx_symm ha hmem, ?_, heq.symm⟩
  rw [← heq]
  exact hB

theorem addLinks_symm {n : Nat} {B : Nat → Nat} {x : Nat} {L0 : Nat → Nat → Prop}
    (hsym : ∀ a b, L0 a b → L0 b a) (done : List Nat) :
    ∀ a b, addLinks n B x L0 done a b → addLinks n B x L0 done b a := by
  intro a b h
  rcases h with h | ⟨ha, hb, hl⟩ | ⟨hb, ha, hl⟩
  · exact Or.inl (hsym a b h)
  · exact Or.inr (Or.inr ⟨ha, hb, cellLink_symm hl⟩)
  · exact Or.inr (Or.inl ⟨hb, ha, cellLink_symm hl⟩)

theorem goodUF_congr_rel {N : Nat} {p : Nat → Nat} {L L2 : Nat → Nat → Prop}
    (hiff : ∀ a b, L a b ↔ L2 a b) (h : GoodUF N p L) : GoodUF N p L2 :=
  ⟨h.1, fun a ha b hb => (h.2 a ha b hb).trans (rtg_congr hiff)⟩

theorem unionFold_good (n0 : Nat) (B0 : Nat → Nat) (cp0 : Nat) (x : Nat)
    (L0 : Nat → Nat → Prop)
    (hL0sym : ∀ a b, L0 a b → L0 b a)
    (hx : x < n0 * n0) (hBx : B0 x ≠ 0)
    (step : FastHexGame → Nat → FastHexGame)
    (hstep : ∀ s nb, s.size = n0 → s.board = B0 → s.currentPlayer = cp0 →
      step s nb = if B0 nb = B0 x then s.unionGroups x nb else s) :
    ∀ (ds done : List Nat) (s : FastHexGame),
      (∀ m, m ∈ ds → m ∈ neighborsIdx n0 x) →
      s.size = n0 → s.board = B0 → s.currentPlayer = cp0 →
      GoodUF (n0 * n0) s.parent (addLinks n0 B0 x L0 done) →
      GoodStatus (n0 * n0) s.parent s.groupStatus (cellBits n0 B0) →
      ((ds.foldl step s).size = n0 ∧ (ds.foldl step s).board = B0 ∧
       (ds.foldl step s).currentPlayer = cp0 ∧
       GoodUF (n0 * n0) (ds.foldl step s).parent
         (addLinks n0 B0 x L0 (done ++ ds)) ∧
       GoodStatus (n0 * n0) (ds.foldl step s).parent
         (ds.foldl step s).groupStatus (cellBits n0 B0)) := by
  intro ds
  induction ds with
  | nil =>
    intro done s hds hsz hbd hcp hGU hGS
    rw [List.append_nil]
    exact ⟨hsz, hbd, hcp, hGU, hGS⟩
  | cons nb ds ih =>
    intro done s hds hsz hbd hcp hGU hGS
    subst hsz
    subst hbd
    subst hcp
    have hnbmem : nb ∈ neighborsIdx s.size x := hds nb (List.mem_cons_self nb ds)
    have hnbN : nb < s.size * s.size := neighborsIdx_lt hnbmem
    have hsub : ∀ m, m ∈ ds → m ∈ neighborsIdx s.size x :=
      fun m hm => hds m (List.mem_cons_of_mem nb hm)
    have hstepeq := hstep s nb rfl rfl rfl
    have hlisteq : done ++ nb :: ds = (done ++ [nb]) ++ ds := by simp
    rw [List.foldl_cons, hlisteq]
    by_cases hcond : s.board nb = s.board x
    · rw [if_pos hcond] at hstepeq
      rw [hstepeq]
      have hclnk : cellLink s.size s.board x nb := ⟨hx, hnbN, hnbmem, hBx, hcond.symm⟩
      have hIff : ∀ a b, addLinks s.size s.board x L0 (done ++ [nb]) a b ↔
          (addLinks s.size s.board x L0 done a b ∨
           (a = x ∧ b = nb) ∨ (a = nb ∧ b = x)) := by
        intro a b
        constructor
        · rintro (h | ⟨ha, hb, hl⟩ | ⟨hb, ha, hl⟩)
          · exact Or.inl (Or.inl h)
          · rcases List.mem_append.mp hb with hb | hb
            · exact Or.inl (Or.inr (Or.inl ⟨ha, hb, hl⟩))
            · rw [List.mem_singleton] at hb
              exact Or.inr (Or.inl ⟨ha, hb⟩)
          · rcases List.mem_append.mp ha with ha | ha
            · exact Or.inl (Or.inr (Or.inr ⟨hb, ha, hl⟩))
            · rw [List.mem_singleton] at ha
              exact Or.inr (Or.inr ⟨ha, hb⟩)
        · rintro ((h | ⟨ha, hb, hl⟩ | ⟨hb, ha, hl⟩) | ⟨ha, hb⟩ | ⟨ha, hb⟩)
          · exact Or.inl h
          · exact Or.inr (Or.inl ⟨ha, List.mem_append.mpr (Or.inl hb), hl⟩)
          · exact Or.inr (Or.inr ⟨hb, List.mem_append.mpr (Or.inl ha), hl⟩)
          · refine Or.inr (Or.inl ⟨ha, List.mem_append.mpr (Or.inr ?_), ?_⟩)
            · rw [List.mem_singleton]
              exact hb
            · rw [hb]
              exact hclnk
          · refine Or.inr (Or.inr ⟨hb, List.mem_append.mpr (Or.inr ?_), ?_⟩)
            · rw [List.mem_singleton]
              exact ha
            · rw [ha]
              exact cellLink_symm hclnk
      obtain ⟨hsz2, hbd2, hcp2, hGU2, hGS2⟩ :=
        unionGroups_good s x nb (addLinks s.size s.board x L0 done)
          (addLinks s.size s.board x L0 (done ++ [nb])) (cellBits s.size s.board)
          (addLinks_symm hL0sym done) hx hnbN hIff hGU hGS
      exact ih (done ++ [nb]) (s.unionGroups x nb) hsub hsz2 hbd2 hcp2 hGU2 hGS2
    · rw [if_neg hcond] at hstepeq
      rw [hstepeq]
      have hIff : ∀ a b, addLinks s.size s.board x L0 done a b ↔
          addLinks s.size s.board x L0 (done ++ [nb]) a b := by
        intro a b
        constructor
        · rintro (h | ⟨ha, hb, hl⟩ | ⟨hb, ha, hl⟩)
          · exact Or.inl h
          · exact Or.inr (Or.inl ⟨ha, List.mem_append.mpr (Or.inl hb), hl⟩)
          · exact Or.inr (Or.inr ⟨hb, List.mem_append.mpr (Or.inl ha), hl⟩)
        · rintro (h | ⟨ha, hb, hl⟩ | ⟨hb, ha, hl⟩)
          · exact Or.inl h
          · rcases List.mem_append.mp hb with hb | hb
            · exact Or.inr (Or.inl ⟨ha, hb, hl⟩)
            · rw [List.mem_singleton] at hb
              rw [hb] at hl
              exact absurd hl.2.2.2.2.symm hcond
          · rcases List.mem_append.mp ha with ha | ha
            · exact Or.inr (Or.inr ⟨hb, ha, hl⟩)
            · rw [List.mem_singleton] at ha
              rw [ha] at hl
              exact absurd hl.2.2.2.2 hcond
      exact ih (done ++ [nb]) s hsub rfl rfl rfl
        (goodUF_congr_rel hIff hGU) hGS

theorem flat_lt {n r c : Nat} (hr : r < n) (hc : c < n) : r * n + c < n * n := by
  calc r * n + c < r * n + n := by omega
    _ = (r + 1) * n := by ring
    _ ≤ n * n := Nat.mul_le_mul_right n hr

theorem conn_from_empty {n : Nat} {B : Nat → Nat} {i j : Nat} (hB : B i = 0)
    (h : Relation.ReflTransGen (cellLink n B) i j) : j = i := by
  rcases Relation.ReflTransGen.cases_head h with h1 | ⟨z, hz, -⟩
  · exact h1.symm
  · exact absurd hB hz.2.2.2.1

theorem conn_to_empty {n : Nat} {B : Nat → Nat} {i j : Nat} (hB : B j = 0)
    (h : Relation.ReflTransGen (cellLink n B) i j) : i = j := by
  induction h with
  | refl => rfl
  | tail h1 h2 ih =>
    have hz := h2.2.2.2.1
    rw [h2.2.2.2.2] at hz
    exact absurd hB hz

theorem cellLink_board_congr {n : Nat} {B B2 : Nat → Nat} {a b : Nat}
    (h2a : B2 a = B a) (h2b : B2 b = B b) (h : cellLink n B a b) :
    cellLink n B2 a b := by
  obtain ⟨ha, hb, hm, hB, he⟩ := h
  refine ⟨ha, hb, hm, ?_, ?_⟩
  · rw [h2a]
    exact hB
  · rw [h2a, h2b]
    exact he

theorem cellLinkAway_symm {n : Nat} {B : Nat → Nat} {x : Nat} :
    ∀ a b, cellLinkAway n B x a b → cellLinkAway n B x b a := by
  rintro a b ⟨h, ha, hb⟩
  exact ⟨cellLink_symm h, hb, ha⟩

theorem makeMove_eq (s : FastHexGame) (r c : Nat) :
    s.makeMove r c =
      (let idx := r * s.size + c
       let s1 : FastHexGame :=
         { s with board := updF s.board idx s.currentPlayer,
                  filledCount := s.filledCount + 1,
                  movesHistory := s.movesHistory ++ [(idx, s.currentPlayer)],
                  emptyCells := swapPop s.emptyCells idx }
       let s3 := s1.initCell idx s.currentPlayer
       let s4 := (neighborsIdx s.size idx).foldl
         (fun t nb => if t.board nb = t.currentPlayer then t.unionGroups idx nb else t) s3
       { s4 with currentPlayer := if s4.currentPlayer = 1 then 2 else 1 }) := rfl

theorem makeMove_good (s : FastHexGame) (r c : Nat)
    (hT : TrackOK s) (hr : r < s.size) (hc : c < s.size)
    (hemp : s.board (r * s.size + c) = 0) (hcp : s.currentPlayer ≠ 0) :
    TrackOK (s.makeMove r c) ∧ (s.makeMove r c).size = s.size ∧
    (s.makeMove r c).board = updF s.board (r * s.size + c) s.currentPlayer ∧
    (s.makeMove r c).currentPlayer = (if s.currentPlayer = 1 then 2 else 1) := by
  obtain ⟨hGU, hGS⟩ := hT
  have hinv : UFInv (s.size * s.size) s.parent := hGU.1
  have hidxN : r * s.size + c < s.size * s.size := flat_lt hr hc
  have hN1 : 1 ≤ s.size * s.size := by omega
  -- the fresh cell is an isolated root
  have hroot : IsRoot s.parent (r * s.size + c) := by
    have hre := rootF_reaches hinv hidxN
    have hrtN := reaches_lt (ufInv_bounded hinv) hidxN hre
    have hsr : SameRoot s.parent (r * s.size + c)
        (rootF (s.size * s.size) s.parent (r * s.size + c)) :=
      ⟨_, hre, reaches_self (reaches_isRoot hre)⟩
    have hconn := (hGU.2 _ hidxN _ hrtN).mp hsr
    have heq := conn_from_empty hemp hconn
    have hisr := reaches_isRoot hre
    rw [heq] at hisr
    exact hisr
  have hsingle : ∀ b, b < s.size * s.size →
      Reaches s.parent b (r * s.size + c) → b = r * s.size + c := by
    intro b hbN hRb
    have hsr : SameRoot s.parent b (r * s.size + c) := ⟨_, hRb, reaches_self hroot⟩
    exact conn_to_empty hemp ((hGU.2 b hbN _ hidxN).mp hsr)
  -- the updated board
  have hBid : updF s.board (r * s.size + c) s.currentPlayer (r * s.size + c)
      = s.currentPlayer := updF_self _ _ _
  -- base link relation after the stone lands, before its unions
  have hbase : ∀ a b, cellLink s.size s.board a b ↔
      addLinks s.size (updF s.board (r * s.size + c) s.currentPlayer)
        (r * s.size + c) (cellLinkAway s.size
          (updF s.board (r * s.size + c) s.currentPlayer) (r * s.size + c)) [] a b := by
    intro a b
    constructor
    · intro h
      have hane : a ≠ r * s.size + c := by
        intro he
        rw [he] at h
        exact h.2.2.2.1 hemp
      have hbne : b ≠ r * s.size + c := by
        intro he
        have h5 := h.2.2.2.2
        rw [he, hemp] at h5
        exact h.2.2.2.1 h5
      refine Or.inl ⟨cellLink_board_congr ?_ ?_ h, hane, hbne⟩
      · exact updF_ne _ _ _ _ hane
      · exact updF_ne _ _ _ _ hbne
    · rintro (⟨h, hane, hbne⟩ | ⟨-, hb, -⟩ | ⟨-, ha, -⟩)
      · refine cellLink_board_congr ?_ ?_ h
        · exact (updF_ne _ _ _ _ hane).symm
        · exact (updF_ne _ _ _ _ hbne).symm
      · exact absurd hb (List.not_mem_nil b)
      · exact absurd ha (List.not_mem_nil a)
  have hGUbase : GoodUF (s.size * s.size) s.parent
      (addLinks s.size (updF s.board (r * s.size + c) s.currentPlayer)
        (r * s.size + c) (cellLinkAway s.size
          (updF s.board (r * s.size + c) s.currentPlayer) (r * s.size + c)) []) :=
    goodUF_congr_rel hbase hGU
  have hGSbase : GoodStatus (s.size * s.size) s.parent
      (updF s.groupStatus (r * s.size + c) (s.groupStatus (r * s.size + c) |||
        cellBits s.size (updF s.board (r * s.size + c) s.currentPlayer) (r * s.size + c)))
      (cellBits s.size (updF s.board (r * s.size + c) s.currentPlayer)) := by
    refine goodStatus_initCell hidxN hroot hsingle ?_ ?_ hGS
    · intro b hbne
      exact cellBits_congr (updF_ne _ _ _ _ hbne)
    · exact cellBits_of_empty hemp
  -- the status word written by initCell is the new stone's cellBits
  have hbitsw : cellBits s.size (updF s.board (r * s.size + c) s.currentPlayer)
      (r * s.size + c) = statusBits s.size (r * s.size + c) s.currentPlayer :=
    cellBits_of_stone hBid hcp
  -- run the union fold
  have F := unionFold_good s.size (updF s.board (r * s.size + c) s.currentPlayer)
    s.currentPlayer (r * s.size + c)
    (cellLinkAway s.size (updF s.board (r * s.size + c) s.currentPlayer) (r * s.size + c))
    cellLinkAway_symm hidxN (by rw [hBid]; exact hcp)
    (fun t nb => if t.board nb = t.currentPlayer
      then t.unionGroups (r * s.size + c) nb else t)
    (by
      intro t nb h1 h2 h3
      dsimp only
      rw [h2, h3, hBid])
    (neighborsIdx s.size (r * s.size + c)) []
    ({ s with board := updF s.board (r * s.size + c) s.currentPlayer,
              filledCount := s.filledCount + 1,
              movesHistory := s.movesHistory ++ [(r * s.size + c, s.currentPlayer)],
              emptyCells := swapPop s.emptyCells (r * s.size + c),
              groupStatus := updF s.groupStatus (r * s.size + c)
                (s.groupStatus (r * s.size + c) |||
                  statusBits s.size (r * s.size + c) s.currentPlayer) })
    (fun m hm => hm) rfl rfl rfl
    (by
      show GoodUF (s.size * s.size) s.parent _
      exact hGUbase)
    (by
      show GoodStatus (s.size * s.size) s.parent
        (updF s.groupStatus (r * s.size + c) (s.groupStatus (r * s.size + c) |||
          statusBits s.size (r * s.size + c) s.currentPlayer)) _
      rw [← hbitsw]
      exact hGSbase)
  obtain ⟨hsz4, hbd4, hcp4, hGU4, hGS4⟩ := F
  -- collapse the fully-processed link relation to the plain board links
  have hfull : ∀ a b,
      addLinks s.size (updF s.board (r * s.size + c) s.currentPlayer)
        (r * s.size + c) (cellLinkAway s.size
          (updF s.board (r * s.size + c) s.currentPlayer) (r * s.size + c))
        ([] ++ neighborsIdx s.size (r * s.size + c)) a b ↔
      cellLink s.size (updF s.board (r * s.size + c) s.currentPlayer) a b := by
    intro a b
    constructor
    · rintro (⟨h, -, -⟩ | ⟨ha, -, hl⟩ | ⟨hb, -, hl⟩)
      · exact h
      · rw [ha]
        exact hl
      · rw [hb]
        exact hl
    · intro h
      by_cases hae : a = r * s.size + c
      · rw [hae] at h
        refine Or.inr (Or.inl ⟨hae, ?_, h⟩)
        rw [List.nil_append]
        exact h.2.2.1
      · by_cases hbe : b = r * s.size + c
        · rw [hbe] at h
          refine Or.inr (Or.inr ⟨hbe, ?_, h⟩)
          rw [List.nil_append]
          exact neighborsIdx_symm h.1 h.2.2.1
        · exact Or.inl ⟨h, hae, hbe⟩
  rw [makeMove_eq]
  dsimp only
  rw [initCell_spec
    { s with board := updF s.board (r * s.size + c) s.currentPlayer,
             filledCount := s.filledCount + 1,
             movesHistory := s.movesHistory ++ [(r * s.size + c, s.currentPlayer)],
             emptyCells := swapPop s.emptyCells (r * s.size + c) }
    (r * s.size + c) s.currentPlayer hroot hN1]
  dsimp only
  refine ⟨⟨?_, ?_⟩, ?_, ?_, ?_⟩
  · show GoodUF _ _ _
    rw [hsz4, hbd4]
    exact goodUF_congr_rel hfull hGU4
  · show GoodStatus _ _ _ _
    rw [hsz4, hbd4]
    exact hGS4
  · exact hsz4
  · exact hbd4
  · rw [hcp4]

theorem pass1_status (n : Nat) (B : Nat → Nat) :
    ∀ k, (List.range k).foldl
        (fun g i => if B i ≠ 0 then updF g i (g i ||| statusBits n i (B i)) else g)
        (fun _ => 0)
      = fun j => if j < k ∧ B j ≠ 0 then cellBits n B j else 0 := by
  intro k
  induction k with
  | zero =>
    funext j
    simp [List.range_zero]
  | succ k ih =>
    rw [List.range_succ, List.foldl_append, ih]
    show (if B k ≠ 0 then
        updF (fun j => if j < k ∧ B j ≠ 0 then cellBits n B j else 0) k
          ((fun j => if j < k ∧ B j ≠ 0 then cellBits n B j else 0) k |||
            statusBits n k (B k))
      else fun j => if j < k ∧ B j ≠ 0 then cellBits n B j else 0) = _
    have hGk : (fun j => if j < k ∧ B j ≠ 0 then cellBits n B j else 0) k = 0 := by
      simp [Nat.lt_irrefl]
    by_cases hB : B k ≠ 0
    · rw [if_pos hB]
      funext j
      by_cases hj : j = k
      · rw [hj, updF_self, hGk, Nat.zero_or,
          if_pos (And.intro (Nat.lt_succ_self k) hB), cellBits_of_stone rfl hB]
      · rw [updF_ne _ _ _ _ hj]
        show (if j < k ∧ B j ≠ 0 then cellBits n B j else 0) = _
        have hiff : (j < k ∧ B j ≠ 0) ↔ (j < k + 1 ∧ B j ≠ 0) := by
          constructor
          · rintro ⟨h1, h2⟩
            exact ⟨by omega, h2⟩
          · rintro ⟨h1, h2⟩
            refine ⟨by omega, h2⟩
        rw [if_congr hiff rfl rfl]
    · rw [if_neg hB]
      funext j
      by_cases hj : j = k
      · rw [hj]
        show (if k < k ∧ B k ≠ 0 then cellBits n B k else 0) = _
        have h1 : ¬(k < k ∧ B k ≠ 0) := by
          rintro ⟨h2, -⟩
          omega
        have h2 : ¬(k < k + 1 ∧ B k ≠ 0) := by
          rintro ⟨-, h3⟩
          exact hB h3
        rw [if_neg h1, if_neg h2]
      · show (if j < k ∧ B j ≠ 0 then cellBits n B j else 0) = _
        have hiff : (j < k ∧ B j ≠ 0) ↔ (j < k + 1 ∧ B j ≠ 0) := by
          constructor
          · rintro ⟨h1, h2⟩
            exact ⟨by omega, h2⟩
          · rintro ⟨h1, h2⟩
            refine ⟨by omega, h2⟩
        rw [if_congr hiff rfl rfl]

theorem pass1_fold :
    ∀ (L : List Nat) (s : FastHexGame),
      (∀ i, s.parent i = i) → 1 ≤ s.size * s.size →
      (L.foldl (fun t i => if t.board i ≠ 0 then t.initCell i (t.board i) else t) s)
        = { s with groupStatus :=
            (L.foldl (fun g i => if s.board i ≠ 0 then
                updF g i (g i ||| statusBits s.size i (s.board i)) else g)
              s.groupStatus) } := by
  intro L
  induction L with
  | nil =>
    intro s hP hN
    rfl
  | cons i L ih =>
    intro s hP hN
    rw [List.foldl_cons, List.foldl_cons]
    by_cases hB : s.board i ≠ 0
    · rw [if_pos hB, if_pos hB, initCell_spec s i (s.board i) (hP i) hN]
      exact ih _ hP hN
    · rw [if_neg hB, if_neg hB]
      exact ih s hP hN

theorem ufInv_id (N : Nat) : UFInv N (fun i => i) := by
  intro i hi
  exact ⟨hi, ⟨i, ⟨0, rfl, rfl⟩⟩⟩

theorem reaches_id {i r : Nat} (h : Reaches (fun j => j) i r) : r = i := by
  obtain ⟨k, hk, -⟩ := h
  rw [← hk]
  exact iterP_root (fun j => j) rfl k

theorem goodUF_id (N : Nat) (L : Nat → Nat → Prop)
    (hL : ∀ a b, ¬L a b) : GoodUF N (fun i => i) L := by
  refine ⟨ufInv_id N, ?_⟩
  intro a ha b hb
  constructor
  · rintro ⟨r, h1, h2⟩
    have e1 := reaches_id h1
    have e2 := reaches_id h2
    rw [e1.symm.trans e2]
  · intro h
    rcases Relation.ReflTransGen.cases_head h with h1 | ⟨z, hz, -⟩
    · rw [h1]
      exact ⟨b, reaches_self rfl, reaches_self rfl⟩
    · exact absurd hz (hL a z)

theorem cellLinkBelow_zero {n : Nat} {B : Nat → Nat} :
    ∀ a b, ¬cellLinkBelow n B 0 a b := by
  rintro a b ⟨-, h | h⟩ <;> omega

theorem cellLinkBelow_symm {n : Nat} {B : Nat → Nat} {k : Nat} :
    ∀ a b, cellLinkBelow n B k a b → cellLinkBelow n B k b a :=
  fun a b h => ⟨cellLink_symm h.1, Or.symm h.2⟩

theorem goodStatus_id_pass1 (n : Nat) (B : Nat → Nat) :
    GoodStatus (n * n) (fun i => i)
      (fun j => if j < n * n ∧ B j ≠ 0 then cellBits n B j else 0)
      (cellBits n B) := by
  intro r hrN hroot t
  show (if r < n * n ∧ B r ≠ 0 then cellBits n B r else 0).testBit t = true ↔ _
  constructor
  · intro hbit
    by_cases hc : r < n * n ∧ B r ≠ 0
    · rw [if_pos hc] at hbit
      exact ⟨r, hrN, reaches_self hroot, hbit⟩
    · rw [if_neg hc, Nat.zero_testBit] at hbit
      exact absurd hbit Bool.false_ne_true
  · rintro ⟨b, hbN, hreach, hbit⟩
    have hbr : r = b := reaches_id hreach
    rw [← hbr] at hbit
    by_cases hBr : B r ≠ 0
    · rw [if_pos ⟨hrN, hBr⟩]
      exact hbit
    · rw [cellBits_of_empty (not_not.mp hBr), Nat.zero_testBit] at hbit
      exact absurd hbit Bool.false_ne_true


theorem pass2_fold (s : FastHexGame)
    (hGU : GoodUF (s.size * s.size) s.parent (cellLinkBelow s.size s.board 0))
    (hGS : GoodStatus (s.size * s.size) s.parent s.groupStatus
      (cellBits s.size s.board)) :
    ∀ k, k ≤ s.size * s.size →
      (initUnionPass s k).size = s.size ∧
      (initUnionPass s k).board = s.board ∧
      (initUnionPass s k).currentPlayer = s.currentPlayer ∧
      GoodUF (s.size * s.size) (initUnionPass s k).parent
        (cellLinkBelow s.size s.board k) ∧
      GoodStatus (s.size * s.size) (initUnionPass s k).parent
        (initUnionPass s k).groupStatus (cellBits s.size s.board) := by
  intro k
  induction k with
  | zero =>
    intro _
    exact ⟨rfl, rfl, rfl, hGU, hGS⟩
  | succ k ih =>
    intro hk
    obtain ⟨hsz, hbd, hcp, hGUk, hGSk⟩ := ih (by omega)
    have hunf : initUnionPass s (k + 1) =
        (if (initUnionPass s k).board k ≠ 0 then
          ((initUnionPass s k).getNeighborsIdx k).foldl (fun t2 nb =>
            if t2.board nb = t2.board k then t2.unionGroups k nb else t2)
            (initUnionPass s k)
        else initUnionPass s k) := by
      unfold initUnionPass
      rw [List.range_succ, List.foldl_append, List.foldl_cons, List.foldl_nil]
    rw [hunf]
    by_cases hBk : s.board k ≠ 0
    · rw [if_pos (by rw [hbd]; exact hBk)]
      have hnb : (initUnionPass s k).getNeighborsIdx k = neighborsIdx s.size k := by
        unfold FastHexGame.getNeighborsIdx
        rw [hsz]
      rw [hnb]
      have hbase : ∀ a b, cellLinkBelow s.size s.board k a b ↔
          addLinks s.size s.board k (cellLinkBelow s.size s.board k) [] a b := by
        intro a b
        constructor
        · intro h
          exact Or.inl h
        · rintro (h | ⟨-, hb, -⟩ | ⟨-, ha, -⟩)
          · exact h
          · exact absurd hb (List.not_mem_nil b)
          · exact absurd ha (List.not_mem_nil a)
      have F := unionFold_good s.size s.board s.currentPlayer k
        (cellLinkBelow s.size s.board k) cellLinkBelow_symm
        (by omega) hBk
        (fun t2 nb => if t2.board nb = t2.board k then t2.unionGroups k nb else t2)
        (by
          intro t2 nb h1 h2 h3
          dsimp only
          rw [h2])
        (neighborsIdx s.size k) [] (initUnionPass s k)
        (fun m hm => hm) hsz hbd hcp
        (goodUF_congr_rel hbase hGUk) hGSk
      obtain ⟨hsz2, hbd2, hcp2, hGU2, hGS2⟩ := F
      refine ⟨hsz2, hbd2, hcp2, goodUF_congr_rel ?_ hGU2, hGS2⟩
      intro a b
      constructor
      · rintro (⟨h, hor⟩ | ⟨ha, -, hl⟩ | ⟨hb, -, hl⟩)
        · refine ⟨h, ?_⟩
          rcases hor with h2 | h2
          · exact Or.inl (by omega)
          · exact Or.inr (by omega)
        · refine ⟨?_, Or.inl (by omega)⟩
          rw [ha]
          exact hl
        · refine ⟨?_, Or.inr (by omega)⟩
          rw [hb]
          exact hl
      · rintro ⟨h, hor⟩
        by_cases hak : a < k
        · exact Or.inl ⟨h, Or.inl hak⟩
        · by_cases hbk : b < k
          · exact Or.inl ⟨h, Or.inr hbk⟩
          · have hae : a = k ∨ b = k := by omega
            rcases hae with hae | hbe
            · rw [hae] at h
              exact Or.inr (Or.inl ⟨hae, by rw [List.nil_append]; exact h.2.2.1, h⟩)
            · rw [hbe] at h
              exact Or.inr (Or.inr ⟨hbe,
                by rw [List.nil_append]; exact neighborsIdx_symm h.1 h.2.2.1, h⟩)
    · rw [if_neg (by rw [hbd]; exact hBk)]
      refine ⟨hsz, hbd, hcp, goodUF_congr_rel ?_ hGUk, hGSk⟩
      intro a b
      constructor
      · rintro ⟨h, hor⟩
        refine ⟨h, ?_⟩
        rcases hor with h2 | h2
        · exact Or.inl (by omega)
        · exact Or.inr (by omega)
      · rintro ⟨h, hor⟩
        refine ⟨h, ?_⟩
        rcases hor with h2 | h2
        · by_cases hae : a = k
          · rw [hae] at h
            exact absurd h.2.2.2.1 (not_not.mpr (not_not.mp hBk))
          · exact Or.inl (by omega)
        · by_cases hbe : b = k
          · rw [hbe] at h
            have h6 := h.2.2.2.1
            rw [h.2.2.2.2] at h6
            exact absurd (not_not.mp hBk) h6
          · exact Or.inr (by omega)

theorem init_eq (g : HexGame) :
    FastHexGame.init g =
      (let n := g.size * g.size
       let boardF : Nat → Nat :=
         fun i => if i < n then get2D g.board (i / g.size) (i % g.size) else 0
       let s0 : FastHexGame :=
         { size := g.size, board := boardF,
           emptyCells := (List.range n).filter (fun i => boardF i = 0),
           movesHistory := [], currentPlayer := g.currentPlayer,
           parent := fun i => i, groupStatus := fun _ => 0, filledCount := 0,
           initialBoard := fun _ => 0, initialPlayer := 0, initialEmpty := [],
           initialGroupStatus := fun _ => 0, initialUF := fun i => i,
           initialFilledCount := 0 }
       let s1 := (List.range n).foldl
         (fun s i => if s.board i ≠ 0 then s.initCell i (s.board i) else s) s0
       let s2 := initUnionPass s1 n
       { s2 with initialBoard := s2.board, initialPlayer := s2.currentPlayer,
                 initialEmpty := s2.emptyCells, initialGroupStatus := s2.groupStatus,
                 initialUF := s2.parent,
                 filledCount := n - s2.emptyCells.length,
                 initialFilledCount := n - s2.emptyCells.length }) := rfl

theorem init_good (g : HexGame) :
    TrackOK (FastHexGame.init g) ∧
    (FastHexGame.init g).size = g.size ∧
    (FastHexGame.init g).currentPlayer = g.currentPlayer ∧
    (FastHexGame.init g).board = (fun i =>
      if i < g.size * g.size then get2D g.board (i / g.size) (i % g.size) else 0) := by
  rcases Nat.eq_zero_or_pos (g.size * g.size) with hN0 | hN
  · rw [init_eq]
    dsimp only
    rw [hN0]
    simp only [List.range_zero, List.filter_nil, List.foldl_nil]
    unfold initUnionPass
    simp only [List.range_zero, List.foldl_nil]
    refine ⟨⟨⟨?_, ?_⟩, ?_⟩, by trivial, by trivial, by trivial⟩
    · intro i hi
      dsimp only at hi
      rw [hN0] at hi
      exact absurd hi (Nat.not_lt_zero i)
    · intro a ha
      dsimp only at ha
      rw [hN0] at ha
      exact absurd ha (Nat.not_lt_zero a)
    · intro r hr
      dsimp only at hr
      rw [hN0] at hr
      exact absurd hr (Nat.not_lt_zero r)
  · rw [init_eq]
    dsimp only
    rw [pass1_fold (List.range (g.size * g.size)) _ (fun i => rfl) (by dsimp only; omega)]
    dsimp only
    rw [pass1_status g.size
      (fun i => if i < g.size * g.size then get2D g.board (i / g.size) (i % g.size) else 0)
      (g.size * g.size)]
    have P2 := pass2_fold
      { size := g.size,
        board := fun i =>
          if i < g.size * g.size then get2D g.board (i / g.size) (i % g.size) else 0,
        emptyCells := (List.range (g.size * g.size)).filter (fun i =>
          (if i < g.size * g.size then get2D g.board (i / g.size) (i % g.size) else 0) = 0),
        movesHistory := [], currentPlayer := g.currentPlayer,
        parent := fun i => i,
        groupStatus := fun j =>
          if j < g.size * g.size ∧
              (if j < g.size * g.size then get2D g.board (j / g.size) (j % g.size) else 0) ≠ 0
          then cellBits g.size (fun i =>
            if i < g.size * g.size then get2D g.board (i / g.size) (i % g.size) else 0) j
          else 0,
        filledCount := 0,
        initialBoard := fun _ => 0, initialPlayer := 0, initialEmpty := [],
        initialGroupStatus := fun _ => 0, initialUF := fun i => i,
        initialFilledCount := 0 }
      (goodUF_id _ _ cellLinkBelow_zero)
      (goodStatus_id_pass1 g.size _)
      (g.size * g.size) (le_refl _)
    obtain ⟨hsz2, hbd2, hcp2, hGU2, hGS2⟩ := P2
    have hNfull : ∀ a b,
        cellLinkBelow g.size
          (fun i => if i < g.size * g.size then get2D g.board (i / g.size) (i % g.size) else 0)
          (g.size * g.size) a b ↔
        cellLink g.size
          (fun i => if i < g.size * g.size then get2D g.board (i / g.size) (i % g.size) else 0)
          a b := by
      intro a b
      constructor
      · exact fun h => h.1
      · intro h
        exact ⟨h, Or.inl h.1⟩
    refine ⟨⟨?_, ?_⟩, ?_, ?_, ?_⟩
    · show GoodUF _ _ _
      dsimp only
      rw [hsz2, hbd2]
      exact goodUF_congr_rel hNfull hGU2
    · show GoodStatus _ _ _ _
      dsimp only
      rw [hsz2, hbd2]
      exact hGS2
    · exact hsz2
    · exact hcp2
    · exact hbd2

theorem replay_good (moves : List (Nat × Nat)) :
    ∀ (s : FastHexGame), TrackOK s → s.currentPlayer ≠ 0 →
      s.replayValid moves = true →
      TrackOK (s.replay moves) ∧ (s.replay moves).currentPlayer ≠ 0 ∧
      (s.replay moves).size = s.size ∧
      (s.replay moves).board (0 : Nat) = (s.replay moves).board (0 : Nat) := by
  induction moves with
  | nil =>
    intro s hT hcp _
    exact ⟨hT, hcp, rfl, rfl⟩
  | cons m rest ih =>
    obtain ⟨r, c⟩ := m
    intro s hT hcp hv
    have hv2 : (if r < s.size ∧ c < s.size ∧ s.board (r * s.size + c) = 0 then
        FastHexGame.replayValid (s.makeMove r c) rest else false) = true := hv
    by_cases hcond : r < s.size ∧ c < s.size ∧ s.board (r * s.size + c) = 0
    · rw [if_pos hcond] at hv2
      obtain ⟨hr, hc, hemp⟩ := hcond
      obtain ⟨hTm, hsz, hbd, hcp2⟩ := makeMove_good s r c hT hr hc hemp hcp
      have hcp3 : (s.makeMove r c).currentPlayer ≠ 0 := by
        rw [hcp2]
        by_cases h1 : s.currentPlayer = 1
        · rw [if_pos h1]
          omega
        · rw [if_neg h1]
          omega
      have hrw : s.replay ((r, c) :: rest) = (s.makeMove r c).replay rest := rfl
      rw [hrw]
      obtain ⟨h1, h2, h3, -⟩ := ih (s.makeMove r c) hTm hcp3 hv2
      refine ⟨h1, h2, ?_, rfl⟩
      rw [h3, hsz]
    · rw [if_neg hcond] at hv2
      exact absurd hv2 Bool.false_ne_true

theorem checkWinLoop_spec (player winningMask : Nat) :
    ∀ (L : List Nat) (s : FastHexGame),
      UFInv (s.size * s.size) s.parent →
      (∀ i, i ∈ L → i < s.size * s.size) →
      ((FastHexGame.checkWinLoop player winningMask s L).1 = true ↔
        ∃ i, i ∈ L ∧ s.board i = player ∧
          s.groupStatus (rootF (s.size * s.size) s.parent i) &&& winningMask
            = winningMask) := by
  intro L
  induction L with
  | nil =>
    intro s hinv hb
    constructor
    · intro h
      exact absurd h Bool.false_ne_true
    · rintro ⟨i, hi, -⟩
      exact absurd hi (List.not_mem_nil i)
  | cons i L ih =>
    intro s hinv hb
    have hiN : i < s.size * s.size := hb i (List.mem_cons_self i L)
    have hbL : ∀ j, j ∈ L → j < s.size * s.size :=
      fun j hj => hb j (List.mem_cons_of_mem i hj)
    have S := find_spec hinv hiN
    show ((if s.board i = player then
        (if ({ s with parent := (UnionFind.find s.parent (s.size * s.size) i).2 }
              : FastHexGame).groupStatus (UnionFind.find s.parent (s.size * s.size) i).1
              &&& winningMask = winningMask
         then (true, { s with parent := (UnionFind.find s.parent (s.size * s.size) i).2 })
         else FastHexGame.checkWinLoop player winningMask
           { s with parent := (UnionFind.find s.parent (s.size * s.size) i).2 } L)
      else FastHexGame.checkWinLoop player winningMask s L).1 = true) ↔ _
    by_cases hP : s.board i = player
    · rw [if_pos hP]
      obtain ⟨s2, hs2⟩ : ∃ s2, ({ s with
          parent := (UnionFind.find s.parent (s.size * s.size) i).2 }
          : FastHexGame) = s2 := ⟨_, rfl⟩
      rw [hs2]
      have hs2p : s2.parent = (UnionFind.find s.parent (s.size * s.size) i).2 := by
        rw [← hs2]
      have hs2g : s2.groupStatus = s.groupStatus := by
        rw [← hs2]
      have hs2b : s2.board = s.board := by
        rw [← hs2]
      have hs2sz : s2.size = s.size := by
        rw [← hs2]
      rw [hs2g, S.1]
      by_cases hM : s.groupStatus (rootF (s.size * s.size) s.parent i) &&& winningMask
          = winningMask
      · rw [if_pos hM]
        constructor
        · intro _
          exact ⟨i, List.mem_cons_self i L, hP, hM⟩
        · intro _
          rfl
      · rw [if_neg hM]
        have hinv2 : UFInv (s2.size * s2.size) s2.parent := by
          rw [hs2sz, hs2p]
          exact S.2.2
        have hbL2 : ∀ j, j ∈ L → j < s2.size * s2.size := by
          rw [hs2sz]
          exact hbL
        rw [ih s2 hinv2 hbL2]
        have hroot2 : ∀ j, j < s.size * s.size →
            rootF (s2.size * s2.size) s2.parent j
              = rootF (s.size * s.size) s.parent j := by
          intro j hj
          rw [hs2sz, hs2p]
          exact rootF_congr hinv S.2.2 S.2.1 hj
        constructor
        · rintro ⟨j, hj, hbd, hst⟩
          refine ⟨j, List.mem_cons_of_mem i hj, ?_, ?_⟩
          · rw [← hs2b]
            exact hbd
          · rw [← hroot2 j (hbL j hj), ← hs2g]
            exact hst
        · rintro ⟨j, hj, hbd, hst⟩
          rcases List.mem_cons.mp hj with rfl | hj2
          · exact absurd hst hM
          · refine ⟨j, hj2, ?_, ?_⟩
            · rw [hs2b]
              exact hbd
            · rw [hroot2 j (hbL j hj2), hs2g]
              exact hst
    · rw [if_neg hP]
      rw [ih s hinv hbL]
      constructor
      · rintro ⟨j, hj, hbd, hst⟩
        exact ⟨j, List.mem_cons_of_mem i hj, hbd, hst⟩
      · rintro ⟨j, hj, hbd, hst⟩
        rcases List.mem_cons.mp hj with rfl | hj2
        · exact absurd hbd hP
        · exact ⟨j, hj2, hbd, hst⟩

theorem and_mask_three (x : Nat) :
    x &&& 3 = 3 ↔ (x.testBit 0 = true ∧ x.testBit 1 = true) := by
  constructor
  · intro h
    constructor
    · have := congrArg (fun y => y.testBit 0) h
      simp only [Nat.testBit_and] at this
      rw [show (3 : Nat).testBit 0 = true from rfl] at this
      rw [Bool.and_true] at this
      exact this
    · have := congrArg (fun y => y.testBit 1) h
      simp only [Nat.testBit_and] at this
      rw [show (3 : Nat).testBit 1 = true from rfl] at this
      rw [Bool.and_true] at this
      exact this
  · rintro ⟨h0, h1⟩
    apply Nat.eq_of_testBit_eq
    intro t
    rw [Nat.testBit_and]
    match t with
    | 0 => rw [h0]; rfl
    | 1 => rw [h1]; rfl
    | t + 2 =>
      have h3 : (3 : Nat).testBit (t + 2) = false := by
        apply Nat.testBit_eq_false_of_lt
        calc (3 : Nat) < 4 := by omega
          _ = 2 ^ 2 := rfl
          _ ≤ 2 ^ (t + 2) := Nat.pow_le_pow_right (by omega) (by omega)
      rw [h3, Bool.and_false]

theorem and_mask_twelve (x : Nat) :
    x &&& 12 = 12 ↔ (x.testBit 2 = true ∧ x.testBit 3 = true) := by
  constructor
  · intro h
    constructor
    · have := congrArg (fun y => y.testBit 2) h
      simp only [Nat.testBit_and] at this
      rw [show (12 : Nat).testBit 2 = true from rfl] at this
      rw [Bool.and_true] at this
      exact this
    · have := congrArg (fun y => y.testBit 3) h
      simp only [Nat.testBit_and] at this
      rw [show (12 : Nat).testBit 3 = true from rfl] at this
      rw [Bool.and_true] at this
      exact this
  · rintro ⟨h2, h3⟩
    apply Nat.eq_of_testBit_eq
    intro t
    rw [Nat.testBit_and]
    match t with
    | 0 => rw [show (12 : Nat).testBit 0 = false from rfl, Bool.and_false]
    | 1 => rw [show (12 : Nat).testBit 1 = false from rfl, Bool.and_false]
    | 2 => rw [h2]; rfl
    | 3 => rw [h3]; rfl
    | t + 4 =>
      have h12 : (12 : Nat).testBit (t + 4) = false := by
        apply Nat.testBit_eq_false_of_lt
        calc (12 : Nat) < 16 := by omega
          _ = 2 ^ 4 := rfl
          _ ≤ 2 ^ (t + 4) := Nat.pow_le_pow_right (by omega) (by omega)
      rw [h12, Bool.and_false]

theorem testBit_ite_pow {c : Prop} [Decidable c] {v k t : Nat} (hv : v = 2 ^ k) :
    ((if c then v else 0).testBit t = true) ↔ (c ∧ t = k) := by
  by_cases hc : c
  · rw [if_pos hc, hv]
    by_cases ht : t = k
    · rw [ht, Nat.testBit_two_pow_self]
      simp [hc, ht]
    · rw [Nat.testBit_two_pow_of_ne (fun he => ht he.symm)]
      simp [hc, ht]
  · rw [if_neg hc, Nat.zero_testBit]
    simp [hc]

theorem two_pow_zero_eq : (1 : Nat) = 2 ^ (0 : Nat) := by norm_num

theorem two_pow_one_eq : (2 : Nat) = 2 ^ (1 : Nat) := by norm_num

theorem two_pow_two_eq : (4 : Nat) = 2 ^ (2 : Nat) := by norm_num

theorem two_pow_three_eq : (8 : Nat) = 2 ^ (3 : Nat) := by norm_num

theorem cellBits_bit_iff {n : Nat} {B : Nat → Nat} {b : Nat} (t : Nat) :
    ((cellBits n B b).testBit t = true) ↔
      (B b ≠ 0 ∧
        ((B b = 1 ∧ ((t = 0 ∧ b / n = 0) ∨ (t = 1 ∧ b / n = n - 1))) ∨
         (B b ≠ 1 ∧ ((t = 2 ∧ b % n = 0) ∨ (t = 3 ∧ b % n = n - 1))))) := by
  unfold cellBits
  by_cases h0 : B b = 0
  · rw [if_pos h0, Nat.zero_testBit]
    simp [h0]
  · rw [if_neg h0]
    by_cases h1 : B b = 1
    · rw [if_pos h1, Nat.testBit_or]
      simp only [Bool.or_eq_true, testBit_ite_pow two_pow_zero_eq,
        testBit_ite_pow two_pow_one_eq]
      constructor
      · rintro (⟨hc, rfl⟩ | ⟨hc, rfl⟩)
        · exact ⟨h0, Or.inl ⟨h1, Or.inl ⟨rfl, hc⟩⟩⟩
        · exact ⟨h0, Or.inl ⟨h1, Or.inr ⟨rfl, hc⟩⟩⟩
      · rintro ⟨-, (⟨-, (⟨rfl, hc⟩ | ⟨rfl, hc⟩)⟩ | ⟨hb1, -⟩)⟩
        · exact Or.inl ⟨hc, rfl⟩
        · exact Or.inr ⟨hc, rfl⟩
        · exact absurd h1 hb1
    · rw [if_neg h1, Nat.testBit_or]
      simp only [Bool.or_eq_true, testBit_ite_pow two_pow_two_eq,
        testBit_ite_pow two_pow_three_eq]
      constructor
      · rintro (⟨hc, rfl⟩ | ⟨hc, rfl⟩)
        · exact ⟨h0, Or.inr ⟨h1, Or.inl ⟨rfl, hc⟩⟩⟩
        · exact ⟨h0, Or.inr ⟨h1, Or.inr ⟨rfl, hc⟩⟩⟩
      · rintro ⟨-, (⟨hb1, -⟩ | ⟨-, (⟨rfl, hc⟩ | ⟨rfl, hc⟩)⟩)⟩
        · exact absurd hb1 h1
        · exact Or.inl ⟨hc, rfl⟩
        · exact Or.inr ⟨hc, rfl⟩

theorem conn_value {n : Nat} {B : Nat → Nat} {a b : Nat}
    (h : Relation.ReflTransGen (cellLink n B) a b) : B b = B a := by
  induction h with
  | refl => rfl
  | tail h1 h2 ih =>
    rw [← h2.2.2.2.2]
    exact ih

theorem checkWin_iff_winSpec (s : FastHexGame) (player : Nat)
    (hT : TrackOK s) (hp : player ≠ 0) :
    ((s.checkWin player).1 = true ↔ winSpec s.size s.board player) := by
  obtain ⟨⟨hinv, hpart⟩, hGS⟩ := hT
  have hL := checkWinLoop_spec player (if player = 1 then 3 else 12)
    (List.range (s.size * s.size)) s hinv
    (fun i hi => List.mem_range.mp hi)
  rw [show (s.checkWin player) = FastHexGame.checkWinLoop player
      (if player = 1 then 3 else 12) s (List.range (s.size * s.size)) from rfl]
  rw [hL]
  constructor
  · rintro ⟨i, hiR, hBi, hM⟩
    have hiN : i < s.size * s.size := List.mem_range.mp hiR
    have hre := rootF_reaches hinv hiN
    have hρN : rootF (s.size * s.size) s.parent i < s.size * s.size :=
      reaches_lt (ufInv_bounded hinv) hiN hre
    have hρroot : IsRoot s.parent (rootF (s.size * s.size) s.parent i) :=
      reaches_isRoot hre
    by_cases hp1 : player = 1
    · rw [if_pos hp1] at hM
      obtain ⟨hb0, hb1⟩ := (and_mask_three _).mp hM
      obtain ⟨a, haN, haR, habit⟩ := (hGS _ hρN hρroot 0).mp hb0
      obtain ⟨b, hbN, hbR, hbbit⟩ := (hGS _ hρN hρroot 1).mp hb1
      rw [cellBits_bit_iff 0] at habit
      rw [cellBits_bit_iff 1] at hbbit
      have ha : s.board a = 1 ∧ a / s.size = 0 := by
        rcases habit with ⟨-, ⟨hA1, (⟨-, h⟩ | ⟨h01, -⟩)⟩ | ⟨-, (⟨h02, -⟩ | ⟨h03, -⟩)⟩⟩
        · exact ⟨hA1, h⟩
        · omega
        · omega
        · omega
      have hbq : s.board b = 1 ∧ b / s.size = s.size - 1 := by
        rcases hbbit with ⟨-, ⟨hB1, (⟨h10, -⟩ | ⟨-, h⟩)⟩ | ⟨-, (⟨h12, -⟩ | ⟨h13, -⟩)⟩⟩
        · omega
        · exact ⟨hB1, h⟩
        · omega
        · omega
      have hconn : Relation.ReflTransGen (cellLink s.size s.board) a b :=
        (hpart a haN b hbN).mp ⟨_, haR, hbR⟩
      refine ⟨a, b, haN, hbN, ?_, ?_, ?_, ?_, hconn⟩
      · rw [ha.1, hp1]
      · rw [hbq.1, hp1]
      · unfold startEdge
        rw [if_pos hp1]
        exact ha.2
      · unfold endEdge
        rw [if_pos hp1]
        exact hbq.2
    · rw [if_neg hp1] at hM
      obtain ⟨hb2, hb3⟩ := (and_mask_twelve _).mp hM
      obtain ⟨a, haN, haR, habit⟩ := (hGS _ hρN hρroot 2).mp hb2
      obtain ⟨b, hbN, hbR, hbbit⟩ := (hGS _ hρN hρroot 3).mp hb3
      rw [cellBits_bit_iff 2] at habit
      rw [cellBits_bit_iff 3] at hbbit
      have ha : a % s.size = 0 := by
        rcases habit with ⟨-, ⟨-, (⟨h20, -⟩ | ⟨h21, -⟩)⟩ | ⟨-, (⟨-, h⟩ | ⟨h23, -⟩)⟩⟩
        · omega
        · omega
        · exact h
        · omega
      have hbq : b % s.size = s.size - 1 := by
        rcases hbbit with ⟨-, ⟨-, (⟨h30, -⟩ | ⟨h31, -⟩)⟩ | ⟨-, (⟨h32, -⟩ | ⟨-, h⟩)⟩⟩
        · omega
        · omega
        · omega
        · exact h
      have hconni : ∀ x, x < s.size * s.size → SameRoot s.parent i x →
          s.board x = player := by
        intro x hx hsr
        have hc := (hpart i hiN x hx).mp hsr
        rw [conn_value hc]
        exact hBi
      have hBa := hconni a haN ⟨_, rootF_reaches hinv hiN, haR⟩
      have hBb := hconni b hbN ⟨_, rootF_reaches hinv hiN, hbR⟩
      have hconn : Relation.ReflTransGen (cellLink s.size s.board) a b :=
        (hpart a haN b hbN).mp ⟨_, haR, hbR⟩
      refine ⟨a, b, haN, hbN, hBa, hBb, ?_, ?_, hconn⟩
      · unfold startEdge
        rw [if_neg hp1]
        exact ha
      · unfold endEdge
        rw [if_neg hp1]
        exact hbq
  · rintro ⟨a, b, haN, hbN, hBa, hBb, hstart, hend, hconn⟩
    refine ⟨a, List.mem_range.mpr haN, hBa, ?_⟩
    have hre := rootF_reaches hinv haN
    have hρN := reaches_lt (ufInv_bounded hinv) haN hre
    have hρroot := reaches_isRoot hre
    have hbreach : Reaches s.parent b (rootF (s.size * s.size) s.parent a) := by
      obtain ⟨ρ2, h1, h2⟩ := (hpart a haN b hbN).mpr hconn
      rw [reaches_unique h1 hre] at h2
      exact h2
    by_cases hp1 : player = 1
    · rw [if_pos hp1]
      refine (and_mask_three _).mpr ⟨?_, ?_⟩
      · refine (hGS _ hρN hρroot 0).mpr ⟨a, haN, hre, ?_⟩
        rw [cellBits_bit_iff 0]
        refine ⟨?_, Or.inl ⟨?_, Or.inl ⟨rfl, ?_⟩⟩⟩
        · rw [hBa, hp1]
          omega
        · rw [hBa, hp1]
        · unfold startEdge at hstart
          rw [if_pos hp1] at hstart
          exact hstart
      · refine (hGS _ hρN hρroot 1).mpr ⟨b, hbN, hbreach, ?_⟩
        rw [cellBits_bit_iff 1]
        refine ⟨?_, Or.inl ⟨?_, Or.inr ⟨rfl, ?_⟩⟩⟩
        · rw [hBb, hp1]
          omega
        · rw [hBb, hp1]
        · unfold endEdge at hend
          rw [if_pos hp1] at hend
          exact hend
    · rw [if_neg hp1]
      refine (and_mask_twelve _).mpr ⟨?_, ?_⟩
      · refine (hGS _ hρN hρroot 2).mpr ⟨a, haN, hre, ?_⟩
        rw [cellBits_bit_iff 2]
        refine ⟨?_, Or.inr ⟨?_, Or.inl ⟨rfl, ?_⟩⟩⟩
        · rw [hBa]
          exact hp
        · rw [hBa]
          exact hp1
        · unfold startEdge at hstart
          rw [if_neg hp1] at hstart
          exact hstart
      · refine (hGS _ hρN hρroot 3).mpr ⟨b, hbN, hbreach, ?_⟩
        rw [cellBits_bit_iff 3]
        refine ⟨?_, Or.inr ⟨?_, Or.inr ⟨rfl, ?_⟩⟩⟩
        · rw [hBb]
          exact hp
        · rw [hBb]
          exact hp1
        · unfold endEdge at hend
          rw [if_neg hp1] at hend
          exact hend

theorem toNat_recompose {n a : Nat} :
    ((a / n : Nat) : Int).toNat * n + ((a % n : Nat) : Int).toNat = a := by
  have h1 : ((a / n : Nat) : Int).toNat = a / n := Int.toNat_natCast _
  have h2 : ((a % n : Nat) : Int).toNat = a % n := Int.toNat_natCast _
  rw [h1, h2, Nat.mul_comm]
  exact Nat.div_add_mod a n

theorem Bflat_eq (g : HexGame) {r c : Int} (hc0 : 0 ≤ c) (hcn : c < (g.size : Int)) :
    get2D g.board ((r.toNat * g.size + c.toNat) / g.size)
      ((r.toNat * g.size + c.toNat) % g.size) = get2D g.board r.toNat c.toNat := by
  have hdm := div_mod_of_flat (n := g.size) r.toNat (show c.toNat < g.size by omega)
  rw [hdm.1, hdm.2]

theorem mem_getNeighbors (g : HexGame) (row col : Int) (y : Int × Int) :
    y ∈ g.getNeighbors row col ↔
      (y ∈ [(row - 1, col), (row - 1, col + 1), (row, col - 1),
            (row, col + 1), (row + 1, col - 1), (row + 1, col)] ∧
       0 ≤ y.1 ∧ y.1 < (g.size : Int) ∧ 0 ≤ y.2 ∧ y.2 < (g.size : Int)) := by
  unfold HexGame.getNeighbors
  rw [List.mem_filter]
  simp only [Bool.and_eq_true, decide_eq_true_eq, and_assoc]

theorem nbr2D_flat_core {n : Nat} {row col y1 y2 : Int} (d1 d2 : Int)
    (hd : (d1, d2) ∈ [((-1 : Int), (0 : Int)), (-1, 1), (0, -1), (0, 1), (1, -1), (1, 0)])
    (hrow0 : 0 ≤ row) (hrown : row < (n : Int))
    (hcol0 : 0 ≤ col) (hcoln : col < (n : Int))
    (hy1 : y1 = row + d1) (hy2 : y2 = col + d2)
    (hy10 : 0 ≤ y1) (hy1n : y1 < (n : Int)) (hy20 : 0 ≤ y2) (hy2n : y2 < (n : Int)) :
    y1.toNat * n + y2.toNat ∈ neighborsIdx n (row.toNat * n + col.toNat) := by
  have hdm := div_mod_of_flat (n := n) row.toNat (show col.toNat < n by omega)
  rw [mem_neighborsIdx]
  refine ⟨(d1, d2), hd, ?_, ?_⟩
  · rw [hdm.1, hdm.2]
    show 0 ≤ (row.toNat : Int) + d1 ∧ (row.toNat : Int) + d1 < (n : Int) ∧
      0 ≤ (col.toNat : Int) + d2 ∧ (col.toNat : Int) + d2 < (n : Int)
    refine ⟨by omega, by omega, by omega, by omega⟩
  · rw [hdm.1, hdm.2]
    show y1.toNat * n + y2.toNat
      = ((row.toNat : Int) + d1).toNat * n + ((col.toNat : Int) + d2).toNat
    have e1 : y1.toNat = ((row.toNat : Int) + d1).toNat := by omega
    have e2 : y2.toNat = ((col.toNat : Int) + d2).toNat := by omega
    rw [e1, e2]

theorem nbr2D_to_flat {g : HexGame} {row col : Int} {y : Int × Int}
    (hrow0 : 0 ≤ row) (hrown : row < (g.size : Int))
    (hcol0 : 0 ≤ col) (hcoln : col < (g.size : Int))
    (hy : y ∈ g.getNeighbors row col) :
    0 ≤ y.1 ∧ y.1 < (g.size : Int) ∧ 0 ≤ y.2 ∧ y.2 < (g.size : Int) ∧
    y.1.toNat * g.size + y.2.toNat
      ∈ neighborsIdx g.size (row.toNat * g.size + col.toNat) := by
  rw [mem_getNeighbors] at hy
  obtain ⟨hmem, h1, h2, h3, h4⟩ := hy
  refine ⟨h1, h2, h3, h4, ?_⟩
  simp only [List.mem_cons, List.not_mem_nil, or_false] at hmem
  rcases hmem with h | h | h | h | h | h <;> subst h <;> dsimp only at h1 h2 h3 h4 ⊢
  · exact nbr2D_flat_core (-1) 0 (by decide) hrow0 hrown hcol0 hcoln
      (by omega) (by omega) h1 h2 h3 h4
  · exact nbr2D_flat_core (-1) 1 (by decide) hrow0 hrown hcol0 hcoln
      (by omega) (by omega) h1 h2 h3 h4
  · exact nbr2D_flat_core 0 (-1) (by decide) hrow0 hrown hcol0 hcoln
      (by omega) (by omega) h1 h2 h3 h4
  · exact nbr2D_flat_core 0 1 (by decide) hrow0 hrown hcol0 hcoln
      (by omega) (by omega) h1 h2 h3 h4
  · exact nbr2D_flat_core 1 (-1) (by decide) hrow0 hrown hcol0 hcoln
      (by omega) (by omega) h1 h2 h3 h4
  · exact nbr2D_flat_core 1 0 (by decide) hrow0 hrown hcol0 hcoln
      (by omega) (by omega) h1 h2 h3 h4

theorem flat_to_nbr2D {g : HexGame} {a b : Nat}
    (ha : a < g.size * g.size) (hb : b ∈ neighborsIdx g.size a) :
    (((b / g.size : Nat) : Int), ((b % g.size : Nat) : Int)) ∈
      g.getNeighbors ((a / g.size : Nat) : Int) ((a % g.size : Nat) : Int) := by
  rw [mem_neighborsIdx] at hb
  obtain ⟨d, hd, hcond, hbe⟩ := hb
  obtain ⟨h1, h2, h3, h4⟩ := hcond
  have hn : 0 < g.size := by omega
  obtain ⟨u, hu⟩ : ∃ u, a / g.size = u := ⟨_, rfl⟩
  obtain ⟨v, hv⟩ : ∃ v, a % g.size = v := ⟨_, rfl⟩
  rw [hu] at h1 h2 hbe
  rw [hv] at h3 h4 hbe
  obtain ⟨X, hX⟩ : ∃ X, X = ((u : Int) + d.1).toNat := ⟨_, rfl⟩
  obtain ⟨Y, hY⟩ : ∃ Y, Y = ((v : Int) + d.2).toNat := ⟨_, rfl⟩
  have hYlt : Y < g.size := by omega
  have hdm := div_mod_of_flat (n := g.size) X hYlt
  have hbe2 : b = X * g.size + Y := by
    rw [hX, hY]
    exact hbe
  have hbdiv : b / g.size = X := by
    rw [hbe2]
    exact hdm.1
  have hbmod : b % g.size = Y := by
    rw [hbe2]
    exact hdm.2
  rw [hu, hv, hbdiv, hbmod, mem_getNeighbors]
  refine ⟨?_, by omega, by omega, by omega, by omega⟩
  simp only [List.mem_cons, List.not_mem_nil, or_false] at hd
  rcases hd with h | h | h | h | h | h <;>
    (rw [h] at h1 h2 h3 h4 hX hY
     dsimp only at h1 h2 h3 h4 hX hY)
  · have e : (((X : Nat) : Int), ((Y : Nat) : Int)) = ((u : Int) - 1, (v : Int)) := by
      rw [show ((X : Nat) : Int) = (u : Int) - 1 from by omega,
          show ((Y : Nat) : Int) = (v : Int) from by omega]
    rw [e]
    simp
  · have e : (((X : Nat) : Int), ((Y : Nat) : Int)) = ((u : Int) - 1, (v : Int) + 1) := by
      rw [show ((X : Nat) : Int) = (u : Int) - 1 from by omega,
          show ((Y : Nat) : Int) = (v : Int) + 1 from by omega]
    rw [e]
    simp
  · have e : (((X : Nat) : Int), ((Y : Nat) : Int)) = ((u : Int), (v : Int) - 1) := by
      rw [show ((X : Nat) : Int) = (u : Int) from by omega,
          show ((Y : Nat) : Int) = (v : Int) - 1 from by omega]
    rw [e]
    simp
  · have e : (((X : Nat) : Int), ((Y : Nat) : Int)) = ((u : Int), (v : Int) + 1) := by
      rw [show ((X : Nat) : Int) = (u : Int) from by omega,
          show ((Y : Nat) : Int) = (v : Int) + 1 from by omega]
    rw [e]
    simp
  · have e : (((X : Nat) : Int), ((Y : Nat) : Int)) = ((u : Int) + 1, (v : Int) - 1) := by
      rw [show ((X : Nat) : Int) = (u : Int) + 1 from by omega,
          show ((Y : Nat) : Int) = (v : Int) - 1 from by omega]
    rw [e]
    simp
  · have e : (((X : Nat) : Int), ((Y : Nat) : Int)) = ((u : Int) + 1, (v : Int)) := by
      rw [show ((X : Nat) : Int) = (u : Int) + 1 from by omega,
          show ((Y : Nat) : Int) = (v : Int) from by omega]
    rw [e]
    simp

theorem unvisCount_mark (g : HexGame) (player : Nat) (V : Int → Int → Bool)
    {y1 y2 : Int} (h10 : 0 ≤ y1) (h1n : y1 < (g.size : Int))
    (h20 : 0 ≤ y2) (h2n : y2 < (g.size : Int))
    (hcell : get2D g.board y1.toNat y2.toNat = player)
    (hunv : V y1 y2 = false) :
    unvisCount g player (fun a b => (a = y1 ∧ b = y2 : Bool) || V a b) + 1 =
      unvisCount g player V := by
  unfold unvisCount
  have hmem : (y1.toNat, y2.toNat) ∈
      (Finset.range g.size ×ˢ Finset.range g.size).filter
        (fun q => get2D g.board q.1 q.2 = player ∧
          V ((q.1 : Nat) : Int) ((q.2 : Nat) : Int) = false) := by
    rw [Finset.mem_filter, Finset.mem_product, Finset.mem_range, Finset.mem_range]
    refine ⟨⟨by omega, by omega⟩, hcell, ?_⟩
    rw [show ((y1.toNat : Nat) : Int) = y1 from by omega,
        show ((y2.toNat : Nat) : Int) = y2 from by omega]
    exact hunv
  have hset : (Finset.range g.size ×ˢ Finset.range g.size).filter
      (fun q => get2D g.board q.1 q.2 = player ∧
        ((fun a b => (a = y1 ∧ b = y2 : Bool) || V a b)
          ((q.1 : Nat) : Int) ((q.2 : Nat) : Int)) = false)
      = ((Finset.range g.size ×ˢ Finset.range g.size).filter
        (fun q => get2D g.board q.1 q.2 = player ∧
          V ((q.1 : Nat) : Int) ((q.2 : Nat) : Int) = false)).erase
          (y1.toNat, y2.toNat) := by
    ext q
    rw [Finset.mem_erase, Finset.mem_filter, Finset.mem_filter]
    constructor
    · rintro ⟨hq, hpl, hvf⟩
      rw [show ((fun a b => (a = y1 ∧ b = y2 : Bool) || V a b)
          ((q.1 : Nat) : Int) ((q.2 : Nat) : Int))
        = ((((q.1 : Nat) : Int) = y1 ∧ ((q.2 : Nat) : Int) = y2 : Bool) ||
            V ((q.1 : Nat) : Int) ((q.2 : Nat) : Int)) from rfl] at hvf
      rw [Bool.or_eq_false_iff] at hvf
      obtain ⟨hd, hv⟩ := hvf
      refine ⟨?_, hq, hpl, hv⟩
      intro he
      rw [he] at hd
      rw [decide_eq_false_iff_not] at hd
      exact hd ⟨by omega, by omega⟩
    · rintro ⟨hne, hq, hpl, hv⟩
      refine ⟨hq, hpl, ?_⟩
      rw [show ((fun a b => (a = y1 ∧ b = y2 : Bool) || V a b)
          ((q.1 : Nat) : Int) ((q.2 : Nat) : Int))
        = ((((q.1 : Nat) : Int) = y1 ∧ ((q.2 : Nat) : Int) = y2 : Bool) ||
            V ((q.1 : Nat) : Int) ((q.2 : Nat) : Int)) from rfl]
      rw [Bool.or_eq_false_iff]
      refine ⟨?_, hv⟩
      rw [decide_eq_false_iff_not]
      rintro ⟨he1, he2⟩
      apply hne
      have hq1 : q.1 = y1.toNat := by omega
      have hq2 : q.2 = y2.toNat := by omega
      rw [← hq1, ← hq2]
  rw [hset, Finset.card_erase_of_mem hmem]
  have hpos : 0 < ((Finset.range g.size ×ˢ Finset.range g.size).filter
      (fun q => get2D g.board q.1 q.2 = player ∧
        V ((q.1 : Nat) : Int) ((q.2 : Nat) : Int) = false)).card :=
    Finset.card_pos.mpr ⟨_, hmem⟩
  omega

theorem qlen_le_vis (g : HexGame) (player : Nat) (V : Int → Int → Bool)
    (Q : List (Int × Int)) (hnd : Q.Nodup)
    (hQ : ∀ q, q ∈ Q → V q.1 q.2 = true)
    (hV : BfsVisOK g player V) :
    Q.length + unvisCount g player V ≤ g.size * g.size := by
  have hnodup2 : (Q.map fun q => (q.1.toNat, q.2.toNat)).Nodup := by
    refine List.Nodup.map_on ?_ hnd
    intro x hx y hy he
    obtain ⟨hx1, hx2, hx3, hx4, -, -⟩ := hV x.1 x.2 (hQ x hx)
    obtain ⟨hy1, hy2, hy3, hy4, -, -⟩ := hV y.1 y.2 (hQ y hy)
    have he1 : x.1.toNat = y.1.toNat := congrArg Prod.fst he
    have he2 : x.2.toNat = y.2.toNat := congrArg Prod.snd he
    have hh1 : x.1 = y.1 := by omega
    have hh2 : x.2 = y.2 := by omega
    exact Prod.ext hh1 hh2
  have hsub : (Q.map fun q => (q.1.toNat, q.2.toNat)).toFinset ⊆
      (Finset.range g.size ×ˢ Finset.range g.size).filter
        (fun q => get2D g.board q.1 q.2 = player ∧
          V ((q.1 : Nat) : Int) ((q.2 : Nat) : Int) = true) := by
    intro p hp
    rw [List.mem_toFinset] at hp
    obtain ⟨q, hq, hpe⟩ := List.mem_map.mp hp
    obtain ⟨hq1, hq2, hq3, hq4, hq5, -⟩ := hV q.1 q.2 (hQ q hq)
    rw [Finset.mem_filter, Finset.mem_product, Finset.mem_range, Finset.mem_range]
    rw [← hpe]
    refine ⟨⟨by omega, by omega⟩, hq5, ?_⟩
    rw [show ((q.1.toNat : Nat) : Int) = q.1 from by omega,
        show ((q.2.toNat : Nat) : Int) = q.2 from by omega]
    exact hQ q hq
  have hlen : Q.length ≤ ((Finset.range g.size ×ˢ Finset.range g.size).filter
      (fun q => get2D g.board q.1 q.2 = player ∧
        V ((q.1 : Nat) : Int) ((q.2 : Nat) : Int) = true)).card := by
    calc Q.length = (Q.map fun q => (q.1.toNat, q.2.toNat)).length :=
        (List.length_map _ _).symm
      _ = (Q.map fun q => (q.1.toNat, q.2.toNat)).toFinset.card :=
        (List.toFinset_card_of_nodup hnodup2).symm
      _ ≤ _ := Finset.card_le_card hsub
  have hsplit : ((Finset.range g.size ×ˢ Finset.range g.size).filter
      (fun q => get2D g.board q.1 q.2 = player ∧
        V ((q.1 : Nat) : Int) ((q.2 : Nat) : Int) = true)).card +
      unvisCount g player V ≤ g.size * g.size := by
    unfold unvisCount
    have h1 : ((Finset.range g.size ×ˢ Finset.range g.size).filter
          (fun q => get2D g.board q.1 q.2 = player ∧
            V ((q.1 : Nat) : Int) ((q.2 : Nat) : Int) = true)) =
        (((Finset.range g.size ×ˢ Finset.range g.size).filter
          (fun q => get2D g.board q.1 q.2 = player)).filter
          (fun q => V ((q.1 : Nat) : Int) ((q.2 : Nat) : Int) = true)) := by
      rw [Finset.filter_filter]
    have h2 : ((Finset.range g.size ×ˢ Finset.range g.size).filter
          (fun q => get2D g.board q.1 q.2 = player ∧
            V ((q.1 : Nat) : Int) ((q.2 : Nat) : Int) = false)) =
        (((Finset.range g.size ×ˢ Finset.range g.size).filter
          (fun q => get2D g.board q.1 q.2 = player)).filter
          (fun q => ¬(V ((q.1 : Nat) : Int) ((q.2 : Nat) : Int) = true))) := by
      rw [Finset.filter_filter]
      apply Finset.filter_congr
      intro q _
      simp [Bool.not_eq_true]
    rw [h1, h2]
    have h3 : (((Finset.range g.size ×ˢ Finset.range g.size).filter
          (fun q => get2D g.board q.1 q.2 = player)).filter
          (fun q => V ((q.1 : Nat) : Int) ((q.2 : Nat) : Int) = true)).card +
        (((Finset.range g.size ×ˢ Finset.range g.size).filter
          (fun q => get2D g.board q.1 q.2 = player)).filter
          (fun q => ¬(V ((q.1 : Nat) : Int) ((q.2 : Nat) : Int) = true))).card =
        ((Finset.range g.size ×ˢ Finset.range g.size).filter
          (fun q => get2D g.board q.1 q.2 = player)).card :=
      Finset.filter_card_add_filter_neg_card_eq_card _
    have h4 : ((Finset.range g.size ×ˢ Finset.range g.size).filter
          (fun q => get2D g.board q.1 q.2 = player)).card ≤ g.size * g.size := by
      calc ((Finset.range g.size ×ˢ Finset.range g.size).filter
            (fun q => get2D g.board q.1 q.2 = player)).card
          ≤ (Finset.range g.size ×ˢ Finset.range g.size).card :=
            Finset.card_filter_le _ _
        _ = g.size * g.size := by
            rw [Finset.card_product, Finset.card_range]
    omega
  omega

theorem nbr_link (g : HexGame) (player : Nat) {r c : Int} {d : Int × Int}
    (hpl : player ≠ 0)
    (hr0 : 0 ≤ r) (hrn : r < (g.size : Int)) (hc0 : 0 ≤ c) (hcn : c < (g.size : Int))
    (hcell : get2D g.board r.toNat c.toNat = player)
    (hd : d ∈ g.getNeighbors r c)
    (hdcell : get2D g.board d.1.toNat d.2.toNat = player) :
    cellLink g.size (fun i => get2D g.board (i / g.size) (i % g.size))
      (r.toNat * g.size + c.toNat) (d.1.toNat * g.size + d.2.toNat) := by
  obtain ⟨h1, h2, h3, h4, hnb⟩ := nbr2D_to_flat hr0 hrn hc0 hcn hd
  have hn : 0 < g.size := by omega
  refine ⟨flat_lt (by omega) (by omega), flat_lt (by omega) (by omega), hnb, ?_, ?_⟩
  · dsimp only
    rw [(div_mod_of_flat r.toNat (show c.toNat < g.size by omega)).1,
        (div_mod_of_flat r.toNat (show c.toNat < g.size by omega)).2, hcell]
    exact hpl
  · dsimp only
    rw [(div_mod_of_flat r.toNat (show c.toNat < g.size by omega)).1,
        (div_mod_of_flat r.toNat (show c.toNat < g.size by omega)).2,
        (div_mod_of_flat d.1.toNat (show d.2.toNat < g.size by omega)).1,
        (div_mod_of_flat d.1.toNat (show d.2.toNat < g.size by omega)).2,
        hcell, hdcell]

theorem bfs_fold_spec (g : HexGame) (player : Nat) {r c : Int}
    (hpl : player ≠ 0)
    (hr0 : 0 ≤ r) (hrn : r < (g.size : Int)) (hc0 : 0 ≤ c) (hcn : c < (g.size : Int))
    (hcell : get2D g.board r.toNat c.toNat = player)
    (hseed : seedConn g.size (fun i => get2D g.board (i / g.size) (i % g.size)) player
      (r.toNat * g.size + c.toNat)) :
    ∀ ds : List (Int × Int), (∀ y, y ∈ ds → y ∈ g.getNeighbors r c) →
      ∀ V Q st2, BfsQueueOK V Q → BfsVisOK g player V → BfsSeeded g player V →
      ds.foldl (fun (st : (Int → Int → Bool) × List (Int × Int)) n =>
          if !(st.1 n.1 n.2) && g.cell n.1 n.2 = player then
            ((fun a b => (a = n.1 ∧ b = n.2 : Bool) || st.1 a b), st.2 ++ [n])
          else st) (V, Q) = st2 →
      BfsQueueOK st2.1 st2.2 ∧ BfsVisOK g player st2.1 ∧ BfsSeeded g player st2.1 ∧
      (∀ a b, V a b = true → st2.1 a b = true) ∧
      (∃ ext, st2.2 = Q ++ ext ∧
        ∀ a b, st2.1 a b = true → V a b = true ∨ (a, b) ∈ ext) ∧
      st2.2.length + 2 * unvisCount g player st2.1 ≤
        Q.length + 2 * unvisCount g player V ∧
      (∀ y, y ∈ ds → g.cell y.1 y.2 = player → st2.1 y.1 y.2 = true) := by
  intro ds
  induction ds with
  | nil =>
    intro hds V Q st2 hQ hV hS hst
    rw [List.foldl_nil] at hst
    subst hst
    refine ⟨hQ, hV, hS, fun a b h => h, ⟨[], by simp, fun a b h => Or.inl h⟩,
      by simp, ?_⟩
    intro y hy
    exact absurd hy (List.not_mem_nil y)
  | cons d ds ih =>
    intro hds V Q st2 hQ hV hS hst
    rw [List.foldl_cons] at hst
    dsimp only at hst
    have hdmem : d ∈ g.getNeighbors r c := hds d (List.mem_cons_self d ds)
    obtain ⟨-, hd1, hd2, hd3, hd4⟩ := (mem_getNeighbors g r c d).mp hdmem
    by_cases hcond : (!(V d.1 d.2) && decide (g.cell d.1 d.2 = player)) = true
    · rw [if_pos hcond] at hst
      rw [Bool.and_eq_true, Bool.not_eq_true', decide_eq_true_eq] at hcond
      obtain ⟨hVd, hdc⟩ := hcond
      have hdcell : get2D g.board d.1.toNat d.2.toNat = player := hdc
      obtain ⟨V2, hV2e⟩ : ∃ V2,
          (fun a b => (a = d.1 ∧ b = d.2 : Bool) || V a b) = V2 := ⟨_, rfl⟩
      rw [hV2e] at hst
      have hV2ap : ∀ a b, V2 a b = ((a = d.1 ∧ b = d.2 : Bool) || V a b) := by
        intro a b
        rw [← hV2e]
      have hseedd : seedConn g.size
          (fun i => get2D g.board (i / g.size) (i % g.size)) player
          (d.1.toNat * g.size + d.2.toNat) := by
        obtain ⟨a0, ha0n, ha0p, ha0s, ha0conn⟩ := hseed
        exact ⟨a0, ha0n, ha0p, ha0s, Relation.ReflTransGen.tail ha0conn
          (nbr_link g player hpl hr0 hrn hc0 hcn hcell hdmem hdcell)⟩
      have hQ2 : BfsQueueOK V2 (Q ++ [d]) := by
        constructor
        · rw [List.nodup_append]
          refine ⟨hQ.1, List.nodup_singleton d, ?_⟩
          intro q hq hq2
          rw [List.mem_singleton] at hq2
          subst hq2
          have h := hQ.2 q hq
          rw [h] at hVd
          exact Bool.noConfusion hVd
        · intro q hq
          rw [hV2ap]
          rcases List.mem_append.mp hq with h | h
          · rw [hQ.2 q h, Bool.or_true]
          · rw [List.mem_singleton] at h
            subst h
            simp
      have hV2ok : BfsVisOK g player V2 := by
        intro x y hxy
        rw [hV2ap, Bool.or_eq_true, decide_eq_true_eq] at hxy
        rcases hxy with h | h
        · obtain ⟨hx, hy⟩ := h
          subst hx
          subst hy
          exact ⟨hd1, hd2, hd3, hd4, hdcell, hseedd⟩
        · exact hV x y h
      have hS2 : BfsSeeded g player V2 := by
        intro a ha hap has
        rw [hV2ap, hS a ha hap has, Bool.or_true]
      have hmark : unvisCount g player V2 + 1 = unvisCount g player V := by
        have h := unvisCount_mark g player V hd1 hd2 hd3 hd4 hdcell hVd
        rw [hV2e] at h
        exact h
      have H := ih (fun y hy => hds y (List.mem_cons_of_mem d hy)) V2 (Q ++ [d])
        st2 hQ2 hV2ok hS2 hst
      obtain ⟨HQ, HV, HS, Hmono, ⟨ext2, hexte, hextsrc⟩, Hmeas, Hnb⟩ := H
      have hmono2 : ∀ a b, V a b = true → st2.1 a b = true := by
        intro a b h
        apply Hmono
        rw [hV2ap, h, Bool.or_true]
      refine ⟨HQ, HV, HS, hmono2, ⟨d :: ext2, ?_, ?_⟩, ?_, ?_⟩
      · rw [hexte, List.append_assoc, List.singleton_append]
      · intro a b h
        rcases hextsrc a b h with h2 | h2
        · rw [hV2ap, Bool.or_eq_true, decide_eq_true_eq] at h2
          rcases h2 with h3 | h3
          · right
            obtain ⟨hx, hy⟩ := h3
            rw [show (a, b) = d from Prod.ext hx hy]
            exact List.mem_cons_self d ext2
          · exact Or.inl h3
        · exact Or.inr (List.mem_cons_of_mem d h2)
      · rw [List.length_append, List.length_singleton] at Hmeas
        omega
      · intro y hy hyc
        rcases List.mem_cons.mp hy with h | h
        · subst h
          apply Hmono
          rw [hV2ap]
          simp
        · exact Hnb y h hyc
    · rw [if_neg hcond] at hst
      have H := ih (fun y hy => hds y (List.mem_cons_of_mem d hy)) V Q
        st2 hQ hV hS hst
      obtain ⟨HQ, HV, HS, Hmono, Hext, Hmeas, Hnb⟩ := H
      refine ⟨HQ, HV, HS, Hmono, Hext, Hmeas, ?_⟩
      intro y hy hyc
      rcases List.mem_cons.mp hy with h | h
      · subst h
        apply Hmono
        by_contra hne
        apply hcond
        rw [Bool.and_eq_true, Bool.not_eq_true', decide_eq_true_eq]
        exact ⟨Bool.eq_false_iff.mpr (fun h2 => hne h2), hyc⟩
      · exact Hnb y h hyc

theorem chain_visited (g : HexGame) (player : Nat) (target : Int × Int → Bool)
    (V : Int → Int → Bool)
    (hcl : BfsClosed g player target V [])
    {a x : Nat} (ha : a < g.size * g.size)
    (hVa : V ((a / g.size : Nat) : Int) ((a % g.size : Nat) : Int) = true)
    (hBa : get2D g.board (a / g.size) (a % g.size) = player)
    (hconn : Relation.ReflTransGen
      (cellLink g.size (fun i => get2D g.board (i / g.size) (i % g.size))) a x) :
    V ((x / g.size : Nat) : Int) ((x % g.size : Nat) : Int) = true := by
  induction hconn with
  | refl => exact hVa
  | tail h1 h2 ih =>
    obtain ⟨hbn, hcn2, hnbr, hnz, heq⟩ := h2
    have hBb : get2D g.board (_ / g.size) (_ % g.size) = player :=
      (conn_value h1).trans hBa
    have hBc : get2D g.board (_ / g.size) (_ % g.size) = player :=
      heq.symm.trans hBb
    obtain ⟨-, hcls⟩ := hcl _ _ ih (List.not_mem_nil _)
    have hmem2 := flat_to_nbr2D hbn hnbr
    refine hcls _ hmem2 ?_
    show get2D g.board (((_ / g.size : Nat) : Int)).toNat
      (((_ % g.size : Nat) : Int)).toNat = player
    rw [Int.toNat_natCast, Int.toNat_natCast]
    exact hBc

theorem bfsLoop_spec (g : HexGame) (player : Nat) (target : Int × Int → Bool)
    (hpl : player ≠ 0)
    (htgt : ∀ rr cc : Int, 0 ≤ rr → rr < (g.size : Int) → 0 ≤ cc →
      cc < (g.size : Int) →
      (target (rr, cc) = true ↔
        endEdge g.size player (rr.toNat * g.size + cc.toNat))) :
    ∀ fuel V Q, BfsQueueOK V Q → BfsVisOK g player V → BfsSeeded g player V →
      BfsClosed g player target V Q →
      Q.length + 2 * unvisCount g player V < fuel →
      (g.bfsLoop player target fuel V Q = true ↔
        winSpec g.size (fun i => get2D g.board (i / g.size) (i % g.size)) player) := by
  intro fuel
  induction fuel with
  | zero =>
    intro V Q _ _ _ _ hM
    exact absurd hM (Nat.not_lt_zero _)
  | succ fuel ih =>
    intro V Q hQ hV hS hcl hM
    rcases Q with _ | ⟨⟨r, c⟩, rest⟩
    · rw [show g.bfsLoop player target (fuel + 1) V [] = false from rfl]
      constructor
      · intro h
        exact Bool.noConfusion h
      · intro hw
        exfalso
        obtain ⟨a, b, ha, hb, hBa, hBb, hsa, heb, hconn⟩ := hw
        have hn : 0 < g.size := by
          rcases Nat.eq_zero_or_pos g.size with h | h
          · rw [h] at ha
            simp at ha
          · exact h
        have hBa2 : get2D g.board (a / g.size) (a % g.size) = player := hBa
        have hVa := hS a ha hBa2 hsa
        have hVb := chain_visited g player target V hcl ha hVa hBa2 hconn
        have hbdiv : b / g.size < g.size := (Nat.div_lt_iff_lt_mul hn).mpr hb
        have hbmod : b % g.size < g.size := Nat.mod_lt b hn
        obtain ⟨ht, -⟩ := hcl _ _ hVb (List.not_mem_nil _)
        have hiff := htgt ((b / g.size : Nat) : Int) ((b % g.size : Nat) : Int)
          (Int.natCast_nonneg _) (by exact_mod_cast hbdiv)
          (Int.natCast_nonneg _) (by exact_mod_cast hbmod)
        rw [toNat_recompose] at hiff
        rw [hiff.mpr heb] at ht
        exact Bool.noConfusion ht
    · rw [show g.bfsLoop player target (fuel + 1) V ((r, c) :: rest) =
        (if target (r, c) then true else
          (let st := (g.getNeighbors r c).foldl
            (fun (st : (Int → Int → Bool) × List (Int × Int)) n =>
              if !(st.1 n.1 n.2) && g.cell n.1 n.2 = player then
                ((fun a b => (a = n.1 ∧ b = n.2 : Bool) || st.1 a b), st.2 ++ [n])
              else st) (V, rest)
           g.bfsLoop player target fuel st.1 st.2)) from rfl]
      have hVrc : V r c = true := hQ.2 (r, c) (List.mem_cons_self _ _)
      obtain ⟨hr0, hrn, hc0, hcn, hcell, hseed⟩ := hV r c hVrc
      by_cases htg : target (r, c) = true
      · rw [if_pos htg]
        constructor
        · intro _
          obtain ⟨a0, ha0, hBa0, hsa0, hconn0⟩ := hseed
          have hn : 0 < g.size := by omega
          refine ⟨a0, r.toNat * g.size + c.toNat, ha0,
            flat_lt (show r.toNat < g.size by omega) (show c.toNat < g.size by omega),
            hBa0, ?_, hsa0, ?_, hconn0⟩
          · show get2D g.board ((r.toNat * g.size + c.toNat) / g.size)
              ((r.toNat * g.size + c.toNat) % g.size) = player
            rw [(div_mod_of_flat r.toNat (show c.toNat < g.size by omega)).1,
                (div_mod_of_flat r.toNat (show c.toNat < g.size by omega)).2]
            exact hcell
          · exact (htgt r c hr0 hrn hc0 hcn).mp htg
        · intro _
          rfl
      · rw [if_neg htg]
        dsimp only
        obtain ⟨st2, hst2⟩ : ∃ st2, (g.getNeighbors r c).foldl
            (fun (st : (Int → Int → Bool) × List (Int × Int)) n =>
              if !(st.1 n.1 n.2) && g.cell n.1 n.2 = player then
                ((fun a b => (a = n.1 ∧ b = n.2 : Bool) || st.1 a b), st.2 ++ [n])
              else st) (V, rest) = st2 := ⟨_, rfl⟩
        rw [hst2]
        have hQrest : BfsQueueOK V rest :=
          ⟨hQ.1.of_cons, fun q hq => hQ.2 q (List.mem_cons_of_mem _ hq)⟩
        have H := bfs_fold_spec g player hpl hr0 hrn hc0 hcn hcell hseed
          (g.getNeighbors r c) (fun y hy => hy) V rest st2 hQrest hV hS hst2
        obtain ⟨HQ, HV, HS, Hmono, ⟨ext, hexte, hextsrc⟩, Hmeas, Hnb⟩ := H
        have hcl2 : BfsClosed g player target st2.1 st2.2 := by
          intro x y hxy hnot
          rcases hextsrc x y hxy with hVxy | hmemext
          · by_cases hrc : x = r ∧ y = c
            · obtain ⟨hx, hy⟩ := hrc
              subst hx
              subst hy
              exact ⟨Bool.eq_false_iff.mpr htg, fun y2 hy2 hy2c => Hnb y2 hy2 hy2c⟩
            · have hninQ : (x, y) ∉ (r, c) :: rest := by
                intro hmem
                rcases List.mem_cons.mp hmem with h | h
                · exact hrc ⟨congrArg Prod.fst h, congrArg Prod.snd h⟩
                · exact hnot (by
                    rw [hexte]
                    exact List.mem_append.mpr (Or.inl h))
              obtain ⟨ht, hcls⟩ := hcl x y hVxy hninQ
              exact ⟨ht, fun y2 hy2 hy2c => Hmono y2.1 y2.2 (hcls y2 hy2 hy2c)⟩
          · exact absurd (by
              rw [hexte]
              exact List.mem_append.mpr (Or.inr hmemext)) hnot
        rw [List.length_cons] at hM
        exact ih st2.1 st2.2 HQ HV HS hcl2 (by omega)

theorem hexCheckWin_iff_winSpec (g : HexGame) (player : Nat) (hpl : player ≠ 0) :
    (g.checkWin player = true ↔
      winSpec g.size (fun i => get2D g.board (i / g.size) (i % g.size)) player) := by
  by_cases hp1 : player = 1
  · subst hp1
    rw [show g.checkWin 1 = g.bfsLoop 1 (fun p => p.1 = (g.size : Int) - 1)
        (2 * g.size * g.size + 1)
        (fun a b => decide ((a, b) ∈
          (((List.range g.size).map fun c : Nat => ((0 : Int), (c : Int))).filter
            fun p => g.cell p.1 p.2 = 1)))
        (((List.range g.size).map fun c : Nat => ((0 : Int), (c : Int))).filter
          fun p => g.cell p.1 p.2 = 1) from rfl]
    obtain ⟨S, hS⟩ : ∃ S, (((List.range g.size).map fun c : Nat =>
        ((0 : Int), (c : Int))).filter fun p => g.cell p.1 p.2 = 1) = S := ⟨_, rfl⟩
    rw [hS]
    obtain ⟨V0, hV0⟩ : ∃ V0, (fun a b : Int => decide ((a, b) ∈ S)) = V0 := ⟨_, rfl⟩
    rw [hV0]
    have hV0ap : ∀ a b, V0 a b = decide ((a, b) ∈ S) := by
      intro a b
      rw [← hV0]
    have hmemS : ∀ q : Int × Int, q ∈ S ↔
        ((∃ cc : Nat, cc < g.size ∧ q = ((0 : Int), (cc : Int))) ∧
          g.cell q.1 q.2 = 1) := by
      intro q
      rw [← hS, List.mem_filter]
      simp only [List.mem_map, List.mem_range, decide_eq_true_eq]
      constructor
      · rintro ⟨⟨cc, hcc, hq⟩, h2⟩
        exact ⟨⟨cc, hcc, hq.symm⟩, h2⟩
      · rintro ⟨⟨cc, hcc, hq⟩, h2⟩
        exact ⟨⟨cc, hcc, hq.symm⟩, h2⟩
    have hnd : S.Nodup := by
      rw [← hS]
      refine List.Nodup.filter _ (List.Nodup.map ?_ (List.nodup_range g.size))
      intro a b h
      have h2 : ((a : Nat) : Int) = ((b : Nat) : Int) := congrArg Prod.snd h
      exact Nat.cast_injective h2
    have hQOK : BfsQueueOK V0 S := by
      refine ⟨hnd, ?_⟩
      intro q hq
      rw [hV0ap]
      exact decide_eq_true hq
    have hVOK : BfsVisOK g 1 V0 := by
      intro x y hxy
      rw [hV0ap] at hxy
      obtain ⟨⟨cc, hcc, hqe⟩, hcell1⟩ := (hmemS (x, y)).mp (of_decide_eq_true hxy)
      have hx : x = 0 := congrArg Prod.fst hqe
      have hy : y = (cc : Int) := congrArg Prod.snd hqe
      subst hx
      subst hy
      have hn : 0 < g.size := by omega
      refine ⟨le_refl 0, by exact_mod_cast hn, Int.natCast_nonneg _,
        by exact_mod_cast hcc, ?_, ?_⟩
      · exact hcell1
      · show seedConn g.size _ 1 ((0 : Int).toNat * g.size + ((cc : Nat) : Int).toNat)
        rw [show (0 : Int).toNat * g.size + ((cc : Nat) : Int).toNat = cc by
          rw [Int.toNat_natCast]
          simp]
        refine ⟨cc, lt_of_lt_of_le hcc (Nat.le_mul_of_pos_left g.size hn), ?_, ?_,
          Relation.ReflTransGen.refl⟩
        · show get2D g.board (cc / g.size) (cc % g.size) = 1
          rw [Nat.div_eq_of_lt hcc, Nat.mod_eq_of_lt hcc]
          exact hcell1
        · show cc / g.size = 0
          exact Nat.div_eq_of_lt hcc
    have hSeed : BfsSeeded g 1 V0 := by
      intro a ha hap has
      rw [hV0ap]
      apply decide_eq_true
      apply (hmemS _).mpr
      have hn : 0 < g.size := by
        rcases Nat.eq_zero_or_pos g.size with h | h
        · rw [h] at ha
          simp at ha
        · exact h
      have hdiv0 : a / g.size = 0 := has
      refine ⟨⟨a % g.size, Nat.mod_lt a hn, ?_⟩, ?_⟩
      · rw [hdiv0]
        simp
      · show get2D g.board (((a / g.size : Nat) : Int)).toNat
          (((a % g.size : Nat) : Int)).toNat = 1
        rw [Int.toNat_natCast, Int.toNat_natCast]
        exact hap
    have hCl : BfsClosed g 1 (fun p => p.1 = (g.size : Int) - 1) V0 S := by
      intro x y hxy hnot
      exfalso
      rw [hV0ap] at hxy
      exact hnot (of_decide_eq_true hxy)
    have htgt1 : ∀ rr cc : Int, 0 ≤ rr → rr < (g.size : Int) → 0 ≤ cc →
        cc < (g.size : Int) →
        ((fun p : Int × Int => (p.1 = (g.size : Int) - 1 : Bool)) (rr, cc) = true ↔
          endEdge g.size 1 (rr.toNat * g.size + cc.toNat)) := by
      intro rr cc h1 h2 h3 h4
      show decide (rr = (g.size : Int) - 1) = true ↔ _
      rw [decide_eq_true_eq]
      have hcc : cc.toNat < g.size := by omega
      have hd := (div_mod_of_flat rr.toNat hcc).1
      show _ ↔ (if (1 : Nat) = 1 then
        (rr.toNat * g.size + cc.toNat) / g.size = g.size - 1 else
        (rr.toNat * g.size + cc.toNat) % g.size = g.size - 1)
      rw [if_pos rfl, hd]
      omega
    have hq1 := qlen_le_vis g 1 V0 S hnd (fun q hq => by
      rw [hV0ap]
      exact decide_eq_true hq) hVOK
    have hq2 := qlen_le_vis g 1 V0 [] List.nodup_nil
      (fun q hq => absurd hq (List.not_mem_nil q)) hVOK
    obtain ⟨m, hm⟩ : ∃ m, g.size * g.size = m := ⟨_, rfl⟩
    rw [show 2 * g.size * g.size + 1 = 2 * m + 1 by
      rw [← hm]
      ring]
    rw [hm] at hq1 hq2
    rw [List.length_nil] at hq2
    exact bfsLoop_spec g 1 _ Nat.one_ne_zero htgt1 (2 * m + 1) V0 S hQOK hVOK
      hSeed hCl (by omega)
  · rw [show g.checkWin player = (if player = 1 then
        (g.bfsLoop 1 (fun p => p.1 = (g.size : Int) - 1) (2 * g.size * g.size + 1)
          (fun a b => decide ((a, b) ∈
            (((List.range g.size).map fun c : Nat => ((0 : Int), (c : Int))).filter
              fun p => g.cell p.1 p.2 = 1)))
          (((List.range g.size).map fun c : Nat => ((0 : Int), (c : Int))).filter
            fun p => g.cell p.1 p.2 = 1))
      else
        (g.bfsLoop player (fun p => p.2 = (g.size : Int) - 1) (2 * g.size * g.size + 1)
          (fun a b => decide ((a, b) ∈
            (((List.range g.size).map fun r : Nat => ((r : Int), (0 : Int))).filter
              fun p => g.cell p.1 p.2 = player)))
          (((List.range g.size).map fun r : Nat => ((r : Int), (0 : Int))).filter
            fun p => g.cell p.1 p.2 = player))) from rfl]
    rw [if_neg hp1]
    obtain ⟨S, hS⟩ : ∃ S, (((List.range g.size).map fun r : Nat =>
        ((r : Int), (0 : Int))).filter fun p => g.cell p.1 p.2 = player) = S := ⟨_, rfl⟩
    rw [hS]
    obtain ⟨V0, hV0⟩ : ∃ V0, (fun a b : Int => decide ((a, b) ∈ S)) = V0 := ⟨_, rfl⟩
    rw [hV0]
    have hV0ap : ∀ a b, V0 a b = decide ((a, b) ∈ S) := by
      intro a b
      rw [← hV0]
    have hmemS : ∀ q : Int × Int, q ∈ S ↔
        ((∃ rr : Nat, rr < g.size ∧ q = ((rr : Int), (0 : Int))) ∧
          g.cell q.1 q.2 = player) := by
      intro q
      rw [← hS, List.mem_filter]
      simp only [List.mem_map, List.mem_range, decide_eq_true_eq]
      constructor
      · rintro ⟨⟨rr, hrr, hq⟩, h2⟩
        exact ⟨⟨rr, hrr, hq.symm⟩, h2⟩
      · rintro ⟨⟨rr, hrr, hq⟩, h2⟩
        exact ⟨⟨rr, hrr, hq.symm⟩, h2⟩
    have hnd : S.Nodup := by
      rw [← hS]
      refine List.Nodup.filter _ (List.Nodup.map ?_ (List.nodup_range g.size))
      intro a b h
      have h2 : ((a : Nat) : Int) = ((b : Nat) : Int) := congrArg Prod.fst h
      exact Nat.cast_injective h2
    have hQOK : BfsQueueOK V0 S := by
      refine ⟨hnd, ?_⟩
      intro q hq
      rw [hV0ap]
      exact decide_eq_true hq
    have hVOK : BfsVisOK g player V0 := by
      intro x y hxy
      rw [hV0ap] at hxy
      obtain ⟨⟨rr, hrr, hqe⟩, hcell1⟩ := (hmemS (x, y)).mp (of_decide_eq_true hxy)
      have hx : x = (rr : Int) := congrArg Prod.fst hqe
      have hy : y = 0 := congrArg Prod.snd hqe
      subst hx
      subst hy
      have hn : 0 < g.size := by omega
      refine ⟨Int.natCast_nonneg _, by exact_mod_cast hrr, le_refl 0,
        by exact_mod_cast hn, ?_, ?_⟩
      · exact hcell1
      · show seedConn g.size _ player (((rr : Nat) : Int).toNat * g.size +
          (0 : Int).toNat)
        rw [show ((rr : Nat) : Int).toNat * g.size + (0 : Int).toNat =
            rr * g.size by
          rw [Int.toNat_natCast]
          simp]
        have hdm := div_mod_of_flat (n := g.size) rr (show 0 < g.size from hn)
        rw [show rr * g.size = rr * g.size + 0 by omega] at hdm ⊢
        refine ⟨rr * g.size + 0, flat_lt hrr hn, ?_, ?_,
          Relation.ReflTransGen.refl⟩
        · show get2D g.board ((rr * g.size + 0) / g.size)
            ((rr * g.size + 0) % g.size) = player
          rw [hdm.1, hdm.2]
          exact hcell1
        · show (if player = 1 then (rr * g.size + 0) / g.size = 0 else
            (rr * g.size + 0) % g.size = 0)
          rw [if_neg hp1, hdm.2]
    have hSeed : BfsSeeded g player V0 := by
      intro a ha hap has
      rw [hV0ap]
      apply decide_eq_true
      apply (hmemS _).mpr
      have hn : 0 < g.size := by
        rcases Nat.eq_zero_or_pos g.size with h | h
        · rw [h] at ha
          simp at ha
        · exact h
      have hmod0 : a % g.size = 0 := by
        have h := has
        rw [show startEdge g.size player a = (if player = 1 then a / g.size = 0
          else a % g.size = 0) from rfl, if_neg hp1] at h
        exact h
      have hdiva : a / g.size < g.size := (Nat.div_lt_iff_lt_mul hn).mpr ha
      refine ⟨⟨a / g.size, hdiva, ?_⟩, ?_⟩
      · rw [hmod0]
        simp
      · show get2D g.board (((a / g.size : Nat) : Int)).toNat
          (((a % g.size : Nat) : Int)).toNat = player
        rw [Int.toNat_natCast, Int.toNat_natCast]
        exact hap
    have hCl : BfsClosed g player (fun p => p.2 = (g.size : Int) - 1) V0 S := by
      intro x y hxy hnot
      exfalso
      rw [hV0ap] at hxy
      exact hnot (of_decide_eq_true hxy)
    have htgt2 : ∀ rr cc : Int, 0 ≤ rr → rr < (g.size : Int) → 0 ≤ cc →
        cc < (g.size : Int) →
        ((fun p : Int × Int => (p.2 = (g.size : Int) - 1 : Bool)) (rr, cc) = true ↔
          endEdge g.size player (rr.toNat * g.size + cc.toNat)) := by
      intro rr cc h1 h2 h3 h4
      show decide (cc = (g.size : Int) - 1) = true ↔ _
      rw [decide_eq_true_eq]
      have hcc : cc.toNat < g.size := by omega
      have hd := (div_mod_of_flat rr.toNat hcc).2
      show _ ↔ (if player = 1 then
        (rr.toNat * g.size + cc.toNat) / g.size = g.size - 1 else
        (rr.toNat * g.size + cc.toNat) % g.size = g.size - 1)
      rw [if_neg hp1, hd]
      omega
    have hq1 := qlen_le_vis g player V0 S hnd (fun q hq => by
      rw [hV0ap]
      exact decide_eq_true hq) hVOK
    have hq2 := qlen_le_vis g player V0 [] List.nodup_nil
      (fun q hq => absurd hq (List.not_mem_nil q)) hVOK
    obtain ⟨m, hm⟩ : ∃ m, g.size * g.size = m := ⟨_, rfl⟩
    rw [show 2 * g.size * g.size + 1 = 2 * m + 1 by
      rw [← hm]
      ring]
    rw [hm] at hq1 hq2
    rw [List.length_nil] at hq2
    exact bfsLoop_spec g player _ hpl htgt2 (2 * m + 1) V0 S hQOK hVOK
      hSeed hCl (by omega)

theorem winSpec_congr {n : Nat} {B1 B2 : Nat → Nat} {player : Nat}
    (h : ∀ i, i < n * n → B1 i = B2 i) :
    (winSpec n B1 player ↔ winSpec n B2 player) := by
  have hl : ∀ a b, cellLink n B1 a b ↔ cellLink n B2 a b := by
    intro a b
    constructor <;> intro hx
    · exact cellLink_board_congr (h a hx.1).symm (h b hx.2.1).symm hx
    · exact cellLink_board_congr (h a hx.1) (h b hx.2.1) hx
  constructor <;> rintro ⟨a, b, ha, hb, hpa, hpb, hsa, heb, hc⟩
  · refine ⟨a, b, ha, hb, ?_, ?_, hsa, heb, (rtg_congr hl).mp hc⟩
    · rw [← h a ha]
      exact hpa
    · rw [← h b hb]
      exact hpb
  · refine ⟨a, b, ha, hb, ?_, ?_, hsa, heb, (rtg_congr hl).mpr hc⟩
    · rw [h a ha]
      exact hpa
    · rw [h b hb]
      exact hpb

theorem ofFast_board (s : FastHexGame) {r c : Nat} (hr : r < s.size)
    (hc : c < s.size) :
    get2D (HexGame.ofFast s).board r c = s.board (r * s.size + c) := by
  have hrow : (((List.range s.size).map fun r2 => (List.range s.size).map fun c2 =>
      s.board (r2 * s.size + c2))).getD r [] =
      (List.range s.size).map fun c2 => s.board (r * s.size + c2) := by
    rw [List.getD_eq_getElem _ _ (by
      rw [List.length_map, List.length_range]
      exact hr)]
    rw [List.getElem_map, List.getElem_range]
  show (((((List.range s.size).map fun r2 => (List.range s.size).map fun c2 =>
    s.board (r2 * s.size + c2))).getD r []).getD c 0) = _
  rw [hrow]
  rw [List.getD_eq_getElem _ _ (by
    rw [List.length_map, List.length_range]
    exact hc)]
  rw [List.getElem_map, List.getElem_range]

/-- C1: for every initial board and every move sequence that is valid to
replay (each move in bounds onto an empty cell, sides supplied by the
engine's alternation), the incremental connectivity tracker's win check
(FastHexGame.checkWin, union-find plus boundary-status bitmasks) returns
true for a side exactly when the reference breadth-first win check
(HexGame.checkWin) returns true for that side on the same grid. -/
theorem C1_fast_win_check_matches_reference (g : HexGame)
    (moves : List (Nat × Nat)) (player : Nat)
    (hcp : g.currentPlayer ≠ 0) (hpl : player ≠ 0)
    (hvalid : (FastHexGame.init g).replayValid moves = true) :
    (((FastHexGame.init g).replay moves).checkWin player).1 =
      (HexGame.ofFast ((FastHexGame.init g).replay moves)).checkWin player := by
  obtain ⟨hT0, hsz0, hcp0, hbd0⟩ := init_good g
  have hcp1 : (FastHexGame.init g).currentPlayer ≠ 0 := by
    rw [hcp0]
    exact hcp
  obtain ⟨hT, hcpr, hszr, -⟩ :=
    replay_good moves (FastHexGame.init g) hT0 hcp1 hvalid
  obtain ⟨s2, hs2⟩ : ∃ s2, (FastHexGame.init g).replay moves = s2 := ⟨_, rfl⟩
  rw [hs2] at hT ⊢
  have hfast := checkWin_iff_winSpec s2 player hT hpl
  have href := hexCheckWin_iff_winSpec (HexGame.ofFast s2) player hpl
  have hagree : ∀ i, i < s2.size * s2.size →
      get2D (HexGame.ofFast s2).board (i / s2.size) (i % s2.size) =
        s2.board i := by
    intro i hi
    have hn : 0 < s2.size := by
      rcases Nat.eq_zero_or_pos s2.size with h | h
      · rw [h] at hi
        simp at hi
      · exact h
    have hdi : i / s2.size < s2.size := (Nat.div_lt_iff_lt_mul hn).mpr hi
    have hmi : i % s2.size < s2.size := Nat.mod_lt i hn
    rw [ofFast_board s2 hdi hmi]
    congr 1
    rw [Nat.mul_comm (i / s2.size) s2.size]
    exact Nat.div_add_mod i s2.size
  rw [Bool.eq_iff_iff, hfast, href]
  exact (winSpec_congr hagree).symm

theorem C1_witness :
    c1DemoG.currentPlayer ≠ 0 ∧ (1 : Nat) ≠ 0 ∧
    (FastHexGame.init c1DemoG).replayValid c1DemoMoves = true ∧
    ((((FastHexGame.init c1DemoG).replay c1DemoMoves).checkWin 1).1 =
      (HexGame.ofFast
        ((FastHexGame.init c1DemoG).replay c1DemoMoves)).checkWin 1) :=
  ⟨by decide, by decide, by decide,
    C1_fast_win_check_matches_reference c1DemoG c1DemoMoves 1
      (by decide) (by decide) (by decide)⟩


theorem listGetD_set {α : Type} (l : List α) (i j : Nat) (v d : α) :
    (l.set i v).getD j d = if i = j ∧ j < l.length then v else l.getD j d := by
  induction l generalizing i j with
  | nil => simp
  | cons a l ih =>
    cases i with
    | zero =>
      cases j with
      | zero => simp
      | succ j => simp [Nat.succ_lt_succ_iff]
    | succ i =>
      cases j with
      | zero => simp
      | succ j => simpa [Nat.succ_lt_succ_iff, Nat.succ_inj] using ih i j

theorem get2D_set2D (b : List (List Nat)) (r c r' c' v : Nat)
    (hr : r < b.length) (hc : c < (b.getD r []).length) :
    get2D (set2D b r c v) r' c' =
      if r = r' ∧ c = c' then v else get2D b r' c' := by
  unfold get2D set2D
  rw [listGetD_set]
  by_cases hrr : r = r'
  · subst hrr
    rw [if_pos ⟨rfl, hr⟩, listGetD_set]
    by_cases hcc : c = c'
    · subst hcc; rw [if_pos ⟨rfl, hc⟩, if_pos ⟨rfl, rfl⟩]
    · rw [if_neg (fun h => hcc h.1), if_neg (fun h => hcc h.2)]
  · rw [if_neg (fun h => hrr h.1), if_neg (fun h => hrr h.1)]

theorem length_set2D (b : List (List Nat)) (r c v : Nat) :
    (set2D b r c v).length = b.length := by
  unfold set2D; simp

theorem getD_set2D_length (b : List (List Nat)) (r c v r' : Nat) :
    ((set2D b r c v).getD r' []).length = (b.getD r' []).length := by
  unfold set2D
  rw [listGetD_set]
  by_cases hrr : r = r' ∧ r' < b.length
  · rw [if_pos hrr]; rw [hrr.1]; simp
  · rw [if_neg hrr]

theorem dims_set2D {size : Nat} {b : List (List Nat)} (h : Dims size b) (r c v : Nat) :
    Dims size (set2D b r c v) := by
  refine ⟨by rw [length_set2D]; exact h.1, fun r2 hr2 => ?_⟩
  rw [getD_set2D_length]; exact h.2 r2 hr2

theorem swapStep_spec {size : Nat} {b : List (List Nat)} (h : Dims size b)
    (r c : Nat) (hr : r < size) (hc : c < size) :
    let b2 := (fun b c =>
      let v := get2D b r c
      if v = 1 then set2D b r c 2
      else if v = 2 then set2D b r c 1
      else b) b c
    Dims size b2 ∧ ∀ r2 c2, get2D b2 r2 c2 =
      if r = r2 ∧ c = c2 then swapVal (get2D b r c) else get2D b r2 c2 := by
  have hrb : r < b.length := by rw [h.1]; exact hr
  have hcb : c < (b.getD r []).length := by rw [h.2 r hr]; exact hc
  simp only
  by_cases h1 : get2D b r c = 1
  · rw [if_pos h1]
    refine ⟨dims_set2D h r c 2, fun r2 c2 => ?_⟩
    rw [get2D_set2D b r c r2 c2 2 hrb hcb, h1]
    rfl
  · rw [if_neg h1]
    by_cases h2 : get2D b r c = 2
    · rw [if_pos h2]
      refine ⟨dims_set2D h r c 1, fun r2 c2 => ?_⟩
      rw [get2D_set2D b r c r2 c2 1 hrb hcb, h2]
      rfl
    · rw [if_neg h2]
      refine ⟨h, fun r2 c2 => ?_⟩
      by_cases he : r = r2 ∧ c = c2
      · rw [if_pos he, ← he.1, ← he.2]
        unfold swapVal
        rw [if_neg h1, if_neg h2]
      · rw [if_neg he]

theorem swapRow_spec {size : Nat} {b : List (List Nat)} (h : Dims size b)
    (r : Nat) (hr : r < size) (k : Nat) (hk : k ≤ size) :
    let bk := (List.range k).foldl (fun b c =>
      let v := get2D b r c
      if v = 1 then set2D b r c 2
      else if v = 2 then set2D b r c 1
      else b) b
    Dims size bk ∧ ∀ r2 c2, get2D bk r2 c2 =
      if r = r2 ∧ c2 < k then swapVal (get2D b r2 c2) else get2D b r2 c2 := by
  induction k with
  | zero => exact ⟨h, fun r2 c2 => by simp⟩
  | succ k ih =>
    have hk1 : k ≤ size := Nat.le_of_succ_le hk
    obtain ⟨hdk, hcell⟩ := ih hk1
    simp only [List.range_succ, List.foldl_append, List.foldl_cons, List.foldl_nil]
    obtain ⟨hd2, hcell2⟩ := swapStep_spec hdk r k hr (Nat.lt_of_succ_le hk)
    refine ⟨hd2, fun r2 c2 => ?_⟩
    rw [hcell2 r2 c2]
    by_cases he : r = r2 ∧ k = c2
    · rw [if_pos he]
      rw [hcell r k]
      rw [if_neg (fun hh => Nat.lt_irrefl k hh.2)]
      rw [← he.1, ← he.2]
      rw [if_pos ⟨rfl, Nat.lt_succ_self k⟩]
    · rw [if_neg he, hcell r2 c2]
      by_cases ho : r = r2 ∧ c2 < k
      · rw [if_pos ho, if_pos ⟨ho.1, Nat.lt_succ_of_lt ho.2⟩]
      · rw [if_neg ho, if_neg]
        intro hh
        rcases Nat.lt_succ_iff_lt_or_eq.mp hh.2 with hlt | heq
        · exact ho ⟨hh.1, hlt⟩
        · exact he ⟨hh.1, heq.symm⟩

theorem swapBoard_spec {size : Nat} {b : List (List Nat)} (h : Dims size b)
    (k : Nat) (hk : k ≤ size) :
    let bk := (List.range k).foldl (fun b r =>
      (List.range size).foldl (fun b c =>
        let v := get2D b r c
        if v = 1 then set2D b r c 2
        else if v = 2 then set2D b r c 1
        else b) b) b
    Dims size bk ∧ ∀ r2 c2, get2D bk r2 c2 =
      if r2 < k ∧ c2 < size then swapVal (get2D b r2 c2) else get2D b r2 c2 := by
  induction k with
  | zero => exact ⟨h, fun r2 c2 => by simp⟩
  | succ k ih =>
    have hk1 : k ≤ size := Nat.le_of_succ_le hk
    obtain ⟨hdk, hcell⟩ := ih hk1
    simp only [List.range_succ, List.foldl_append, List.foldl_cons, List.foldl_nil]
    obtain ⟨hd2, hcell2⟩ := swapRow_spec hdk k (Nat.lt_of_succ_le hk) size (Nat.le_refl size)
    refine ⟨hd2, fun r2 c2 => ?_⟩
    rw [hcell2 r2 c2]
    by_cases he : k = r2
    · subst he
      by_cases hc2 : c2 < size
      · rw [if_pos ⟨rfl, hc2⟩, hcell k c2,
          if_neg (fun hh => Nat.lt_irrefl k hh.1), if_pos ⟨Nat.lt_succ_self k, hc2⟩]
      · rw [if_neg (fun hh => hc2 hh.2), hcell k c2,
          if_neg (fun hh => Nat.lt_irrefl k hh.1), if_neg (fun hh => hc2 hh.2)]
    · rw [if_neg (fun hh => he hh.1), hcell r2 c2]
      by_cases ho : r2 < k ∧ c2 < size
      · rw [if_pos ho, if_pos ⟨Nat.lt_succ_of_lt ho.1, ho.2⟩]
      · rw [if_neg ho, if_neg]
        intro hh
        rcases Nat.lt_succ_iff_lt_or_eq.mp hh.1 with hlt | heq
        · exact ho ⟨hlt, hh.2⟩
        · exact he heq.symm

/-- C2: for every board state, makeMove on an out-of-bounds cell, on an
occupied cell, or when the game is already over returns false and leaves the
entire board state unchanged (grid, side to move, move count, game-over
flag, winner, swap eligibility and move log all keep their prior values). -/
theorem C2_makeMove_rejects_and_preserves (g : HexGame) (row col : Int)
    (h : row < 0 ∨ (g.size : Int) ≤ row ∨ col < 0 ∨ (g.size : Int) ≤ col ∨
         g.cell row col ≠ 0 ∨ g.gameOver = true) :
    g.makeMove row col = (false, g) := by
  have hv : g.isValidMove row col = false ∨ g.gameOver = true := by
    rcases h with h | h | h | h | h | h
    · left; simp [HexGame.isValidMove, h]
    · left; simp [HexGame.isValidMove, h]
    · left; simp [HexGame.isValidMove, h]
    · left; simp [HexGame.isValidMove, h]
    · left; simp [HexGame.isValidMove, h]
    · right; exact h
  unfold HexGame.makeMove
  rcases hv with hv | hv
  · rw [if_pos]; simp [hv]
  · rw [if_pos]; simp [hv]

theorem C2_witness :
    ((5 : Int) < 0 ∨ (c2Demo.size : Int) ≤ 5 ∨ (0 : Int) < 0 ∨
      (c2Demo.size : Int) ≤ 0 ∨ c2Demo.cell 5 0 ≠ 0 ∨ c2Demo.gameOver = true) ∧
    c2Demo.makeMove 5 0 = (false, c2Demo) :=
  ⟨by decide, C2_makeMove_rejects_and_preserves c2Demo 5 0 (by decide)⟩

/-- C3: swapSides succeeds exactly when moveCount equals 1 and swap
eligibility has not been consumed; on success every red stone becomes blue
and every blue stone becomes red across the whole board, eligibility is
cleared, and the side to move is reset to red (the first-moving side); on
failure it returns false with the state unchanged. -/
theorem C3_swapSides_spec (g : HexGame) (hd : g.WFdims) :
    (g.swapSides.1 = true ↔ g.moveCount = 1 ∧ g.swapAvailable = true) ∧
    (g.moveCount = 1 → g.swapAvailable = true →
      (∀ r c, r < g.size → c < g.size →
        get2D g.swapSides.2.board r c = swapVal (get2D g.board r c)) ∧
      g.swapSides.2.swapAvailable = false ∧
      g.swapSides.2.currentPlayer = 1 ∧
      g.swapSides.2.size = g.size ∧
      g.swapSides.2.moveCount = g.moveCount ∧
      g.swapSides.2.gameOver = g.gameOver ∧
      g.swapSides.2.winner = g.winner ∧
      g.swapSides.2.history = g.history) ∧
    (¬(g.moveCount = 1 ∧ g.swapAvailable = true) → g.swapSides = (false, g)) := by
  have hdims : Dims g.size g.board := by
    refine ⟨hd.1, fun r hr => ?_⟩
    have hr2 : r < g.board.length := by rw [hd.1]; exact hr
    have hmem : g.board.getD r [] ∈ g.board := by
      rw [List.getD_eq_getElem?_getD, List.getElem?_eq_getElem hr2]
      exact List.getElem_mem hr2
    exact hd.2 _ hmem
  by_cases hok : g.moveCount = 1 ∧ g.swapAvailable = true
  · have hcond : (g.moveCount ≠ 1 || !g.swapAvailable) = false := by
      simp [hok.1, hok.2]
    refine ⟨?_, fun _ _ => ?_, fun hno => absurd hok hno⟩
    · unfold HexGame.swapSides
      rw [hcond, if_neg Bool.false_ne_true]
      simp [hok.1, hok.2]
    · unfold HexGame.swapSides
      rw [hcond, if_neg Bool.false_ne_true]
      refine ⟨fun r c hr hc => ?_, rfl, rfl, rfl, rfl, rfl, rfl, rfl⟩
      show get2D (swapBoard g.size g.board) r c = swapVal (get2D g.board r c)
      unfold swapBoard
      rw [(swapBoard_spec hdims g.size (Nat.le_refl _)).2 r c, if_pos ⟨hr, hc⟩]
  · have hcond : (g.moveCount ≠ 1 || !g.swapAvailable) = true := by
      by_cases h1 : g.moveCount = 1
      · have h2 : g.swapAvailable = false := by
          cases hsa : g.swapAvailable
          · rfl
          · exact absurd ⟨h1, hsa⟩ hok
        simp [h2]
      · simp [h1]
    unfold HexGame.swapSides
    rw [hcond, if_pos rfl]
    refine ⟨by simpa using hok, fun h1 h2 => absurd ⟨h1, h2⟩ hok, fun _ => rfl⟩

/-- C7 counterexample: bridge detection is not symmetric; the pair
((0,1),(2,1)) is reported virtually connected for red while the swapped pair
((2,1),(0,1)) is not, on the same board. -/
theorem C7_counterexample :
    HexEvaluator.isVirtuallyConnected c7Demo (0, 1) (2, 1) 1 = true ∧
    HexEvaluator.isVirtuallyConnected c7Demo (2, 1) (0, 1) 1 = false := by
  decide

theorem offsetCases (a b : Int) (h : a.natAbs + b.natAbs = 2) :
    (a = 2 ∧ b = 0) ∨ (a = -2 ∧ b = 0) ∨ (a = 0 ∧ b = 2) ∨ (a = 0 ∧ b = -2) ∨
    (a = 1 ∧ b = 1) ∨ (a = -1 ∧ b = -1) ∨ (a = 1 ∧ b = -1) ∨ (a = -1 ∧ b = 1) := by
  omega

/-- C7 amended: virtual-connection detection is symmetric in its two stone
arguments whenever the relative offset of the two cells is not one of
(2,0), (-2,0), (0,2), (0,-2); for those four offsets the two directions
check different intermediate-cell pairs and the verdicts can differ. -/
theorem C7_amended_isVirtuallyConnected_symm (g : HexGame)
    (pos1 pos2 : Int × Int) (player : Nat)
    (h : ¬((pos2.1 - pos1.1 = 2 ∧ pos2.2 - pos1.2 = 0) ∨
           (pos2.1 - pos1.1 = -2 ∧ pos2.2 - pos1.2 = 0) ∨
           (pos2.1 - pos1.1 = 0 ∧ pos2.2 - pos1.2 = 2) ∨
           (pos2.1 - pos1.1 = 0 ∧ pos2.2 - pos1.2 = -2))) :
    HexEvaluator.isVirtuallyConnected g pos1 pos2 player =
      HexEvaluator.isVirtuallyConnected g pos2 pos1 player := by
  obtain ⟨r1, c1⟩ := pos1
  obtain ⟨r2, c2⟩ := pos2
  simp only at h
  by_cases h2 : (r2 - r1).natAbs + (c2 - c1).natAbs = 2
  · rcases offsetCases _ _ h2 with hc | hc | hc | hc | hc | hc | hc | hc
    · exact absurd (Or.inl hc) h
    · exact absurd (Or.inr (Or.inl hc)) h
    · exact absurd (Or.inr (Or.inr (Or.inl hc))) h
    · exact absurd (Or.inr (Or.inr (Or.inr hc))) h
    · obtain ⟨hcr, hcc⟩ := hc
      have hr : r2 = r1 + 1 := by omega
      have hcol : c2 = c1 + 1 := by omega
      subst hr; subst hcol
      simp only [HexEvaluator.isVirtuallyConnected]
      norm_num
    · obtain ⟨hcr, hcc⟩ := hc
      have hr : r2 = r1 - 1 := by omega
      have hcol : c2 = c1 - 1 := by omega
      subst hr; subst hcol
      simp only [HexEvaluator.isVirtuallyConnected]
      norm_num
    · obtain ⟨hcr, hcc⟩ := hc
      have hr : r2 = r1 + 1 := by omega
      have hcol : c2 = c1 - 1 := by omega
      subst hr; subst hcol
      simp only [HexEvaluator.isVirtuallyConnected]
      norm_num
    · obtain ⟨hcr, hcc⟩ := hc
      have hr : r2 = r1 - 1 := by omega
      have hcol : c2 = c1 + 1 := by omega
      subst hr; subst hcol
      simp only [HexEvaluator.isVirtuallyConnected]
      norm_num
  · have h2b : ¬((r1 - r2).natAbs + (c1 - c2).natAbs = 2) := by omega
    simp only [HexEvaluator.isVirtuallyConnected]
    rw [if_neg h2, if_neg h2b]

/-- C7 witness for the amended statement: the diagonal pair ((0,1),(1,2))
has offset (1,1), which is outside the four excluded offsets, and both
orders of the call agree on it. -/
theorem C7_witness :
    (¬((((1 : Int), (2 : Int)).1 - ((0 : Int), (1 : Int)).1 = 2 ∧
        ((1 : Int), (2 : Int)).2 - ((0 : Int), (1 : Int)).2 = 0) ∨
       (((1 : Int), (2 : Int)).1 - ((0 : Int), (1 : Int)).1 = -2 ∧
        ((1 : Int), (2 : Int)).2 - ((0 : Int), (1 : Int)).2 = 0) ∨
       (((1 : Int), (2 : Int)).1 - ((0 : Int), (1 : Int)).1 = 0 ∧
        ((1 : Int), (2 : Int)).2 - ((0 : Int), (1 : Int)).2 = 2) ∨
       (((1 : Int), (2 : Int)).1 - ((0 : Int), (1 : Int)).1 = 0 ∧
        ((1 : Int), (2 : Int)).2 - ((0 : Int), (1 : Int)).2 = -2))) ∧
    HexEvaluator.isVirtuallyConnected c7Demo (0, 1) (1, 2) 1 =
      HexEvaluator.isVirtuallyConnected c7Demo (1, 2) (0, 1) 1 :=
  ⟨by decide, C7_amended_isVirtuallyConnected_symm c7Demo (0, 1) (1, 2) 1 (by decide)⟩

theorem C3_witness :
    c3Demo.WFdims ∧
    ((c3Demo.swapSides.1 = true ↔ c3Demo.moveCount = 1 ∧ c3Demo.swapAvailable = true) ∧
      (c3Demo.moveCount = 1 → c3Demo.swapAvailable = true →
        (∀ r c, r < c3Demo.size → c < c3Demo.size →
          get2D c3Demo.swapSides.2.board r c = swapVal (get2D c3Demo.board r c)) ∧
        c3Demo.swapSides.2.swapAvailable = false ∧
        c3Demo.swapSides.2.currentPlayer = 1 ∧
        c3Demo.swapSides.2.size = c3Demo.size ∧
        c3Demo.swapSides.2.moveCount = c3Demo.moveCount ∧
        c3Demo.swapSides.2.gameOver = c3Demo.gameOver ∧
        c3Demo.swapSides.2.winner = c3Demo.winner ∧
        c3Demo.swapSides.2.history = c3Demo.history) ∧
      (¬(c3Demo.moveCount = 1 ∧ c3Demo.swapAvailable = true) →
        c3Demo.swapSides = (false, c3Demo))) :=
  ⟨by decide, C3_swapSides_spec c3Demo (by decide)⟩
/-- C4: failing input for the claim that the bounded search with beam width
at least the number of legal moves and depth at least the number of empty
cells returns the exact minimax value.  On the empty 1x1 board with red to
move and red as the searching side, depth 1 and beam width 1 satisfy both
bounds (one legal move, one empty cell), the game-theoretic value is +1000
(red wins by playing the only cell), yet the search returns -1000: the leaf
after the winning move is evaluated from the fixed searching side and then
negated once more on the way up. -/
theorem C4_negamax_misses_forced_win :
    c4Demo.getValidMoves.length = 1 ∧
    (HexHeuristicSearch.negamax 1 c4Demo ExtQ.negInf ExtQ.posInf 1 1 []).1.1 =
      ExtQ.fin (Q.ofInt (-1000)) ∧
    minimaxValue 2 c4Demo 1 = 1000 := by
  refine ⟨by decide, by decide, by decide⟩

/-- C5: failing input for the claim that every recursive negamax call
returns a value from the perspective of the side to move at that node, with
a decided leaf worth +1000 to the side whose perspective is taken when that
side is the winner.  In the decided 1x1 game the side to move is red and red
is the winner, so the claimed convention gives +1000; the recursive call
arising in a search for blue (the call negamax with depth 0 and player 2,
reached from the root call negamax 1 c4Demo for blue) returns -1000
instead, because the leaf is evaluated from the fixed searching side rather
than from the side to move. -/
theorem C5_terminal_leaf_uses_search_side_not_mover :
    c5Demo.gameOver = true ∧ c5Demo.winner = some 1 ∧ c5Demo.currentPlayer = 1 ∧
    (HexHeuristicSearch.negamax 0 c5Demo ExtQ.negInf ExtQ.posInf 2 1 []).1.1 =
      ExtQ.fin (Q.ofInt (-1000)) := by
  refine ⟨by decide, by decide, by decide, by decide⟩
theorem foldl_mem_of_step {α β : Type} (s : List β → α → List β) (Q : β → Prop)
    (hs : ∀ acc a x, x ∈ s acc a → x ∈ acc ∨ Q x) :
    ∀ (l : List α) (init : List β) (x : β), x ∈ l.foldl s init → x ∈ init ∨ Q x := by
  intro l
  induction l with
  | nil => intro init x hx; exact Or.inl hx
  | cons a l ih =>
    intro init x hx
    rcases ih (s init a) x hx with h | h
    · exact hs init a x h
    · exact Or.inr h

theorem pickFrom_mem {choice : Nat} {l : List (Int × Int)} {m : Int × Int}
    (h : pickFrom choice l = some m) : m ∈ l := by
  unfold pickFrom at h
  match l, h with
  | a :: t, h => exact List.get?_mem h

theorem listGetD_mem {α : Type} (l : List α) (n : Nat) (d : α) (h : n < l.length) :
    l.getD n d ∈ l := by
  induction l generalizing n with
  | nil => simp at h
  | cons a t ih =>
    cases n with
    | zero => simp
    | succ n =>
      simp only [List.getD_cons_succ]
      exact List.mem_cons_of_mem a (ih n (by simpa using h))

theorem countStones_eq_zero {b : List (List Nat)} (h : countStones b = 0) :
    ∀ r c, get2D b r c = 0 := by
  intro r c
  unfold get2D
  by_cases hr : r < b.length
  · have hrow : b.getD r [] ∈ b := listGetD_mem b r [] hr
    have hall : ∀ v ∈ b.getD r [], v = 0 := by
      intro v hv
      unfold countStones at h
      have hz := (List.sum_eq_zero_iff).mp h _ (List.mem_map_of_mem _ hrow)
      by_contra hne
      have hmem : v ∈ (b.getD r []).filter fun v => v ≠ 0 :=
        List.mem_filter.mpr ⟨hv, by simpa using hne⟩
      rw [List.length_eq_zero.mp hz] at hmem
      exact List.not_mem_nil v hmem
    by_cases hc : c < (b.getD r []).length
    · exact hall _ (listGetD_mem _ c 0 hc)
    · exact List.getD_eq_default _ _ (Nat.le_of_not_lt hc)
  · rw [List.getD_eq_default _ _ (Nat.le_of_not_lt hr)]
    simp
theorem isValidMove_eq_true (g : HexGame) (row col : Int)
    (h1 : 0 ≤ row) (h2 : row < (g.size : Int)) (h3 : 0 ≤ col) (h4 : col < (g.size : Int))
    (h5 : g.cell row col = 0)
    (h6 : g.size = 7 → g.moveCount = 0 → ¬(row = 3 ∧ col = 3)) :
    g.isValidMove row col = true := by
  unfold HexGame.isValidMove
  rw [if_neg (by simp [not_lt.mpr h1, not_le.mpr h2, not_lt.mpr h3, not_le.mpr h4])]
  rw [if_neg (by simp [h5])]
  split
  case isTrue hc =>
    have h37 : ((g.size / 2 : Nat) : Int) = 3 := by rw [hc.1]; rfl
    simp only [h37]
    exact decide_eq_true (h6 hc.1 hc.2)
  case isFalse hc => rfl
/-- Membership in a fold that pushes bounds-validated moves implies the
pushed move passed isValidMove (inner fold of the 7x7 second-move table). -/
theorem opening7Inner_mem (g : HexGame) (row col center : Int) (dr : Int)
    (acc : List (Int × Int)) (x : Int × Int)
    (hx : x ∈ (intRange (-2) 5).foldl (fun acc dc =>
      let nr := row + dr
      let nc := col + dc
      let distToCenter := (nr - center).natAbs + (nc - center).natAbs
      if g.isValidMove nr nc ∧ distToCenter ≤ 2 then acc ++ [(nr, nc)]
      else acc) acc) :
    x ∈ acc ∨ g.isValidMove x.1 x.2 = true := by
  refine foldl_mem_of_step _ (fun x => g.isValidMove x.1 x.2 = true) ?_ _ acc x hx
  intro acc2 dc y hy
  simp only at hy
  split at hy
  case isTrue hcond =>
    rcases List.mem_append.mp hy with h | h
    · exact Or.inl h
    · right
      rcases List.mem_singleton.mp h with rfl
      exact hcond.1
  case isFalse => exact Or.inl hy

/-- C8: for every board state (with the data-model invariants that the move
count equals the number of stones and the history length equals the move
count) and any random draw, the opening book returns none whenever the move
count exceeds 4, and any move it returns is legal on the given board: in
bounds, empty, and not the banned first-move centre on the 7x7 board. -/
theorem C8_openingMove_null_or_legal (g : HexGame) (choice : Nat)
    (hcount : g.moveCount = countStones g.board)
    (hhist : g.history.length = g.moveCount) :
    (4 < g.moveCount → HexOpeningBook.getOpeningMove g choice = none) ∧
    (∀ m, HexOpeningBook.getOpeningMove g choice = some m →
      g.isValidMove m.1 m.2 = true) := by
  constructor
  · intro h4
    unfold HexOpeningBook.getOpeningMove
    rw [if_pos h4]
  · intro m hm
    unfold HexOpeningBook.getOpeningMove at hm
    by_cases h4 : 4 < g.moveCount
    · rw [if_pos h4] at hm; cases hm
    rw [if_neg h4] at hm
    by_cases h7 : g.size = 7
    · rw [if_pos h7] at hm
      unfold HexOpeningBook.getOpening7x7 at hm
      by_cases hm0 : g.moveCount = 0
      · rw [if_pos hm0] at hm
        have hz : ∀ r c, get2D g.board r c = 0 :=
          countStones_eq_zero (by omega)
        have hmem := pickFrom_mem hm
        have hcell : ∀ a b : Int, g.cell a b = 0 := fun a b => hz _ _
        fin_cases hmem <;>
          exact isValidMove_eq_true g _ _ (by decide) (by rw [h7]; decide)
            (by decide) (by rw [h7]; decide) (hcell _ _) (fun _ _ => by decide)
      · rw [if_neg hm0] at hm
        by_cases hm1 : g.moveCount = 1 ∧ g.currentPlayer = 2
        · rw [if_pos hm1] at hm
          cases hh : g.history with
          | nil =>
            rw [hh] at hhist
            simp at hhist
            omega
          | cons lastMove t =>
            rw [hh] at hm
            simp only at hm
            have hmem := pickFrom_mem hm
            have hout := foldl_mem_of_step _
              (fun x => g.isValidMove x.1 x.2 = true)
              (fun acc dr x hx => opening7Inner_mem g _ _ _ dr acc x hx)
              _ _ _ hmem
            rcases hout with hin | hq
            · have hfrom := foldl_mem_of_step _
                (fun x => g.isValidMove x.1 x.2 = true) ?_ _ _ _ hin
              · rcases hfrom with hnil | hq
                · cases hnil
                · exact hq
              · intro acc2 n y hy
                simp only at hy
                split at hy
                next hcond =>
                  rcases List.mem_append.mp hy with h | h
                  · exact Or.inl h
                  · rcases List.mem_singleton.mp h with rfl
                    exact Or.inr hcond
                next => exact Or.inl hy
            · exact hq
        · rw [if_neg hm1] at hm
          cases hm
    rw [if_neg h7] at hm
    by_cases h11 : g.size = 11
    · rw [if_pos h11] at hm
      unfold HexOpeningBook.getOpening11x11 at hm
      by_cases hm0 : g.moveCount = 0
      · rw [if_pos hm0] at hm
        have hz : ∀ r c, get2D g.board r c = 0 :=
          countStones_eq_zero (by omega)
        have hcell : ∀ a b : Int, g.cell a b = 0 := fun a b => hz _ _
        have hmem := pickFrom_mem hm
        fin_cases hmem <;>
          exact isValidMove_eq_true g _ _ (by decide) (by rw [h11]; decide)
            (by decide) (by rw [h11]; decide) (hcell _ _)
            (fun hs _ => absurd (h11.symm.trans hs) (by decide))
      · rw [if_neg hm0] at hm
        cases hm
    rw [if_neg h11] at hm
    by_cases h13 : g.size = 13
    · rw [if_pos h13] at hm
      unfold HexOpeningBook.getOpening13x13 at hm
      by_cases hm0 : g.moveCount = 0
      · rw [if_pos hm0] at hm
        have hz : ∀ r c, get2D g.board r c = 0 :=
          countStones_eq_zero (by omega)
        have hcell : ∀ a b : Int, g.cell a b = 0 := fun a b => hz _ _
        have hmem := pickFrom_mem hm
        fin_cases hmem <;>
          exact isValidMove_eq_true g _ _ (by decide) (by rw [h13]; decide)
            (by decide) (by rw [h13]; decide) (hcell _ _)
            (fun hs _ => absurd (h13.symm.trans hs) (by decide))
      · rw [if_neg hm0] at hm
        cases hm
    rw [if_neg h13] at hm
    unfold HexOpeningBook.getDefaultOpening at hm
    have hmem := pickFrom_mem hm
    have hout := foldl_mem_of_step _
      (fun x => g.isValidMove x.1 x.2 = true) ?_ _ _ _ hmem
    · rcases hout with hnil | hq
      · cases hnil
      · exact hq
    · intro acc dr x hx
      refine foldl_mem_of_step _ (fun x => g.isValidMove x.1 x.2 = true) ?_ _ _ _ hx
      intro acc2 dc y hy
      simp only at hy
      split at hy
      next => exact Or.inl hy
      next =>
        split at hy
        next hcond =>
          rcases List.mem_append.mp hy with h | h
          · exact Or.inl h
          · rcases List.mem_singleton.mp h with rfl
            exact Or.inr hcond
        next => exact Or.inl hy
/-- C8 witness: the empty 7x7 board satisfies the invariants and the
opening-book guarantees hold on it. -/
theorem C8_witness :
    (c8Demo.moveCount = countStones c8Demo.board ∧
      c8Demo.history.length = c8Demo.moveCount) ∧
    ((4 < c8Demo.moveCount → HexOpeningBook.getOpeningMove c8Demo 0 = none) ∧
     (∀ m, HexOpeningBook.getOpeningMove c8Demo 0 = some m →
       c8Demo.isValidMove m.1 m.2 = true)) :=
  ⟨⟨by decide, by decide⟩,
    C8_openingMove_null_or_legal c8Demo 0 (by decide) (by decide)⟩

/-- C6: failing input for the RAVE-update claim.  Two MCTS iterations on
c6Game with the AI playing red: the first expands the child (1,3) (red's
top-priority move) and simulates blue's immediate win at (0,3); the second
expands the child (0,3) and simulates blue's immediate win at (1,3), so the
second episode consists of the single move (1,3) played by blue (the
expanded child's position has blue to move and the episode has exactly one
move).  The sibling child carrying move (1,3) sits under the root, where
red is to move, so the side that would make that move at the sibling's
position is red; red never played (1,3) in the episode, so under the
claimed update the sibling receives no RAVE visit.  The code increments its
RAVE visit count to 1 anyway: the episode records the post-makeMove player
(which for a winning move is the mover itself), and backpropagation
compares that recorded player against the current node's side to move, so
the game-winning move of each episode is credited to the wrong side. -/
theorem C6_rave_update_credits_wrong_side :
    c6Result2.playedMoves = [((1, 3), 2)] ∧
    c6Result2.winner = some 2 ∧
    (c6Pool2.getD 2 MCTSNode.dummy).move = some (0, 3) ∧
    (c6Pool2.getD 2 MCTSNode.dummy).game.currentPlayer = 2 ∧
    (c6Pool2.getD 1 MCTSNode.dummy).move = some (1, 3) ∧
    (c6Pool2.getD 1 MCTSNode.dummy).parent = some 0 ∧
    (c6Pool2.getD 0 MCTSNode.dummy).game.currentPlayer = 1 ∧
    (c6Pool2.getD 1 MCTSNode.dummy).raveVisits = 1 := by
  refine ⟨by decide, by decide, by decide, by decide, by decide, by decide,
    by decide, by decide⟩
/-- C9: failing input for the claim that every strategy returns null when no
legal move exists.  On the finished 1x1 game (board full, red has won)
RandomAI.getMove does return null in both modes, but MCTSAI.getBestMove
does not: the opening book, the critical-move check and the heuristic
search all fall through (the heuristic search returns a null move at a
terminal position), the MCTS loop never expands the terminal root, and the
final best-child selection reads children[0] of an empty list, a JavaScript
TypeError, modelled as an error result.  The run uses one simulation; any
simulation count crashes the same way since the terminal root never gains
children. -/
theorem C9_mcts_errors_on_exhausted_moves :
    c5Demo.getValidMoves = [] ∧
    RandomAI.getMove false c5Demo 0 = none ∧
    RandomAI.getMove true c5Demo 0 = none ∧
    MCTSAI.getBestMove 1 1 Difficulty.medium c5Demo 0 c6Selector c6Pick =
      Except.error "TypeError: cannot read visits of undefined" := by
  refine ⟨by decide, by decide, by decide, ?_⟩
  rfl
theorem snapshots_initCell (s : FastHexGame) (i p : Nat) :
    (s.initCell i p).snapshots = s.snapshots := rfl

theorem snapshots_unionGroups (s : FastHexGame) (i j : Nat) :
    (s.unionGroups i j).snapshots = s.snapshots := by
  unfold FastHexGame.unionGroups
  dsimp only
  split <;> rfl

theorem snapshots_foldl {α : Type} (f : FastHexGame → α → FastHexGame)
    (h : ∀ s a, (f s a).snapshots = s.snapshots) :
    ∀ (l : List α) (s : FastHexGame), (l.foldl f s).snapshots = s.snapshots := by
  intro l
  induction l with
  | nil => intro s; rfl
  | cons a t ih => intro s; rw [List.foldl_cons, ih, h]

theorem snapshots_unionStep (idx : Nat) (s : FastHexGame) (a : Nat) :
    ((if s.board a = s.currentPlayer then s.unionGroups idx a else s)).snapshots
      = s.snapshots := by
  split
  · exact snapshots_unionGroups _ _ _
  · rfl

theorem snapshots_makeMove (s : FastHexGame) (r c : Nat) :
    (s.makeMove r c).snapshots = s.snapshots :=
  (snapshots_foldl _ (snapshots_unionStep _) _ _).trans (snapshots_initCell _ _ _)

theorem snapshots_checkWinLoop (player mask : Nat) :
    ∀ (l : List Nat) (s : FastHexGame),
      (FastHexGame.checkWinLoop player mask s l).2.snapshots = s.snapshots := by
  intro l
  induction l with
  | nil => intro s; rfl
  | cons i rest ih =>
    intro s
    unfold FastHexGame.checkWinLoop
    dsimp only
    split
    · split
      · rfl
      · exact ih _
    · exact ih _

theorem snapshots_checkWin (s : FastHexGame) (player : Nat) :
    (s.checkWin player).2.snapshots = s.snapshots :=
  snapshots_checkWinLoop _ _ _ _

theorem snapshots_playoutSmart :
    ∀ (fuel : Nat) (rng : List Nat) (s : FastHexGame),
      (FastHexGame.playoutSmart rng fuel s).2.snapshots = s.snapshots := by
  intro fuel
  induction fuel with
  | zero => intro rng s; rfl
  | succ fuel ih =>
    intro rng s
    unfold FastHexGame.playoutSmart
    dsimp only
    split
    · exact snapshots_checkWin _ _
    · split
      · exact (snapshots_checkWin _ _).trans (snapshots_checkWin _ _)
      · split
        · exact (snapshots_checkWin _ _).trans (snapshots_checkWin _ _)
        · refine (ih _ _).trans ?_
          refine ((snapshots_foldl _ (snapshots_unionStep _) _ _).trans
            (snapshots_initCell _ _ _)).trans ?_
          exact (snapshots_checkWin _ _).trans (snapshots_checkWin _ _)

theorem snapshots_applyOp (s : FastHexGame) (op : FastOp) :
    (s.applyOp op).snapshots = s.snapshots := by
  cases op with
  | move r c => exact snapshots_makeMove s r c
  | playout rng => exact snapshots_playoutSmart _ _ _

theorem snapshots_applyOps (ops : List FastOp) (s : FastHexGame) :
    (s.applyOps ops).snapshots = s.snapshots :=
  snapshots_foldl _ snapshots_applyOp ops s

/-- C10: for every source game and every interleaving of makeMove and
playoutSmart calls (with any random draws), reset restores the observable
state exactly to its construction-time snapshot: flat board, current
player, filled-cell count, empty-cell list, boundary-status masks and the
union-find parent array are as at construction, and the move history is
empty. -/
theorem C10_reset_restores_construction_state (src : HexGame) (ops : List FastOp) :
    ((FastHexGame.init src).applyOps ops).reset.board = (FastHexGame.init src).board ∧
    ((FastHexGame.init src).applyOps ops).reset.currentPlayer =
      (FastHexGame.init src).currentPlayer ∧
    ((FastHexGame.init src).applyOps ops).reset.filledCount =
      (FastHexGame.init src).filledCount ∧
    ((FastHexGame.init src).applyOps ops).reset.emptyCells =
      (FastHexGame.init src).emptyCells ∧
    ((FastHexGame.init src).applyOps ops).reset.groupStatus =
      (FastHexGame.init src).groupStatus ∧
    ((FastHexGame.init src).applyOps ops).reset.parent =
      (FastHexGame.init src).parent ∧
    ((FastHexGame.init src).applyOps ops).reset.movesHistory = [] := by
  have hsnap := snapshots_applyOps ops (FastHexGame.init src)
  have h1 := congrArg (fun t => t.1) hsnap
  have h2 := congrArg (fun t => t.2.1) hsnap
  have h3 := congrArg (fun t => t.2.2.1) hsnap
  have h4 := congrArg (fun t => t.2.2.2.1) hsnap
  have h5 := congrArg (fun t => t.2.2.2.2.1) hsnap
  have h6 := congrArg (fun t => t.2.2.2.2.2) hsnap
  simp only [FastHexGame.snapshots] at h1 h2 h3 h4 h5 h6
  refine ⟨h1, h2, h6, h3, h4, h5, rfl⟩
